import Mathlib

/-!
# Scramblyzer: the flip-flop hysteresis automaton and the leaflet counts

Shallow embedding of `find_flipflops` (src/flipflops.c) and of the frame loop
that drives it, of the argument checks, of `get_lipid_composition`
(src/general.c) and of the classification loops of the rate and composition
modules (src/rate.c, src/composition.c).

Modelling decisions.
* `dist` and `spatial_limit` are C `float`s that are only ever compared
  (`>`, `<`) and negated; both operations are exact on finite floats, so they
  are modelled as rationals `ℚ`.  `distance1D` belongs to the external groan
  library: a frame is given directly by the signed distances of the head atoms.
* `assignment[j]` and `time_frames` are C `int`s.  `updateAssignment`,
  `atomBody` and `atomRun` compute with them in `Int`; `updateAssignment32`,
  `atomBody32` and `atomRun32` are the same code with every arithmetic result
  wrapped to 32 bits (`wrapInt32`).  The two agree whenever `time_frames + 1`
  is representable (`updateAssignment32_eq`, `atomRun32_eq`); they differ for
  `time_frames = 2147483647`, where `time_frames + 1` overflows.  Signed
  overflow has no defined result in C; the 32-bit definitions take the
  two's-complement value, which is what the compiled program stores.
* The event counts are `size_t`, modelled as `Nat` (only ever incremented).
* Simulation times and the time step `dt` are C `float`s.  A float is a
  rational number, and every floating-point operation whose result need not
  be a float again is followed by an explicit rounding to nearest, ties to
  even (`roundToFloat`, `roundToDouble`): the difference of two times in the
  gap test of `calc_lipid_flipflops`, the product `dt * 1000`, the cast
  `(float) scrambled` and the double operations of the percentage of the rate
  module.  Infinities and NaN are not modelled.  The cast `(int) x` of a float
  truncates and is followed by `castInt32`.
* Selections and dictionaries of the external groan library are lists and
  association lists; reading files is outside the model.
-/

namespace Scramblyzer

/-- Counter update of a single head atom: the four zone branches of the
`if`/`else if` chain of `find_flipflops` (flipflops.c lines 31-84).  `a` is
`assignment[j]` before the frame, the result is `assignment[j]` after it.
The arithmetic is that of `Int`; `updateAssignment32` is the same chain in
the arithmetic of a 32-bit `int`. -/
def updateAssignment (spatial_limit : ℚ) (time_frames : Int) (dist : ℚ) (a : Int) : Int :=
  -- UPPER LEAFLET
  if dist > spatial_limit then
    if a > time_frames then a
    else if a > 0 then a + 1
    else if a ≤ -time_frames then 1
    else if a < 0 then time_frames + 1
    else if a = 0 then time_frames + 1
    else a
  -- INTERMEDIATE UPPER LEAFLET
  else if dist > 0 then
    if a > time_frames then a
    else if a > 0 then a + 1
    else if a ≤ -time_frames then a
    else if a < 0 then time_frames + 1
    else if a = 0 then time_frames + 1
    else a
  -- LOWER LEAFLET
  else if dist < -spatial_limit then
    if a ≥ time_frames then -1
    else if a > 0 then -time_frames - 1
    else if a < -time_frames then a
    else if a < 0 then a - 1
    else if a = 0 then -time_frames - 1
    else a
  -- INTERMEDIATE LOWER LEAFLET
  else if dist < 0 then
    if a ≥ time_frames then a
    else if a > 0 then -time_frames - 1
    else if a < -time_frames then a
    else if a < 0 then a - 1
    else if a = 0 then -time_frames - 1
    else a
  else a

/-- Per-atom state threaded through the loops of `find_flipflops`:
`assignment[j]` of the atom together with the two event counts of its lipid
type, `flipflops_upper_lower[i]` and `flipflops_lower_upper[i]`. -/
structure AtomState where
  assignment : Int
  upper_lower : Nat
  lower_upper : Nat
  deriving DecidableEq, Repr

/-- Body of the inner loop of `find_flipflops` for one atom (lines 29-91):
update the counter, then test the new value against `time_frames`. -/
def atomBody (spatial_limit : ℚ) (time_frames : Int) (dist : ℚ) (s : AtomState) : AtomState :=
  let a := updateAssignment spatial_limit time_frames dist s.assignment
  if a = time_frames ∧ dist > 0 then
    { assignment := a, upper_lower := s.upper_lower, lower_upper := s.lower_upper + 1 }
  else if a = -time_frames ∧ dist < 0 then
    { assignment := a, upper_lower := s.upper_lower + 1, lower_upper := s.lower_upper }
  else
    { assignment := a, upper_lower := s.upper_lower, lower_upper := s.lower_upper }

/-- Inner loop of `find_flipflops` (lines 28-92) over the head atoms of one
lipid type: `dists` are the distances of the atoms, `assignment` their
counters, `ul` and `lu` the two event counts of the type. -/
def selectionLoop (spatial_limit : ℚ) (time_frames : Int) :
    List ℚ → List Int → Nat → Nat → List Int × Nat × Nat
  | d :: ds, a :: as, ul, lu =>
    let s := atomBody spatial_limit time_frames d
      { assignment := a, upper_lower := ul, lower_upper := lu }
    let r := selectionLoop spatial_limit time_frames ds as s.upper_lower s.lower_upper
    (s.assignment :: r.1, r.2.1, r.2.2)
  | _, as, ul, lu => (as, ul, lu)

/-- Whole-system state of the flip-flop analysis: `classified[i][j]`,
`flipflops_upper_lower[i]` and `flipflops_lower_upper[i]`. -/
structure FlipflopState where
  classified : List (List Int)
  flipflops_upper_lower : List Nat
  flipflops_lower_upper : List Nat
  deriving DecidableEq, Repr

/-- Outer loop of `find_flipflops` (lines 22-93) over the lipid types, on
explicit lists. -/
def typesLoop (spatial_limit : ℚ) (time_frames : Int) :
    List (List ℚ) → List (List Int) → List Nat → List Nat →
      List (List Int) × List Nat × List Nat
  | ds :: dss, as :: ass, ul :: uls, lu :: lus =>
    let r := selectionLoop spatial_limit time_frames ds as ul lu
    let rest := typesLoop spatial_limit time_frames dss ass uls lus
    (r.1 :: rest.1, r.2.1 :: rest.2.1, r.2.2 :: rest.2.2)
  | _, ass, uls, lus => (ass, uls, lus)

/-- One call of `find_flipflops` on an analyzed frame.  `frame[i][j]` is the
signed distance of head atom `j` of lipid type `i` from the membrane center. -/
def find_flipflops (spatial_limit : ℚ) (time_frames : Int) (frame : List (List ℚ))
    (st : FlipflopState) : FlipflopState :=
  let r := typesLoop spatial_limit time_frames frame st.classified
    st.flipflops_upper_lower st.flipflops_lower_upper
  { classified := r.1, flipflops_upper_lower := r.2.1, flipflops_lower_upper := r.2.2 }

/-- States after each analyzed frame when `find_flipflops` is applied to the
frames in order (the analysis part of the `while` loop of
`calc_lipid_flipflops`). -/
def flipflopTrace (spatial_limit : ℚ) (time_frames : Int) :
    List (List (List ℚ)) → FlipflopState → List FlipflopState
  | [], _ => []
  | f :: fs, st =>
    let st1 := find_flipflops spatial_limit time_frames f st
    st1 :: flipflopTrace spatial_limit time_frames fs st1

/-- State of one atom after the loop body has been applied to it once per
frame, for the frame distances `ds` in order. -/
def atomRun (spatial_limit : ℚ) (time_frames : Int) : List ℚ → AtomState → AtomState
  | [], s => s
  | d :: ds, s => atomRun spatial_limit time_frames ds (atomBody spatial_limit time_frames d s)

/-- Initial state of an atom: the counter comes from `calloc`, the counts of
its lipid type are whatever has been accumulated so far. -/
def atomInit (ul lu : Nat) : AtomState :=
  { assignment := 0, upper_lower := ul, lower_upper := lu }

/-- The loop body credits a lower->upper flip-flop to the lipid type of an atom
with counter `c` at distance `dist`: `flipflops_lower_upper[i]` is incremented. -/
def emitsLowerUpper (spatial_limit : ℚ) (time_frames : Int) (dist : ℚ) (c : Int) : Bool :=
  decide ((atomBody spatial_limit time_frames dist
    { assignment := c, upper_lower := 0, lower_upper := 0 }).lower_upper = 1)

/-- The loop body credits an upper->lower flip-flop to the lipid type of an atom
with counter `c` at distance `dist`: `flipflops_upper_lower[i]` is incremented. -/
def emitsUpperLower (spatial_limit : ℚ) (time_frames : Int) (dist : ℚ) (c : Int) : Bool :=
  decide ((atomBody spatial_limit time_frames dist
    { assignment := c, upper_lower := 0, lower_upper := 0 }).upper_lower = 1)

/-- Mirror image of an atom state: counter negated, the two counts swapped. -/
def AtomState.mirror (s : AtomState) : AtomState :=
  { assignment := -s.assignment, upper_lower := s.lower_upper, lower_upper := s.upper_lower }

/-- Range of a C `int` (32 bits, two's complement). -/
def inIntRange (x : Int) : Prop := -2147483648 ≤ x ∧ x ≤ 2147483647

/-- Value held by a 32-bit two's-complement `int` after an arithmetic result
`x`: `x` itself when it is representable, otherwise `x` reduced modulo `2^32`
into the range of `int`. -/
def wrapInt32 (x : Int) : Int := (x + 2147483648) % 4294967296 - 2147483648

/-- Counter update of `find_flipflops` (flipflops.c lines 31-84) in the
arithmetic of C `int`: the branches of `updateAssignment`, with the result of
every `+`, `-` and unary `-` wrapped to 32 bits. -/
def updateAssignment32 (spatial_limit : ℚ) (time_frames : Int) (dist : ℚ) (a : Int) : Int :=
  -- UPPER LEAFLET
  if dist > spatial_limit then
    if a > time_frames then a
    else if a > 0 then wrapInt32 (a + 1)
    else if a ≤ wrapInt32 (-time_frames) then 1
    else if a < 0 then wrapInt32 (time_frames + 1)
    else if a = 0 then wrapInt32 (time_frames + 1)
    else a
  -- INTERMEDIATE UPPER LEAFLET
  else if dist > 0 then
    if a > time_frames then a
    else if a > 0 then wrapInt32 (a + 1)
    else if a ≤ wrapInt32 (-time_frames) then a
    else if a < 0 then wrapInt32 (time_frames + 1)
    else if a = 0 then wrapInt32 (time_frames + 1)
    else a
  -- LOWER LEAFLET
  else if dist < -spatial_limit then
    if a ≥ time_frames then -1
    else if a > 0 then wrapInt32 (wrapInt32 (-time_frames) - 1)
    else if a < wrapInt32 (-time_frames) then a
    else if a < 0 then wrapInt32 (a - 1)
    else if a = 0 then wrapInt32 (wrapInt32 (-time_frames) - 1)
    else a
  -- INTERMEDIATE LOWER LEAFLET
  else if dist < 0 then
    if a ≥ time_frames then a
    else if a > 0 then wrapInt32 (wrapInt32 (-time_frames) - 1)
    else if a < wrapInt32 (-time_frames) then a
    else if a < 0 then wrapInt32 (a - 1)
    else if a = 0 then wrapInt32 (wrapInt32 (-time_frames) - 1)
    else a
  else a

/-- Body of the inner loop of `find_flipflops` for one atom (lines 29-91) in
the arithmetic of C `int`. -/
def atomBody32 (spatial_limit : ℚ) (time_frames : Int) (dist : ℚ) (s : AtomState) :
    AtomState :=
  let a := updateAssignment32 spatial_limit time_frames dist s.assignment
  if a = time_frames ∧ dist > 0 then
    { assignment := a, upper_lower := s.upper_lower, lower_upper := s.lower_upper + 1 }
  else if a = wrapInt32 (-time_frames) ∧ dist < 0 then
    { assignment := a, upper_lower := s.upper_lower + 1, lower_upper := s.lower_upper }
  else
    { assignment := a, upper_lower := s.upper_lower, lower_upper := s.lower_upper }

/-- State of one atom after `atomBody32` has been applied to it once per frame,
for the frame distances `ds` in order. -/
def atomRun32 (spatial_limit : ℚ) (time_frames : Int) : List ℚ → AtomState → AtomState
  | [], s => s
  | d :: ds, s =>
    atomRun32 spatial_limit time_frames ds (atomBody32 spatial_limit time_frames d s)

/-- The loop body in `int` arithmetic credits a lower->upper flip-flop to the
lipid type of an atom with counter `c` at distance `dist`. -/
def emitsLowerUpper32 (spatial_limit : ℚ) (time_frames : Int) (dist : ℚ) (c : Int) : Bool :=
  decide ((atomBody32 spatial_limit time_frames dist
    { assignment := c, upper_lower := 0, lower_upper := 0 }).lower_upper = 1)

/-- The loop body in `int` arithmetic credits an upper->lower flip-flop to the
lipid type of an atom with counter `c` at distance `dist`. -/
def emitsUpperLower32 (spatial_limit : ℚ) (time_frames : Int) (dist : ℚ) (c : Int) : Bool :=
  decide ((atomBody32 spatial_limit time_frames dist
    { assignment := c, upper_lower := 0, lower_upper := 0 }).upper_lower = 1)

/-! ## Floating-point rounding -/

/-- Rounding of a rational to the nearest integer, ties to the even integer
(the rounding mode of IEEE 754 arithmetic in a C program that does not change
it). -/
def roundHalfEven (x : ℚ) : Int :=
  let f := Rat.floor x
  if x - f < 1 / 2 then f
  else if 1 / 2 < x - f then f + 1
  else if f % 2 = 0 then f
  else f + 1

/-- Unit in the last place at the magnitude of `x` in a binary floating-point
format with `p` significant bits whose smallest positive number is `2 ^ emin`:
`2 ^ (e - (p - 1))` for `2 ^ e ≤ |x| < 2 ^ (e + 1)`, and not below `2 ^ emin`. -/
def ulp (p : Nat) (emin : Int) (x : ℚ) : ℚ :=
  (2 : ℚ) ^ max (Int.log 2 |x| - ((p : Int) - 1)) emin

/-- Rounding of a rational to the nearest number of the format with `p`
significant bits, ties to even.  Results beyond the largest finite number of
the format (infinities) are not modelled. -/
def roundToPrecision (p : Nat) (emin : Int) (x : ℚ) : ℚ :=
  (roundHalfEven (x / ulp p emin x) : ℚ) * ulp p emin x

/-- Rounding to a C `float` (IEEE 754 binary32: 24 significant bits, smallest
positive number `2^-149`). -/
def roundToFloat (x : ℚ) : ℚ := roundToPrecision 24 (-149) x

/-- Rounding to a C `double` (IEEE 754 binary64: 53 significant bits, smallest
positive number `2^-1074`). -/
def roundToDouble (x : ℚ) : ℚ := roundToPrecision 53 (-1074) x

/-- Result of a conversion to `int` whose mathematical value is `t`: `t` when
it is representable.  For other values C defines no result; the definition
takes `-2147483648`, the value the conversion instruction of x86-64 delivers. -/
def castInt32 (t : Int) : Int :=
  if -2147483648 ≤ t ∧ t ≤ 2147483647 then t else -2147483648

/-! ## The frame loop of `calc_lipid_flipflops` -/

/-- One frame delivered by `read_xtc_step`: the simulation time in ps and, for
every lipid type `i` and head atom `j`, the signed distance `dists[i][j]` of
the atom from the membrane center (what `distance1D` returns in that frame). -/
structure TrajFrame where
  time : ℚ
  dists : List (List ℚ)
  deriving DecidableEq, Repr

/-- The C cast `(int) x` of a float `x`: truncation toward zero, converted to
`int` (`castInt32`). -/
def truncToInt (x : ℚ) : Int := castInt32 (if 0 ≤ x then Rat.floor x else Rat.ceil x)

/-- The C expression `(int) roundf(e)` for a float expression `e` whose exact
value is `x` (in the source `e` is the product `dt * 1000` of two floats): the
value of `e` is `x` rounded to a float, `roundf` gives the nearest integer,
halfway cases away from zero, and the cast converts it to `int`. -/
def roundf (x : ℚ) : Int :=
  let y := roundToFloat x
  castInt32 (if 0 ≤ y then Rat.floor (y + 1 / 2) else Rat.ceil (y - 1 / 2))

/-- The `while` loop of `calc_lipid_flipflops` (flipflops.c lines 265-303).
Frames whose truncated time is not a multiple of 1000 ps are skipped; an
analyzed frame for which the float difference `system->time - prevtime`
exceeds 1000 makes the function return 1; otherwise `find_flipflops` is
applied.  The result is the return code together with the states after each
call of `find_flipflops`. -/
def flipflopsLoop (spatial_limit : ℚ) (temporal_limit : Int) :
    List TrajFrame → ℚ → FlipflopState → Int × List FlipflopState
  | [], _, _ => (0, [])
  | f :: fs, prevtime, st =>
    if truncToInt f.time % 1000 ≠ 0 then
      flipflopsLoop spatial_limit temporal_limit fs prevtime st
    else if prevtime ≥ 0 ∧ roundToFloat (f.time - prevtime) > 1000 then
      (1, [])
    else
      let st1 := find_flipflops spatial_limit temporal_limit f.dists st
      let r := flipflopsLoop spatial_limit temporal_limit fs f.time st1
      (r.1, st1 :: r.2)

/-- The frames that pass the test of line 274 of flipflops.c (truncated time a
multiple of 1000 ps): the analyzed frames. -/
def analyzedFrames (frames : List TrajFrame) : List TrajFrame :=
  frames.filter (fun f => decide (truncToInt f.time % 1000 = 0))

/-! ## Lipid composition (general.c) -/

/-- An atom of the system as far as `get_lipid_composition` looks at it: the
residue name and whether the atom is matched by the head identifier. -/
structure Atom where
  residue_name : String
  is_head : Bool
  deriving DecidableEq, Repr

/-- The fields of `lipid_composition_t`; `lipid_types` and `n_lipid_types` are
the keys of the dictionary and their number (`dict_keys`). -/
structure LipidComposition where
  all_lipid_atoms : List Atom
  lipids_dictionary : List (String × List Atom)
  deriving DecidableEq, Repr

/-- The field `n_lipid_types`, set from `dict_keys` (general.c line 170). -/
def LipidComposition.n_lipid_types (c : LipidComposition) : Nat :=
  c.lipids_dictionary.length

/-- The dictionary operation `dict_set` on an association list: the value of an
existing key is replaced, a new key is appended. -/
def dict_set (d : List (String × List Atom)) (key : String) (value : List Atom) :
    List (String × List Atom) :=
  if d.any (fun p => p.1 == key) then
    d.map (fun p => if p.1 == key then (key, value) else p)
  else d ++ [(key, value)]

/-- The loop of `get_lipid_composition` over the lipid names (general.c lines
134-162).  `all` are the atoms of the system. -/
def compositionLoop (all : List Atom) : List String → LipidComposition → LipidComposition
  | [], c => c
  | name :: names, c =>
    let lipid_type := all.filter (fun a => a.residue_name == name)
    if lipid_type.length = 0 then compositionLoop all names c
    else
      let c1 : LipidComposition :=
        { all_lipid_atoms := c.all_lipid_atoms ++ lipid_type,
          lipids_dictionary := c.lipids_dictionary }
      let lipid_type_heads := lipid_type.filter (fun a => a.is_head)
      if lipid_type_heads.length = 0 then compositionLoop all names c1
      else
        compositionLoop all names
          { all_lipid_atoms := c1.all_lipid_atoms,
            lipids_dictionary := dict_set c1.lipids_dictionary name lipid_type_heads }

/-- The function `get_lipid_composition` on the atoms of the system and the
lipid names delivered by `read_lipid_names`. -/
def get_lipid_composition (all : List Atom) (lipid_names : List String) : LipidComposition :=
  compositionLoop all lipid_names { all_lipid_atoms := [], lipids_dictionary := [] }

/-- The arrays allocated by `calc_lipid_flipflops` with `calloc` (lines 255-263). -/
def initialFlipflopState (composition : LipidComposition) : FlipflopState :=
  { classified := composition.lipids_dictionary.map (fun p => List.replicate p.2.length 0),
    flipflops_upper_lower := composition.lipids_dictionary.map (fun _ => 0),
    flipflops_lower_upper := composition.lipids_dictionary.map (fun _ => 0) }

/-- The function `calc_lipid_flipflops` from the composition on: the check for
an empty composition (lines 229-235), then the frame loop.  Reading the files
is outside the model. -/
def calc_lipid_flipflops (spatial_limit : ℚ) (temporal_limit : Int)
    (composition : LipidComposition) (frames : List TrajFrame) : Int × List FlipflopState :=
  if composition.n_lipid_types < 1 then (1, [])
  else flipflopsLoop spatial_limit temporal_limit frames (-1) (initialFlipflopState composition)

/-! ## Argument parsing of the flipflops module -/

/-- One option as delivered by `getopt` with the option string `"c:f:n:p:s:t:h"`.
For `-s` and `-t` the argument is given by what `sscanf` reads from it (`none`
when `sscanf` does not return 1). -/
inductive FlipflopsOption where
  | help
  | gro (arg : String)
  | xtc (arg : String)
  | ndx (arg : String)
  | phosphates (arg : String)
  | spatial (scanned : Option ℚ)
  | temporal (scanned : Option Int)
  | unknown
  deriving DecidableEq, Repr

/-- The output parameters of `get_arguments_flipflops`. -/
structure FlipflopsArgs where
  gro_file : Option String
  xtc_file : Option String
  ndx_file : String
  phosphates : String
  spatial_limit : ℚ
  temporal_limit : Int
  deriving DecidableEq, Repr

/-- The values `main` initialises the parameters with (main.c lines 66-71). -/
def defaultFlipflopsArgs : FlipflopsArgs :=
  { gro_file := none, xtc_file := none, ndx_file := "index.ndx", phosphates := "name PO4",
    spatial_limit := 3 / 2, temporal_limit := 10 }

/-- The `while`/`switch` of `get_arguments_flipflops` (flipflops.c lines 120-181)
over the options in command-line order, followed by the final check that both
files were given.  The first component is the return value. -/
def getArgumentsLoop :
    List FlipflopsOption → FlipflopsArgs → Bool → Bool → Int × FlipflopsArgs
  | [], a, gro_specified, xtc_specified =>
    if !gro_specified || !xtc_specified then (1, a) else (0, a)
  | FlipflopsOption.help :: _, a, _, _ => (1, a)
  | FlipflopsOption.gro arg :: os, a, _, xtc_specified =>
    getArgumentsLoop os { a with gro_file := some arg } true xtc_specified
  | FlipflopsOption.xtc arg :: os, a, gro_specified, _ =>
    getArgumentsLoop os { a with xtc_file := some arg } gro_specified true
  | FlipflopsOption.ndx arg :: os, a, gro_specified, xtc_specified =>
    getArgumentsLoop os { a with ndx_file := arg } gro_specified xtc_specified
  | FlipflopsOption.phosphates arg :: os, a, gro_specified, xtc_specified =>
    getArgumentsLoop os { a with phosphates := arg } gro_specified xtc_specified
  | FlipflopsOption.spatial none :: _, a, _, _ => (1, a)
  | FlipflopsOption.spatial (some v) :: os, a, gro_specified, xtc_specified =>
    if v < 0 then (1, { a with spatial_limit := v })
    else getArgumentsLoop os { a with spatial_limit := v } gro_specified xtc_specified
  | FlipflopsOption.temporal none :: _, a, _, _ => (1, a)
  | FlipflopsOption.temporal (some t) :: os, a, gro_specified, xtc_specified =>
    if t < 1 then (1, { a with temporal_limit := t })
    else getArgumentsLoop os { a with temporal_limit := t } gro_specified xtc_specified
  | FlipflopsOption.unknown :: _, a, _, _ => (1, a)

/-- The function `get_arguments_flipflops` on the parsed options and the
initial values of the output parameters. -/
def get_arguments_flipflops (options : List FlipflopsOption) (args : FlipflopsArgs) :
    Int × FlipflopsArgs :=
  getArgumentsLoop options args false false

/-! ## The rate module (rate.c) -/

namespace Rate

/-- Inner loop of `create_reference` (rate.c lines 23-31): `1` for an atom in
the upper leaflet (`d > 0`), `0` otherwise. -/
def referenceOfSelection (dists : List ℚ) : List Int :=
  dists.map (fun d => if d > 0 then 1 else 0)

/-- The function `create_reference`: one array per lipid type. -/
def create_reference (frame : List (List ℚ)) : List (List Int) :=
  frame.map referenceOfSelection

/-- Inner loop of `classify_lipids` (rate.c lines 55-64): the number of
scrambled atoms of one lipid type, starting from `scrambled`. -/
def countScrambled : List ℚ → List Int → Nat → Nat
  | d :: ds, r :: rs, scrambled =>
    let s1 := if r = 0 ∧ d > 0 then scrambled + 1 else scrambled
    let s2 := if r = 1 ∧ d < 0 then s1 + 1 else s1
    countScrambled ds rs s2
  | _, _, scrambled => scrambled

/-- Value of the C expression `100.0 * (float) scrambled / n` (rate.c lines
66 and 73): the count is converted to `float`, the product with the double
constant `100.0` and the quotient by `n`, converted to `double`, are computed
in double precision.  `n = 0` (a division of zero by zero in C) does not occur
for a lipid type of a composition. -/
def percentage (scrambled n : Nat) : ℚ :=
  roundToDouble (roundToDouble (100 * roundToFloat (scrambled : ℚ)) / roundToDouble (n : ℚ))

/-- Outer loop of `classify_lipids` (rate.c lines 49-70): the values printed
for the lipid types, and the accumulators `total_scrambled`, `total_lipids`. -/
def classifyLoop : List (List ℚ) → List (List Int) → Nat → Nat → List ℚ × Nat × Nat
  | ds :: dss, rs :: rss, total_scrambled, total_lipids =>
    let scrambled := countScrambled ds rs 0
    let rest := classifyLoop dss rss (total_scrambled + scrambled) (total_lipids + ds.length)
    (percentage scrambled ds.length :: rest.1, rest.2.1, rest.2.2)
  | _, _, total_scrambled, total_lipids => ([], total_scrambled, total_lipids)

/-- The function `classify_lipids` of rate.c: the values written for one frame,
in order; the aggregate value follows when there is more than one lipid type. -/
def classify_lipids (frame : List (List ℚ)) (reference : List (List Int)) : List ℚ :=
  let r := classifyLoop frame reference 0 0
  if frame.length > 1 then r.1 ++ [percentage r.2.1 r.2.2] else r.1

/-- The values written on the reference frame (rate.c lines 280-285). -/
def referenceRow (n_lipid_types : Nat) : List ℚ :=
  List.replicate n_lipid_types 0 ++ (if n_lipid_types > 1 then [0] else [])

/-- The `while` loop of `calc_scrambling_rate` (rate.c lines 259-293): the rows
written to the output, each with the time in ns.  `frame` is the counter of
analyzed frames, `reference` the reference dictionary.  With a zero divisor
`(int) roundf(dt * 1000)` the C program is stopped by the division; the
definition describes the loop for a non-zero divisor. -/
def rateLoop (dt : ℚ) : List TrajFrame → Nat → List (List Int) → List (ℚ × List ℚ)
  | [], _, _ => []
  | f :: fs, frame, reference =>
    if truncToInt f.time % roundf (dt * 1000) ≠ 0 then rateLoop dt fs frame reference
    else if frame = 0 then
      (f.time / 1000, referenceRow f.dists.length) ::
        rateLoop dt fs (frame + 1) (create_reference f.dists)
    else
      (f.time / 1000, classify_lipids f.dists reference) ::
        rateLoop dt fs (frame + 1) reference

/-- The function `calc_scrambling_rate` from the composition on: the check for
an empty composition (lines 201-207), then the frame loop. -/
def calc_scrambling_rate (dt : ℚ) (composition : LipidComposition)
    (frames : List TrajFrame) : Int × List (ℚ × List ℚ) :=
  if composition.n_lipid_types < 1 then (1, []) else (0, rateLoop dt frames 0 [])

/-- Binary side of an atom in the words of the specification: upper (`1`) if
`d > 0`, lower (`0`) otherwise. -/
def binarySide (d : ℚ) : Int := if d > 0 then 1 else 0

/-- Scrambled count in the words of the specification: the number of atoms
whose current binary side differs from the side recorded in the reference. -/
def scrambledBySide (dists : List ℚ) (reference : List Int) : Nat :=
  ((dists.zip reference).filter (fun p => decide (binarySide p.1 ≠ p.2))).length

end Rate

/-! ## The composition module (composition.c) -/

namespace Composition

/-- Inner loop of `classify_lipids` (composition.c lines 30-38). -/
def countLeaflets : List ℚ → Nat → Nat → Nat × Nat
  | [], upper, lower => (upper, lower)
  | d :: ds, upper, lower =>
    if d > 0 then countLeaflets ds (upper + 1) lower
    else countLeaflets ds upper (lower + 1)

/-- The two dictionaries filled by `classify_lipids`: the entries of the lipid
types in order, and the entry stored under `ALL_LIPIDS_IDENTIFIER`. -/
structure LeafletCounts where
  upper : List Nat
  lower : List Nat
  total_upper : Nat
  total_lower : Nat
  deriving DecidableEq, Repr

/-- Outer loop of `classify_lipids` (composition.c lines 25-45). -/
def classifyLoop : List (List ℚ) → Nat → Nat → List Nat × List Nat × Nat × Nat
  | [], total_upper, total_lower => ([], [], total_upper, total_lower)
  | ds :: dss, total_upper, total_lower =>
    let c := countLeaflets ds 0 0
    let rest := classifyLoop dss (total_upper + c.1) (total_lower + c.2)
    (c.1 :: rest.1, c.2 :: rest.2.1, rest.2.2.1, rest.2.2.2)

/-- The function `classify_lipids` of composition.c. -/
def classify_lipids (frame : List (List ℚ)) : LeafletCounts :=
  let r := classifyLoop frame 0 0
  { upper := r.1, lower := r.2.1, total_upper := r.2.2.1, total_lower := r.2.2.2 }

/-- The numbers written for one frame (composition.c lines 285-295): upper,
lower and their sum for every lipid type, then the same for the aggregate
entry when there is more than one lipid type. -/
def compositionRow (frame : List (List ℚ)) : List Nat :=
  let c := classify_lipids frame
  (List.zipWith (fun u l => [u, l, u + l]) c.upper c.lower).flatten ++
    (if frame.length > 1 then
      [c.total_upper, c.total_lower, c.total_upper + c.total_lower] else [])

/-- The `while` loop of `calc_lipid_composition` (composition.c lines 265-302). -/
def compositionLoop (dt : ℚ) : List TrajFrame → List (ℚ × List Nat)
  | [] => []
  | f :: fs =>
    if truncToInt f.time % roundf (dt * 1000) ≠ 0 then compositionLoop dt fs
    else (f.time / 1000, compositionRow f.dists) :: compositionLoop dt fs

/-- The function `calc_lipid_composition` from the composition on: the check
for an empty composition (lines 173-179), then either the table for the gro
file alone (`xtc = none`, distances `gro_dists`) or the frame loop.  A row
without a time is the table of the gro file. -/
def calc_lipid_composition (dt : ℚ) (composition : LipidComposition)
    (gro_dists : List (List ℚ)) (xtc : Option (List TrajFrame)) :
    Int × List (Option ℚ × List Nat) :=
  if composition.n_lipid_types < 1 then (1, [])
  else
    match xtc with
    | none => (0, [(none, compositionRow gro_dists)])
    | some frames => (0, (compositionLoop dt frames).map (fun r => (some r.1, r.2)))

end Composition

/-- The four zones of the specification (section 4.3). -/
inductive Zone where
  | upperCore
  | upperIntermediate
  | lowerCore
  | lowerIntermediate
  deriving DecidableEq, Repr

/-- The branch of the `if`/`else if` chain of `find_flipflops` (lines 32, 45,
59, 72) that a distance selects; `none` when no branch is taken. -/
def branchTaken (spatial_limit : ℚ) (dist : ℚ) : Option Zone :=
  if dist > spatial_limit then some Zone.upperCore
  else if dist > 0 then some Zone.upperIntermediate
  else if dist < -spatial_limit then some Zone.lowerCore
  else if dist < 0 then some Zone.lowerIntermediate
  else none

/-- The body of the branch of `find_flipflops` for a zone (lines 34-42, 47-56,
61-69, 75-83): the new value of `assignment[j]`. -/
def branchBody (time_frames : Int) (a : Int) : Zone → Int
  | Zone.upperCore =>
    if a > time_frames then a
    else if a > 0 then a + 1
    else if a ≤ -time_frames then 1
    else if a < 0 then time_frames + 1
    else if a = 0 then time_frames + 1
    else a
  | Zone.upperIntermediate =>
    if a > time_frames then a
    else if a > 0 then a + 1
    else if a ≤ -time_frames then a
    else if a < 0 then time_frames + 1
    else if a = 0 then time_frames + 1
    else a
  | Zone.lowerCore =>
    if a ≥ time_frames then -1
    else if a > 0 then -time_frames - 1
    else if a < -time_frames then a
    else if a < 0 then a - 1
    else if a = 0 then -time_frames - 1
    else a
  | Zone.lowerIntermediate =>
    if a ≥ time_frames then a
    else if a > 0 then -time_frames - 1
    else if a < -time_frames then a
    else if a < 0 then a - 1
    else if a = 0 then -time_frames - 1
    else a

/-- The frames that pass the frame-selection test of `calc_scrambling_rate`
(rate.c line 268): truncated time a multiple of `roundf(dt * 1000)`. -/
def Rate.analyzedFrames (dt : ℚ) (frames : List TrajFrame) : List TrajFrame :=
  frames.filter (fun f => decide (truncToInt f.time % roundf (dt * 1000) = 0))

/-- The `case 't'` of `get_arguments_rate` (rate.c lines 135-141) and of
`get_arguments_composition` (composition.c lines 105-111), which are the same
code: `sscanf` stores the scanned value (`none`: nothing scanned, `dt` keeps
its value), then `*dt <= 0` is rejected.  The first component is 1 when the
function returns 1 and 0 when parsing goes on. -/
def timeStepOption (scanned : Option ℚ) (dt : ℚ) : Int × ℚ :=
  let dt1 := match scanned with
    | some v => v
    | none => dt
  if dt1 ≤ 0 then (1, dt1) else (0, dt1)

/-! ## Rounding to floating-point numbers -/

theorem rat_floor_intCast (m : Int) : Rat.floor (m : ℚ) = m := by
  have h : ⌊(m : ℚ)⌋ = m := Int.floor_intCast m
  exact h

theorem roundHalfEven_intCast (m : Int) : roundHalfEven (m : ℚ) = m := by
  simp [roundHalfEven, rat_floor_intCast]

theorem roundHalfEven_le (x : ℚ) (m : Int) (h : x ≤ m) : roundHalfEven x ≤ m := by
  unfold roundHalfEven
  have hf : ((Rat.floor x : Int) : ℚ) ≤ x := Int.floor_le x
  have hfm : Rat.floor x ≤ m := by
    have : ((Rat.floor x : Int) : ℚ) ≤ (m : ℚ) := le_trans hf h
    exact_mod_cast this
  by_cases hlt : Rat.floor x = m
  · have hx : x = m := le_antisymm h (by rw [← hlt]; exact hf)
    have h0 : x - ((Rat.floor x : Int) : ℚ) < 1 / 2 := by rw [hlt, hx]; norm_num
    simp only [h0, if_true]
    exact hfm
  · have : Rat.floor x + 1 ≤ m := by omega
    simp only
    split_ifs <;> omega

theorem le_roundHalfEven (x : ℚ) (m : Int) (h : (m : ℚ) ≤ x) : m ≤ roundHalfEven x := by
  unfold roundHalfEven
  have hfm : m ≤ Rat.floor x := Rat.le_floor.mpr h
  simp only
  split_ifs <;> omega

theorem log2_eq (x : ℚ) (k : Int) (h1 : (2 : ℚ) ^ k ≤ x) (h2 : x < (2 : ℚ) ^ (k + 1)) :
    Int.log 2 x = k := by
  have hx : 0 < x := lt_of_lt_of_le (by positivity) h1
  have a : k ≤ Int.log 2 x := (Int.zpow_le_iff_le_log (by norm_num) hx).mp (by exact_mod_cast h1)
  have b : Int.log 2 x < k + 1 := (Int.lt_zpow_iff_log_lt (by norm_num) hx).mp (by exact_mod_cast h2)
  omega

theorem ulp_pos (p : Nat) (emin : Int) (x : ℚ) : 0 < ulp p emin x := by
  unfold ulp
  positivity


theorem roundToPrecision_nonpos (p : Nat) (emin : Int) (x : ℚ) (h : x ≤ 0) :
    roundToPrecision p emin x ≤ 0 := by
  unfold roundToPrecision
  have hu := ulp_pos p emin x
  have h1 : x / ulp p emin x ≤ ((0 : Int) : ℚ) := by
    rw [Int.cast_zero]
    exact div_nonpos_of_nonpos_of_nonneg h hu.le
  have h2 := roundHalfEven_le _ 0 h1
  have h3 : ((roundHalfEven (x / ulp p emin x) : Int) : ℚ) ≤ 0 := by exact_mod_cast h2
  exact mul_nonpos_of_nonpos_of_nonneg h3 hu.le

theorem roundToPrecision_nonneg (p : Nat) (emin : Int) (x : ℚ) (h : 0 ≤ x) :
    0 ≤ roundToPrecision p emin x := by
  unfold roundToPrecision
  have hu := ulp_pos p emin x
  have h1 : ((0 : Int) : ℚ) ≤ x / ulp p emin x := by
    rw [Int.cast_zero]
    exact div_nonneg h hu.le
  have h2 := le_roundHalfEven _ 0 h1
  have h3 : (0 : ℚ) ≤ ((roundHalfEven (x / ulp p emin x) : Int) : ℚ) := by exact_mod_cast h2
  exact mul_nonneg h3 hu.le

/-- A value that is an integer multiple of its own unit in the last place is
left unchanged by the rounding. -/
theorem roundToPrecision_of_representable (p : Nat) (emin : Int) (x : ℚ) (m : Int)
    (h : x = m * ulp p emin x) : roundToPrecision p emin x = x := by
  unfold roundToPrecision
  have hu := ulp_pos p emin x
  have h1 : x / ulp p emin x = (m : ℚ) := by
    rw [div_eq_iff hu.ne']
    exact h
  rw [h1, roundHalfEven_intCast]
  exact h.symm

theorem roundToPrecision_zero (p : Nat) (emin : Int) : roundToPrecision p emin 0 = 0 :=
  roundToPrecision_of_representable p emin 0 0 (by simp)

/-- Rounding never crosses a representable value from below. -/
theorem roundToPrecision_le (p : Nat) (emin : Int) (x F : ℚ) (m : Int)
    (hF : 0 < F) (hrep : F = m * ulp p emin F) (h : x ≤ F) :
    roundToPrecision p emin x ≤ F := by
  by_cases hx : x ≤ 0
  · exact le_trans (roundToPrecision_nonpos p emin x hx) hF.le
  · have hx0 : 0 < x := lt_of_not_ge hx
    have hlog : Int.log 2 |x| ≤ Int.log 2 |F| := by
      rw [abs_of_pos hx0, abs_of_pos hF]
      exact Int.log_mono_right hx0 h
    have hk : max (Int.log 2 |x| - ((p : Int) - 1)) emin ≤
        max (Int.log 2 |F| - ((p : Int) - 1)) emin := max_le_max (by omega) le_rfl
    obtain ⟨n, hn⟩ := Int.eq_ofNat_of_zero_le (sub_nonneg.mpr hk)
    have hu := ulp_pos p emin x
    have huF : ulp p emin F = (2 : ℚ) ^ n * ulp p emin x := by
      unfold ulp
      rw [← zpow_natCast, ← zpow_add₀ (by norm_num : (2 : ℚ) ≠ 0)]
      congr 1
      omega
    have hFm : F = ((m * 2 ^ n : Int) : ℚ) * ulp p emin x := by
      rw [hrep] 
      nth_rewrite 1 [huF]
      push_cast
      ring
    have h1 : x / ulp p emin x ≤ ((m * 2 ^ n : Int) : ℚ) := by
      rw [div_le_iff₀ hu]
      rw [← hFm]
      exact h
    have h2 := roundHalfEven_le _ _ h1
    have h3 : ((roundHalfEven (x / ulp p emin x) : Int) : ℚ) ≤ ((m * 2 ^ n : Int) : ℚ) := by
      exact_mod_cast h2
    unfold roundToPrecision
    calc ((roundHalfEven (x / ulp p emin x) : Int) : ℚ) * ulp p emin x
        ≤ ((m * 2 ^ n : Int) : ℚ) * ulp p emin x := mul_le_mul_of_nonneg_right h3 hu.le
      _ = F := hFm.symm

/-- Rounding never crosses a representable value from above. -/
theorem le_roundToPrecision (p : Nat) (emin : Int) (x F : ℚ) (m : Int) (hp : 1 ≤ p)
    (hF : 0 < F) (hrep : F = m * ulp p emin F) (h : F ≤ x) :
    F ≤ roundToPrecision p emin x := by
  have hx0 : 0 < x := lt_of_lt_of_le hF h
  have hlog : Int.log 2 |F| ≤ Int.log 2 |x| := by
    rw [abs_of_pos hx0, abs_of_pos hF]
    exact Int.log_mono_right hF h
  have hu := ulp_pos p emin x
  by_cases hk : max (Int.log 2 |x| - ((p : Int) - 1)) emin =
      max (Int.log 2 |F| - ((p : Int) - 1)) emin
  · have huF : ulp p emin F = ulp p emin x := by
      unfold ulp
      rw [hk]
    have h1 : (m : ℚ) ≤ x / ulp p emin x := by
      rw [le_div_iff₀ hu, ← huF, ← hrep]
      exact h
    have h2 := le_roundHalfEven _ _ h1
    have h3 : (m : ℚ) ≤ ((roundHalfEven (x / ulp p emin x) : Int) : ℚ) := by exact_mod_cast h2
    unfold roundToPrecision
    calc F = (m : ℚ) * ulp p emin x := by rw [← huF]; exact hrep
      _ ≤ ((roundHalfEven (x / ulp p emin x) : Int) : ℚ) * ulp p emin x :=
        mul_le_mul_of_nonneg_right h3 hu.le
  · have hlt : Int.log 2 |F| + 1 ≤ Int.log 2 |x| := by
      rcases max_cases (Int.log 2 |x| - ((p : Int) - 1)) emin with ⟨h1, h2⟩ | ⟨h1, h2⟩ <;>
      rcases max_cases (Int.log 2 |F| - ((p : Int) - 1)) emin with ⟨h3, h4⟩ | ⟨h3, h4⟩ <;>
      omega
    have hkx : max (Int.log 2 |x| - ((p : Int) - 1)) emin = Int.log 2 |x| - ((p : Int) - 1) := by
      rcases max_cases (Int.log 2 |x| - ((p : Int) - 1)) emin with ⟨h1, h2⟩ | ⟨h1, h2⟩ <;>
      rcases max_cases (Int.log 2 |F| - ((p : Int) - 1)) emin with ⟨h3, h4⟩ | ⟨h3, h4⟩ <;>
      omega
    have hux : ulp p emin x = (2 : ℚ) ^ (Int.log 2 |x| - ((p : Int) - 1)) := by
      unfold ulp
      rw [hkx]
    have hpow : (2 : ℚ) ^ Int.log 2 |x| = ((2 ^ (p - 1) : Int) : ℚ) * ulp p emin x := by
      rw [hux]
      push_cast
      rw [← zpow_natCast, ← zpow_add₀ (by norm_num : (2 : ℚ) ≠ 0)]
      congr 1
      omega
    have hxle : (2 : ℚ) ^ Int.log 2 |x| ≤ x := by
      rw [abs_of_pos hx0]
      have := Int.zpow_log_le_self (by norm_num : 1 < 2) hx0
      exact_mod_cast this
    have hFlt : F < (2 : ℚ) ^ Int.log 2 |x| := by
      have h1 : F < (2 : ℚ) ^ (Int.log 2 |F| + 1) := by
        rw [abs_of_pos hF]
        have := Int.lt_zpow_succ_log_self (by norm_num : 1 < 2) F
        exact_mod_cast this
      exact lt_of_lt_of_le h1 (zpow_le_zpow_right₀ (by norm_num) hlt)
    have h1 : ((2 ^ (p - 1) : Int) : ℚ) ≤ x / ulp p emin x := by
      rw [le_div_iff₀ hu, ← hpow]
      exact hxle
    have h2 := le_roundHalfEven _ _ h1
    have h3 : ((2 ^ (p - 1) : Int) : ℚ) ≤ ((roundHalfEven (x / ulp p emin x) : Int) : ℚ) := by
      exact_mod_cast h2
    unfold roundToPrecision
    calc F ≤ (2 : ℚ) ^ Int.log 2 |x| := hFlt.le
      _ = ((2 ^ (p - 1) : Int) : ℚ) * ulp p emin x := hpow
      _ ≤ ((roundHalfEven (x / ulp p emin x) : Int) : ℚ) * ulp p emin x :=
        mul_le_mul_of_nonneg_right h3 hu.le

/-- Natural numbers below `2 ^ p` are representable with `p` significant bits. -/
theorem roundToPrecision_natCast (p : Nat) (emin : Int) (n : Nat)
    (hemin : emin ≤ 0) (hn : n < 2 ^ p) : roundToPrecision p emin (n : ℚ) = n := by
  by_cases h0 : n = 0
  · subst h0
    simpa using roundToPrecision_zero p emin
  · have hlog : Int.log 2 |(n : ℚ)| = (Nat.log 2 n : Int) := by
      rw [abs_of_nonneg (Nat.cast_nonneg n)]
      exact Int.log_natCast 2 n
    have hlt : Nat.log 2 n < p := Nat.log_lt_of_lt_pow h0 hn
    have hk : max ((Nat.log 2 n : Int) - ((p : Int) - 1)) emin ≤ 0 := max_le (by omega) hemin
    obtain ⟨j, hj⟩ := Int.eq_ofNat_of_zero_le (neg_nonneg.mpr hk)
    apply roundToPrecision_of_representable p emin (n : ℚ) ((n * 2 ^ j : Nat) : Int)
    unfold ulp
    rw [hlog]
    have hk2 : max ((Nat.log 2 n : Int) - ((p : Int) - 1)) emin = -(j : Int) := by omega
    rw [hk2, zpow_neg, zpow_natCast]
    push_cast
    field_simp

/-- Rounding to the nearest integer: a value at most half above an even
integer is not rounded beyond it. -/
theorem roundHalfEven_le_even (x : ℚ) (m : Int) (hm : m % 2 = 0) (h : x ≤ m + 1 / 2) :
    roundHalfEven x ≤ m := by
  unfold roundHalfEven
  have hf : ((Rat.floor x : Int) : ℚ) ≤ x := Int.floor_le x
  have hfm : Rat.floor x ≤ m := by
    have h1 : ((Rat.floor x : Int) : ℚ) < (m : ℚ) + 1 := by linarith
    have h2 : ((Rat.floor x : Int) : ℚ) < ((m + 1 : Int) : ℚ) := by push_cast; exact h1
    have h3 : Rat.floor x < m + 1 := by exact_mod_cast h2
    omega
  simp only
  by_cases hlt : Rat.floor x = m
  · rw [hlt]
    have h1 : ¬ (1 / 2 < x - (m : ℚ)) := by linarith
    split_ifs <;> omega
  · split_ifs <;> omega

/-- Rounding to the nearest integer: a value more than half above an integer is
rounded beyond it. -/
theorem lt_roundHalfEven (x : ℚ) (m : Int) (h : (m : ℚ) + 1 / 2 < x) :
    m < roundHalfEven x := by
  unfold roundHalfEven
  have hf2 : x < ((Rat.floor x : Int) : ℚ) + 1 := Int.lt_floor_add_one x
  have hfm : m ≤ Rat.floor x := Rat.le_floor.mpr (by linarith)
  simp only
  by_cases hlt : Rat.floor x = m
  · rw [hlt]
    have h1 : ¬ (x - (m : ℚ) < 1 / 2) := by linarith
    have h2 : 1 / 2 < x - (m : ℚ) := by linarith
    rw [if_neg h1, if_pos h2]
    omega
  · split_ifs <;> omega

theorem ulp_float_1000 (x : ℚ) (h1 : 512 ≤ x) (h2 : x < 1024) :
    ulp 24 (-149) x = 1 / 16384 := by
  unfold ulp
  have hx : 0 < x := by linarith
  rw [abs_of_pos hx, log2_eq x 9 (by norm_num; exact h1) (by norm_num; exact h2)]
  norm_num

/-- The single-precision difference exceeds 1000 exactly when the exact
difference exceeds `1000 + 2^-15`: the floats next to 1000 are `2^-14` apart,
and the tie at `1000 + 2^-15` is rounded to the even neighbour 1000. -/
theorem roundToFloat_gt_1000_iff (g : ℚ) :
    roundToFloat g > 1000 ↔ g > 1000 + 1 / 32768 := by
  by_cases hg1 : g ≤ 1000
  · have h := roundToPrecision_le 24 (-149) g 1000 16384000 (by norm_num)
      (by rw [ulp_float_1000 1000 (by norm_num) (by norm_num)]; norm_num) hg1
    constructor
    · intro h2
      exact absurd h2 (not_lt.mpr h)
    · intro h2
      linarith
  · by_cases hg2 : 1000 + 1 / 16384 ≤ g
    · have h := le_roundToPrecision 24 (-149) g (1000 + 1 / 16384) 16384001 (by norm_num)
        (by norm_num)
        (by rw [ulp_float_1000 _ (by norm_num) (by norm_num)]; norm_num) hg2
      constructor
      · intro _
        linarith
      · intro _
        have : (1000 : ℚ) < 1000 + 1 / 16384 := by norm_num
        exact lt_of_lt_of_le this h
    · have hu : ulp 24 (-149) g = 1 / 16384 :=
        ulp_float_1000 g (by linarith) (by linarith)
      have hval : roundToFloat g = (roundHalfEven (g * 16384) : ℚ) / 16384 := by
        unfold roundToFloat roundToPrecision
        have e : g / (1 / 16384) = g * 16384 := by field_simp
        rw [hu, e]
        ring
      rw [hval]
      constructor
      · intro h
        by_contra hc
        have h1 : roundHalfEven (g * 16384) ≤ 16384000 :=
          roundHalfEven_le_even _ 16384000 (by decide) (by push_cast; linarith)
        have h2 : ((roundHalfEven (g * 16384) : Int) : ℚ) ≤ 16384000 := by exact_mod_cast h1
        linarith
      · intro h
        have h1 : 16384000 < roundHalfEven (g * 16384) :=
          lt_roundHalfEven _ 16384000 (by push_cast; linarith)
        have h2 : (16384000 : ℚ) < ((roundHalfEven (g * 16384) : Int) : ℚ) := by
          exact_mod_cast h1
        linarith

/-- The power `2 ^ p` is representable with `p` significant bits. -/
theorem roundToPrecision_two_pow (p : Nat) (emin : Int) (hp : 1 ≤ p) (hemin : emin ≤ 0) :
    roundToPrecision p emin ((2 : ℚ) ^ p) = (2 : ℚ) ^ p := by
  apply roundToPrecision_of_representable p emin _ ((2 ^ (p - 1) : Nat) : Int)
  have hlog : Int.log 2 |(2 : ℚ) ^ p| = (p : Int) := by
    rw [abs_of_pos (by positivity)]
    have := @Int.log_zpow ℚ _ _ 2 (by norm_num : 1 < 2) (p : Int)
    simpa using this
  unfold ulp
  rw [hlog]
  have hk : max ((p : Int) - ((p : Int) - 1)) emin = 1 := by omega
  rw [hk]
  push_cast
  rw [zpow_one, ← pow_succ]
  congr 1
  omega

theorem roundToFloat_count (s : Nat) (hs : s ≤ 16777216) : roundToFloat (s : ℚ) = s := by
  unfold roundToFloat
  by_cases h : s < 2 ^ 24
  · exact roundToPrecision_natCast 24 (-149) s (by decide) h
  · have h2 : s = 2 ^ 24 := by
      have : (2 : Nat) ^ 24 = 16777216 := by norm_num
      omega
    subst h2
    have := roundToPrecision_two_pow 24 (-149) (by decide) (by decide)
    push_cast
    exact this

theorem percentage_zero (n : Nat) : Rate.percentage 0 n = 0 := by
  unfold Rate.percentage roundToDouble roundToFloat
  simp [roundToPrecision_zero]

/-- For counts up to `2^24` and fewer than `2^53` atoms the value is the
double nearest to `100 * s / n`. -/
theorem percentage_small (s n : Nat) (hs : s ≤ 16777216) (hn : n < 2 ^ 53) :
    Rate.percentage s n = roundToDouble (100 * (s : ℚ) / (n : ℚ)) := by
  unfold Rate.percentage
  rw [roundToFloat_count s hs]
  have h1 : roundToDouble (100 * (s : ℚ)) = 100 * (s : ℚ) := by
    have := roundToPrecision_natCast 53 (-1074) (100 * s) (by decide)
      (by
        have : (2 : Nat) ^ 53 = 9007199254740992 := by norm_num
        omega)
    unfold roundToDouble
    push_cast at this
    exact this
  have h2 : roundToDouble (n : ℚ) = n :=
    roundToPrecision_natCast 53 (-1074) n (by decide) hn
  rw [h1, h2]

/-- When `100 * s / n` is a natural number the value is that number. -/
theorem percentage_exact (s n q : Nat) (hs : s ≤ 16777216) (hn0 : 0 < n) (hn : n < 2 ^ 53)
    (hq : 100 * s = q * n) : Rate.percentage s n = q := by
  rw [percentage_small s n hs hn]
  have hn1 : (n : ℚ) ≠ 0 := by exact_mod_cast hn0.ne'
  have h1 : 100 * (s : ℚ) / (n : ℚ) = (q : ℚ) := by
    rw [div_eq_iff hn1]
    exact_mod_cast hq
  rw [h1]
  have hq2 : q < 2 ^ 53 := by
    have h2 : q ≤ 100 * s := by
      rw [hq]
      exact Nat.le_mul_of_pos_right q hn0
    have : (2 : Nat) ^ 53 = 9007199254740992 := by norm_num
    omega
  exact roundToPrecision_natCast 53 (-1074) q (by decide) hq2

/-- The count `2^24 + 1` is not a float: the cast gives `2^24`. -/
theorem roundToFloat_16777217 : roundToFloat 16777217 = 16777216 := by
  have hu : ulp 24 (-149) 16777217 = 2 := by
    unfold ulp
    rw [abs_of_pos (by norm_num), log2_eq 16777217 24 (by norm_num) (by norm_num)]
    norm_num
  unfold roundToFloat roundToPrecision
  rw [hu]
  have h1 : roundHalfEven ((16777217 : ℚ) / 2) ≤ 8388608 :=
    roundHalfEven_le_even _ 8388608 (by decide) (by norm_num)
  have h2 : 8388608 ≤ roundHalfEven ((16777217 : ℚ) / 2) :=
    le_roundHalfEven _ 8388608 (by norm_num)
  have h3 : roundHalfEven ((16777217 : ℚ) / 2) = 8388608 := le_antisymm h1 h2
  rw [h3]
  norm_num

/-- With `2^24 + 1` atoms that are all scrambled the value is below 100. -/
theorem percentage_16777217 : Rate.percentage 16777217 16777217 ≤ 100 - 1 / 1048576 := by
  unfold Rate.percentage
  have hs : roundToFloat ((16777217 : Nat) : ℚ) = 16777216 := by
    have := roundToFloat_16777217
    push_cast
    exact this
  have h1 : roundToDouble (100 * (16777216 : ℚ)) = 1677721600 := by
    have := roundToPrecision_natCast 53 (-1074) 1677721600 (by decide) (by norm_num)
    unfold roundToDouble
    norm_num at this ⊢
    exact this
  have h2 : roundToDouble ((16777217 : Nat) : ℚ) = 16777217 := by
    have := roundToPrecision_natCast 53 (-1074) 16777217 (by decide) (by norm_num)
    exact this
  rw [hs, h1, h2]
  have hu : ulp 53 (-1074) (100 - 1 / 1048576) = (2 : ℚ) ^ (-46 : Int) := by
    unfold ulp
    rw [abs_of_pos (by norm_num),
      log2_eq (100 - 1 / 1048576) 6 (by norm_num) (by norm_num)]
    norm_num
  exact roundToPrecision_le 53 (-1074) _ (100 - 1 / 1048576) 7036874350657536 (by norm_num)
    (by rw [hu]; norm_num) (by norm_num)

/-! ## Basic facts about the loop body -/

theorem atomBody_assignment (S : ℚ) (T : Int) (d : ℚ) (s : AtomState) :
    (atomBody S T d s).assignment = updateAssignment S T d s.assignment := by
  unfold atomBody
  simp only []
  split_ifs <;> rfl

theorem atomBody_lower_upper (S : ℚ) (T : Int) (d : ℚ) (s : AtomState) :
    (atomBody S T d s).lower_upper =
      s.lower_upper + (if updateAssignment S T d s.assignment = T ∧ 0 < d then 1 else 0) := by
  unfold atomBody
  simp only []
  split_ifs <;> simp_all

theorem atomBody_upper_lower (S : ℚ) (T : Int) (d : ℚ) (s : AtomState) :
    (atomBody S T d s).upper_lower =
      s.upper_lower + (if updateAssignment S T d s.assignment = -T ∧ d < 0 then 1 else 0) := by
  unfold atomBody
  simp only []
  by_cases h1 : updateAssignment S T d s.assignment = T ∧ d > 0
  · have h2 : ¬ (updateAssignment S T d s.assignment = -T ∧ d < 0) := by
      rintro ⟨-, h⟩
      linarith [h1.2]
    rw [if_pos h1, if_neg h2]
    rfl
  · by_cases h2 : updateAssignment S T d s.assignment = -T ∧ d < 0
    · rw [if_neg h1, if_pos h2, if_pos h2]
    · rw [if_neg h1, if_neg h2, if_neg h2]
      rfl

theorem emitsLowerUpper_iff (S : ℚ) (T : Int) (d : ℚ) (c : Int) :
    emitsLowerUpper S T d c = true ↔ (updateAssignment S T d c = T ∧ 0 < d) := by
  unfold emitsLowerUpper
  rw [decide_eq_true_iff, atomBody_lower_upper]
  split_ifs with h <;> simp [h]

theorem emitsUpperLower_iff (S : ℚ) (T : Int) (d : ℚ) (c : Int) :
    emitsUpperLower S T d c = true ↔ (updateAssignment S T d c = -T ∧ d < 0) := by
  unfold emitsUpperLower
  rw [decide_eq_true_iff, atomBody_upper_lower]
  split_ifs with h <;> simp [h]

/-- The arithmetic of the counter update never leaves the range of `int` as
long as `time_frames + 1` is representable. -/
theorem updateAssignment_int_range (S : ℚ) (T : Int) (d : ℚ) (c : Int)
    (hT : 1 ≤ T) (hT1 : inIntRange (T + 1)) (hc : inIntRange c) :
    inIntRange (updateAssignment S T d c) := by
  unfold inIntRange at *
  unfold updateAssignment
  split_ifs <;> omega

/-- Closed form of the loop body. -/
theorem atomBody_eq (S : ℚ) (T : Int) (d : ℚ) (s : AtomState) :
    atomBody S T d s =
      { assignment := updateAssignment S T d s.assignment,
        upper_lower := s.upper_lower +
          (if updateAssignment S T d s.assignment = -T ∧ d < 0 then 1 else 0),
        lower_upper := s.lower_upper +
          (if updateAssignment S T d s.assignment = T ∧ 0 < d then 1 else 0) } := by
  have h1 := atomBody_assignment S T d s
  have h2 := atomBody_upper_lower S T d s
  have h3 := atomBody_lower_upper S T d s
  cases h : atomBody S T d s with
  | mk a u l =>
    rw [h] at h1 h2 h3
    simp only at h1 h2 h3
    rw [h1, h2, h3]

theorem atomRun_nil (S : ℚ) (T : Int) (s : AtomState) : atomRun S T [] s = s := rfl

theorem atomRun_cons (S : ℚ) (T : Int) (d : ℚ) (ds : List ℚ) (s : AtomState) :
    atomRun S T (d :: ds) s = atomRun S T ds (atomBody S T d s) := rfl

theorem atomRun_append (S : ℚ) (T : Int) (ds es : List ℚ) (s : AtomState) :
    atomRun S T (ds ++ es) s = atomRun S T es (atomRun S T ds s) := by
  induction ds generalizing s with
  | nil => rfl
  | cons d ds ih => exact ih (atomBody S T d s)

/-- Processing one more frame: the state after `k + 1` frames is the loop body
applied to the state after `k` frames. -/
theorem atomRun_take_succ (S : ℚ) (T : Int) (ds : List ℚ) (s : AtomState) (k : Nat)
    (d : ℚ) (hk : ds[k]? = some d) :
    atomRun S T (ds.take (k + 1)) s = atomBody S T d (atomRun S T (ds.take k) s) := by
  rw [List.take_succ, atomRun_append, hk]
  rfl

/-! ## The four zone branches, one at a time -/

theorem updateAssignment_upper_core (S : ℚ) (T : Int) (d : ℚ) (c : Int) (h : S < d) :
    updateAssignment S T d c =
      if c > T then c else if c > 0 then c + 1 else if c ≤ -T then 1
      else if c < 0 then T + 1 else if c = 0 then T + 1 else c := by
  unfold updateAssignment
  rw [if_pos h]

theorem updateAssignment_upper_intermediate (S : ℚ) (T : Int) (d : ℚ) (c : Int)
    (h1 : d ≤ S) (h2 : 0 < d) :
    updateAssignment S T d c =
      if c > T then c else if c > 0 then c + 1 else if c ≤ -T then c
      else if c < 0 then T + 1 else if c = 0 then T + 1 else c := by
  unfold updateAssignment
  rw [if_neg (not_lt.mpr h1), if_pos h2]

theorem updateAssignment_lower_core (S : ℚ) (T : Int) (d : ℚ) (c : Int)
    (h1 : d ≤ S) (h2 : d ≤ 0) (h3 : d < -S) :
    updateAssignment S T d c =
      if c ≥ T then -1 else if c > 0 then -T - 1 else if c < -T then c
      else if c < 0 then c - 1 else if c = 0 then -T - 1 else c := by
  unfold updateAssignment
  rw [if_neg (not_lt.mpr h1), if_neg (not_lt.mpr h2), if_pos h3]

theorem updateAssignment_lower_intermediate (S : ℚ) (T : Int) (d : ℚ) (c : Int)
    (h1 : d ≤ S) (h2 : d ≤ 0) (h3 : -S ≤ d) (h4 : d < 0) :
    updateAssignment S T d c =
      if c ≥ T then c else if c > 0 then -T - 1 else if c < -T then c
      else if c < 0 then c - 1 else if c = 0 then -T - 1 else c := by
  unfold updateAssignment
  rw [if_neg (not_lt.mpr h1), if_neg (not_lt.mpr h2), if_neg (not_lt.mpr h3), if_pos h4]

theorem updateAssignment_fallthrough (S : ℚ) (T : Int) (d : ℚ) (c : Int)
    (h1 : d ≤ S) (h2 : d ≤ 0) (h3 : -S ≤ d) (h4 : 0 ≤ d) :
    updateAssignment S T d c = c := by
  unfold updateAssignment
  rw [if_neg (not_lt.mpr h1), if_neg (not_lt.mpr h2), if_neg (not_lt.mpr h3),
    if_neg (not_lt.mpr h4)]

/-- Mirror symmetry of the update on the upper side. -/
theorem updateAssignment_neg_of_pos (S : ℚ) (T : Int) (hT : 1 ≤ T) (hS : 0 ≤ S)
    (d : ℚ) (c : Int) (hd : 0 < d) :
    updateAssignment S T (-d) (-c) = -updateAssignment S T d c := by
  by_cases h : S < d
  · rw [updateAssignment_lower_core S T (-d) (-c) (by linarith) (by linarith) (by linarith),
      updateAssignment_upper_core S T d c h]
    split_ifs <;> omega
  · have h1 : d ≤ S := not_lt.mp h
    rw [updateAssignment_lower_intermediate S T (-d) (-c) (by linarith) (by linarith)
        (by linarith) (by linarith),
      updateAssignment_upper_intermediate S T d c h1 hd]
    split_ifs <;> omega

/-- Mirror symmetry of the update, all distances. -/
theorem updateAssignment_neg (S : ℚ) (T : Int) (hT : 1 ≤ T) (hS : 0 ≤ S)
    (d : ℚ) (c : Int) :
    updateAssignment S T (-d) (-c) = -updateAssignment S T d c := by
  rcases lt_trichotomy d 0 with hd | hd | hd
  · have h := updateAssignment_neg_of_pos S T hT hS (-d) (-c) (by linarith)
    rw [neg_neg, neg_neg] at h
    omega
  · subst hd
    rw [neg_zero, updateAssignment_fallthrough S T 0 c hS le_rfl (by linarith) le_rfl,
      updateAssignment_fallthrough S T 0 (-c) hS le_rfl (by linarith) le_rfl]
  · exact updateAssignment_neg_of_pos S T hT hS d c hd

/-! ## The per-frame update rule -/

/-- Upper-side rule in the arithmetic of `Int`: for `T ≥ 1` and a frame with
the atom on the upper side (`d > 0`), `updateAssignment` leaves `c` unchanged
if `c > T`, gives `c + 1` if `0 < c ≤ T`, gives `1` (upper core, `d > S`) or
leaves `c` unchanged (upper intermediate, `d ≤ S`) if `c ≤ -T`, and gives
`T + 1` if `-T < c < 0` or `c = 0`. -/
theorem upper_side_update (S : ℚ) (T : Int) (d : ℚ) (c : Int) (hT : 1 ≤ T) (hd : 0 < d) :
    (T < c → updateAssignment S T d c = c) ∧
    (0 < c ∧ c ≤ T → updateAssignment S T d c = c + 1) ∧
    (c ≤ -T → (S < d → updateAssignment S T d c = 1) ∧
      (d ≤ S → updateAssignment S T d c = c)) ∧
    (-T < c ∧ c < 0 → updateAssignment S T d c = T + 1) ∧
    (c = 0 → updateAssignment S T d c = T + 1) := by
  refine ⟨?_, ?_, ?_, ?_, ?_⟩
  · intro h
    unfold updateAssignment
    split_ifs <;> rfl
  · rintro ⟨h1, h2⟩
    unfold updateAssignment
    split_ifs <;> first | rfl | omega
  · intro h
    constructor
    · intro hS
      unfold updateAssignment
      split_ifs <;> first | rfl | omega
    · intro hS
      have hS2 : ¬ (d > S) := not_lt.mpr hS
      unfold updateAssignment
      split_ifs <;> first | rfl | omega
  · rintro ⟨h1, h2⟩
    unfold updateAssignment
    split_ifs <;> first | rfl | omega
  · intro h
    unfold updateAssignment
    split_ifs <;> first | rfl | omega

/-- Instance of `upper_side_update`: `T = 3`, `S = 3/2`, first observation
(`c = 0`) at `d = 2` snaps the counter to `4`. -/
theorem upper_side_update_witness :
    (1 : Int) ≤ 3 ∧ (0 : ℚ) < 2 ∧ updateAssignment (3 / 2) 3 2 0 = 3 + 1 :=
  ⟨by decide, by norm_num,
    (upper_side_update (3 / 2) 3 2 0 (by decide) (by norm_num)).2.2.2.2 rfl⟩

/-- Mirror symmetry in the arithmetic of `Int`: for `T ≥ 1` and `S ≥ 0` the
lower-side rule of `updateAssignment` is the mirror image of the upper-side
rule: negating distance and counter negates the updated counter, and an
upper->lower event is emitted for `(-d, -c)` exactly when a lower->upper event
is emitted for `(d, c)` (and the other way round). -/
theorem update_mirror (S : ℚ) (T : Int) (d : ℚ) (c : Int) (hT : 1 ≤ T) (hS : 0 ≤ S) :
    updateAssignment S T (-d) (-c) = -updateAssignment S T d c ∧
    (emitsUpperLower S T (-d) (-c) = true ↔ emitsLowerUpper S T d c = true) ∧
    (emitsLowerUpper S T (-d) (-c) = true ↔ emitsUpperLower S T d c = true) := by
  have key := updateAssignment_neg S T hT hS
  refine ⟨key d c, ?_, ?_⟩
  · rw [emitsUpperLower_iff, emitsLowerUpper_iff, key]
    constructor
    · rintro ⟨h1, h2⟩
      exact ⟨by omega, by linarith⟩
    · rintro ⟨h1, h2⟩
      exact ⟨by omega, by linarith⟩
  · rw [emitsUpperLower_iff, emitsLowerUpper_iff, key]
    constructor
    · rintro ⟨h1, h2⟩
      exact ⟨by omega, by linarith⟩
    · rintro ⟨h1, h2⟩
      exact ⟨by omega, by linarith⟩

/-- Instance of `update_mirror`: `T = 3`, `S = 3/2`, `d = 2`, `c = -3`. -/
theorem update_mirror_witness :
    (1 : Int) ≤ 3 ∧ (0 : ℚ) ≤ 3 / 2 ∧
      updateAssignment (3 / 2) 3 (-2) (-(-3)) = -updateAssignment (3 / 2) 3 2 (-3) :=
  ⟨by decide, by norm_num, (update_mirror (3 / 2) 3 2 (-3) (by decide) (by norm_num)).1⟩

/-- C3: in the loop body of `find_flipflops` the lower->upper count of the
lipid type grows by exactly one iff the updated counter equals `T` and
`d > 0`, the upper->lower count grows by exactly one iff the updated counter
equals `-T` and `d < 0`, the two never grow together, no other change of a
count happens, and otherwise both counts are unchanged. -/
theorem emission_rule (S : ℚ) (T : Int) (d : ℚ) (s : AtomState) :
    ((atomBody S T d s).lower_upper = s.lower_upper + 1 ↔
      ((atomBody S T d s).assignment = T ∧ 0 < d)) ∧
    ((atomBody S T d s).upper_lower = s.upper_lower + 1 ↔
      ((atomBody S T d s).assignment = -T ∧ d < 0)) ∧
    (((atomBody S T d s).assignment = T ∧ 0 < d) →
      (atomBody S T d s).upper_lower = s.upper_lower) ∧
    (((atomBody S T d s).assignment = -T ∧ d < 0) →
      (atomBody S T d s).lower_upper = s.lower_upper) ∧
    (¬ ((atomBody S T d s).assignment = T ∧ 0 < d) →
      (atomBody S T d s).lower_upper = s.lower_upper) ∧
    (¬ ((atomBody S T d s).assignment = -T ∧ d < 0) →
      (atomBody S T d s).upper_lower = s.upper_lower) := by
  rw [atomBody_assignment, atomBody_lower_upper, atomBody_upper_lower]
  refine ⟨?_, ?_, ?_, ?_, ?_, ?_⟩
  · split_ifs with h <;> simp [h]
  · split_ifs with h <;> simp [h]
  · rintro ⟨-, h⟩
    have h2 : ¬ (updateAssignment S T d s.assignment = -T ∧ d < 0) := by
      rintro ⟨-, h3⟩
      linarith
    rw [if_neg h2]
    rfl
  · rintro ⟨-, h⟩
    have h2 : ¬ (updateAssignment S T d s.assignment = T ∧ 0 < d) := by
      rintro ⟨-, h3⟩
      linarith
    rw [if_neg h2]
    rfl
  · intro h
    rw [if_neg h]
    rfl
  · intro h
    rw [if_neg h]
    rfl

/-- C4: concrete scenario `S = 1.5`, `T = 3`, one lipid type with one atom,
counter initially `0`, frame distances `+2, +2, -2, -2, -2, -2`: the counter
trace is `4, 4, -1, -2, -3, -4`, the upper->lower count becomes `1` at frame 5
and stays there, and the lower->upper count stays `0`. -/
theorem concrete_scenario :
    flipflopTrace (3 / 2) 3 [[[2]], [[2]], [[-2]], [[-2]], [[-2]], [[-2]]]
        { classified := [[0]], flipflops_upper_lower := [0], flipflops_lower_upper := [0] } =
      [{ classified := [[4]], flipflops_upper_lower := [0], flipflops_lower_upper := [0] },
       { classified := [[4]], flipflops_upper_lower := [0], flipflops_lower_upper := [0] },
       { classified := [[-1]], flipflops_upper_lower := [0], flipflops_lower_upper := [0] },
       { classified := [[-2]], flipflops_upper_lower := [0], flipflops_lower_upper := [0] },
       { classified := [[-3]], flipflops_upper_lower := [1], flipflops_lower_upper := [0] },
       { classified := [[-4]], flipflops_upper_lower := [1], flipflops_lower_upper := [0] }] := by
  simp [flipflopTrace, find_flipflops, typesLoop, selectionLoop, atomBody, updateAssignment]
  norm_num

/-! ## The loops of `find_flipflops` in terms of the loop body -/

/-- The inner loop updates every counter by `updateAssignment`, atom by atom. -/
theorem selectionLoop_assignment (S : ℚ) (T : Int) (ds : List ℚ) (as : List Int)
    (ul lu : Nat) (hlen : ds.length = as.length) :
    (selectionLoop S T ds as ul lu).1 = List.zipWith (updateAssignment S T) ds as := by
  induction ds generalizing as ul lu with
  | nil =>
    cases as with
    | nil => rfl
    | cons a as => simp at hlen
  | cons d ds ih =>
    cases as with
    | nil => simp at hlen
    | cons a as =>
      simp only [selectionLoop, List.zipWith_cons_cons, atomBody_assignment]
      rw [ih as _ _ (by simpa using hlen)]

/-- The inner loop adds to the lower->upper count of the type one event per
atom whose loop body emits one. -/
theorem selectionLoop_lower_upper (S : ℚ) (T : Int) (ds : List ℚ) (as : List Int)
    (ul lu : Nat) :
    (selectionLoop S T ds as ul lu).2.2 =
      lu + ((ds.zip as).countP (fun p => emitsLowerUpper S T p.1 p.2)) := by
  induction ds generalizing as ul lu with
  | nil => simp [selectionLoop]
  | cons d ds ih =>
    cases as with
    | nil => simp [selectionLoop]
    | cons a as =>
      simp only [selectionLoop, List.zip_cons_cons, List.countP_cons]
      rw [ih, atomBody_lower_upper]
      by_cases h : updateAssignment S T d a = T ∧ 0 < d
      · have he : emitsLowerUpper S T d a = true := (emitsLowerUpper_iff S T d a).mpr h
        simp only [h, and_self, if_true, he]
        omega
      · have he : ¬ (emitsLowerUpper S T d a = true) :=
          fun hh => h ((emitsLowerUpper_iff S T d a).mp hh)
        simp only [if_neg h, he]
        simp

/-- The inner loop adds to the upper->lower count of the type one event per
atom whose loop body emits one. -/
theorem selectionLoop_upper_lower (S : ℚ) (T : Int) (ds : List ℚ) (as : List Int)
    (ul lu : Nat) :
    (selectionLoop S T ds as ul lu).2.1 =
      ul + ((ds.zip as).countP (fun p => emitsUpperLower S T p.1 p.2)) := by
  induction ds generalizing as ul lu with
  | nil => simp [selectionLoop]
  | cons d ds ih =>
    cases as with
    | nil => simp [selectionLoop]
    | cons a as =>
      simp only [selectionLoop, List.zip_cons_cons, List.countP_cons]
      rw [ih, atomBody_upper_lower]
      by_cases h : updateAssignment S T d a = -T ∧ d < 0
      · have he : emitsUpperLower S T d a = true := (emitsUpperLower_iff S T d a).mpr h
        simp only [h, and_self, if_true, he]
        omega
      · have he : ¬ (emitsUpperLower S T d a = true) :=
          fun hh => h ((emitsUpperLower_iff S T d a).mp hh)
        simp only [if_neg h, he]
        simp

/-- A system of one lipid type with one atom: `find_flipflops` is the loop body. -/
theorem find_flipflops_single_atom (S : ℚ) (T : Int) (d : ℚ) (c : Int) (ul lu : Nat) :
    find_flipflops S T [[d]]
        { classified := [[c]], flipflops_upper_lower := [ul], flipflops_lower_upper := [lu] } =
      { classified := [[(atomBody S T d
            { assignment := c, upper_lower := ul, lower_upper := lu }).assignment]],
        flipflops_upper_lower := [(atomBody S T d
            { assignment := c, upper_lower := ul, lower_upper := lu }).upper_lower],
        flipflops_lower_upper := [(atomBody S T d
            { assignment := c, upper_lower := ul, lower_upper := lu }).lower_upper] } := by
  rfl

/-! ## Runs of frames for one atom -/

theorem AtomState.mirror_mirror (s : AtomState) : s.mirror.mirror = s := by
  cases s
  simp [AtomState.mirror]

/-- The loop body commutes with mirroring. -/
theorem atomBody_mirror (S : ℚ) (T : Int) (hT : 1 ≤ T) (hS : 0 ≤ S) (d : ℚ)
    (s : AtomState) :
    atomBody S T (-d) s.mirror = (atomBody S T d s).mirror := by
  rw [atomBody_eq, atomBody_eq]
  simp only [AtomState.mirror, updateAssignment_neg S T hT hS, AtomState.mk.injEq, true_and]
  constructor
  · congr 1
    have h : (-updateAssignment S T d s.assignment = -T ∧ -d < 0) ↔
        (updateAssignment S T d s.assignment = T ∧ 0 < d) := by
      constructor
      · rintro ⟨h1, h2⟩
        exact ⟨by omega, by linarith⟩
      · rintro ⟨h1, h2⟩
        exact ⟨by omega, by linarith⟩
    simp only [h]
  · congr 1
    have h : (-updateAssignment S T d s.assignment = T ∧ 0 < -d) ↔
        (updateAssignment S T d s.assignment = -T ∧ d < 0) := by
      constructor
      · rintro ⟨h1, h2⟩
        exact ⟨by omega, by linarith⟩
      · rintro ⟨h1, h2⟩
        exact ⟨by omega, by linarith⟩
    simp only [h]

/-- Runs commute with mirroring. -/
theorem atomRun_mirror (S : ℚ) (T : Int) (hT : 1 ≤ T) (hS : 0 ≤ S) (ds : List ℚ)
    (s : AtomState) :
    atomRun S T (ds.map (fun d => -d)) s.mirror = (atomRun S T ds s).mirror := by
  induction ds generalizing s with
  | nil => rfl
  | cons d ds ih =>
    rw [List.map_cons, atomRun_cons, atomRun_cons, atomBody_mirror S T hT hS, ih]

/-- A run is the mirror image of the mirrored run. -/
theorem atomRun_eq_mirror (S : ℚ) (T : Int) (hT : 1 ≤ T) (hS : 0 ≤ S) (ds : List ℚ)
    (s : AtomState) :
    atomRun S T ds s = (atomRun S T (ds.map (fun d => -d)) s.mirror).mirror := by
  rw [atomRun_mirror S T hT hS, AtomState.mirror_mirror]

/-- One frame in the upper core on a positive counter. -/
theorem atomBody_upper_core_pos (S : ℚ) (T : Int) (d : ℚ) (a : Int) (ul lu : Nat)
    (hS : 0 ≤ S) (hd : S < d) (ha : 0 < a) :
    atomBody S T d { assignment := a, upper_lower := ul, lower_upper := lu } =
      { assignment := if a > T then a else a + 1, upper_lower := ul,
        lower_upper := lu + (if a + 1 = T then 1 else 0) } := by
  have hd0 : 0 < d := lt_of_le_of_lt hS hd
  have hu : updateAssignment S T d a = if a > T then a else a + 1 := by
    rw [updateAssignment_upper_core S T d a hd]
    split_ifs <;> rfl
  rw [atomBody_eq]
  simp only [hu, AtomState.mk.injEq, true_and]
  constructor
  · have : ¬ d < 0 := not_lt.mpr hd0.le
    simp [this]
  · congr 1
    simp only [hd0, and_true]
    split_ifs <;> first | rfl | omega

/-- A run of upper-core frames on a positive counter. -/
theorem atomRun_upper_core_pos (S : ℚ) (T : Int) (hS : 0 ≤ S) (ds : List ℚ)
    (hds : ∀ d ∈ ds, S < d) (a : Int) (ul lu : Nat) (ha : 0 < a) (ha2 : a ≤ T + 1) :
    atomRun S T ds { assignment := a, upper_lower := ul, lower_upper := lu } =
      { assignment := min (a + ds.length) (T + 1), upper_lower := ul,
        lower_upper := lu + (if a < T ∧ T ≤ a + ds.length then 1 else 0) } := by
  induction ds generalizing a lu with
  | nil =>
    have h : ¬ (a < T ∧ T ≤ a + ([] : List ℚ).length) := by
      simp only [List.length_nil, Nat.cast_zero, add_zero]; omega
    rw [atomRun_nil, if_neg h]
    simp only [List.length_nil, Nat.cast_zero, add_zero, AtomState.mk.injEq, true_and, and_true]
    omega
  | cons d ds ih =>
    rw [atomRun_cons, atomBody_upper_core_pos S T d a ul lu hS
      (hds d (List.mem_cons_self _ _)) ha]
    rw [ih (fun e he => hds e (List.mem_cons_of_mem _ he)) _ _
      (by split_ifs <;> omega) (by split_ifs <;> omega)]
    simp only [List.length_cons, Nat.cast_add, Nat.cast_one, AtomState.mk.injEq, true_and]
    constructor
    · split_ifs <;> omega
    · split_ifs <;> omega

/-- First frame in the upper core for an atom confirmed in the lower leaflet. -/
theorem atomBody_upper_core_confirmed_lower (S : ℚ) (T : Int) (d : ℚ) (c : Int)
    (ul lu : Nat) (hT : 1 ≤ T) (hS : 0 ≤ S) (hd : S < d) (hc : c ≤ -T) :
    atomBody S T d { assignment := c, upper_lower := ul, lower_upper := lu } =
      { assignment := 1, upper_lower := ul,
        lower_upper := lu + (if T = 1 then 1 else 0) } := by
  have hd0 : 0 < d := lt_of_le_of_lt hS hd
  have hu : updateAssignment S T d c = 1 := by
    rw [updateAssignment_upper_core S T d c hd]
    split_ifs <;> first | rfl | omega
  rw [atomBody_eq]
  simp only [hu, AtomState.mk.injEq, true_and]
  constructor
  · have : ¬ d < 0 := not_lt.mpr hd0.le
    simp [this]
  · congr 1
    simp only [hd0, and_true]
    split_ifs <;> first | rfl | omega

/-- Counts and counter after a run of upper-core frames that starts from an
atom confirmed in the lower leaflet. -/
theorem atomRun_upper_core_confirmed_lower (S : ℚ) (T : Int) (hT : 1 ≤ T) (hS : 0 ≤ S)
    (ds : List ℚ) (hds : ∀ d ∈ ds, S < d) (c : Int) (ul lu : Nat) (hc : c ≤ -T) :
    atomRun S T ds { assignment := c, upper_lower := ul, lower_upper := lu } =
      { assignment := if ds.length = 0 then c else min (ds.length : Int) (T + 1),
        upper_lower := ul,
        lower_upper := lu + (if T ≤ ds.length then 1 else 0) } := by
  cases ds with
  | nil =>
    have h : ¬ (T ≤ (([] : List ℚ).length : Int)) := by
      simp only [List.length_nil, Nat.cast_zero]; omega
    rw [atomRun_nil, if_neg h]
    simp
  | cons d ds =>
    rw [atomRun_cons, atomBody_upper_core_confirmed_lower S T d c ul lu hT hS
      (hds d (List.mem_cons_self _ _)) hc,
      atomRun_upper_core_pos S T hS ds (fun e he => hds e (List.mem_cons_of_mem _ he))
        1 ul _ (by omega) (by omega)]
    have hne : ¬ ((d :: ds).length = 0) := by simp
    rw [if_neg hne]
    simp only [List.length_cons, Nat.cast_add, Nat.cast_one, AtomState.mk.injEq, true_and]
    constructor
    · omega
    · split_ifs <;> omega

/-- C5: for `T ≥ 1` (and a valid spatial limit `S ≥ 0`), an atom confirmed in
the lower leaflet (`c ≤ -T`) that is observed in the upper core (`d > S`) for
`n ≥ T` consecutive frames gets exactly one lower->upper event, on the `T`-th
frame: after `k` frames of the run the lower->upper count has grown by `0` if
`k < T` and by `1` if `k ≥ T`, and the upper->lower count never changes. -/
theorem single_genuine_flip (S : ℚ) (T : Int) (ds : List ℚ) (c : Int) (ul lu : Nat)
    (hT : 1 ≤ T) (hS : 0 ≤ S) (hc : c ≤ -T) (hds : ∀ d ∈ ds, S < d)
    (hn : T ≤ ds.length) :
    (atomRun S T ds { assignment := c, upper_lower := ul, lower_upper := lu }).lower_upper
        = lu + 1 ∧
    (atomRun S T ds { assignment := c, upper_lower := ul, lower_upper := lu }).upper_lower
        = ul ∧
    ∀ k : Nat, k ≤ ds.length →
      (atomRun S T (ds.take k)
          { assignment := c, upper_lower := ul, lower_upper := lu }).lower_upper
        = lu + (if T ≤ k then 1 else 0) ∧
      (atomRun S T (ds.take k)
          { assignment := c, upper_lower := ul, lower_upper := lu }).upper_lower = ul := by
  refine ⟨?_, ?_, ?_⟩
  · rw [atomRun_upper_core_confirmed_lower S T hT hS ds hds c ul lu hc]
    simp [hn]
  · rw [atomRun_upper_core_confirmed_lower S T hT hS ds hds c ul lu hc]
  · intro k hk
    rw [atomRun_upper_core_confirmed_lower S T hT hS (ds.take k)
      (fun e he => hds e (List.mem_of_mem_take he)) c ul lu hc]
    simp only [List.length_take, and_true]
    rw [Nat.min_eq_left hk]

/-- Instance of `single_genuine_flip`: `T = 2`, `S = 3/2`, start `c = -3`, three
frames at `d = 2`. -/
theorem single_genuine_flip_witness :
    (atomRun (3 / 2) 2 [2, 2, 2]
      { assignment := -3, upper_lower := 0, lower_upper := 0 }).lower_upper = 0 + 1 :=
  (single_genuine_flip (3 / 2) 2 [2, 2, 2] (-3) 0 0 (by decide) (by norm_num) (by decide)
    (by simp; norm_num) (by simp)).1

/-- Jitter suppression, lower-leaflet form: all counts along the excursion. -/
theorem jitter_from_lower (S : ℚ) (T : Int) (hT : 1 ≤ T) (hS : 0 ≤ S) (ds : List ℚ)
    (hk1 : 1 ≤ ds.length) (hk2 : (ds.length : Int) < T) (c : Int) (e : ℚ) (ul lu : Nat)
    (hc : c ≤ -T) (hds : ∀ d ∈ ds, S < d) (he : e < -S) :
    atomRun S T (ds ++ [e]) { assignment := c, upper_lower := ul, lower_upper := lu } =
        { assignment := -T - 1, upper_lower := ul, lower_upper := lu } ∧
    ∀ j : Nat,
      (atomRun S T ((ds ++ [e]).take j)
        { assignment := c, upper_lower := ul, lower_upper := lu }).upper_lower = ul ∧
      (atomRun S T ((ds ++ [e]).take j)
        { assignment := c, upper_lower := ul, lower_upper := lu }).lower_upper = lu := by
  have hfull : atomRun S T (ds ++ [e])
      { assignment := c, upper_lower := ul, lower_upper := lu } =
        { assignment := -T - 1, upper_lower := ul, lower_upper := lu } := by
    rw [atomRun_append, atomRun_upper_core_confirmed_lower S T hT hS ds hds c ul lu hc]
    have h0 : ¬ (ds.length = 0) := by omega
    have h1 : ¬ (T ≤ (ds.length : Int)) := by omega
    rw [if_neg h0, if_neg h1, atomRun_cons, atomRun_nil, atomBody_eq]
    have hu : updateAssignment S T e (min (ds.length : Int) (T + 1)) = -T - 1 := by
      rw [updateAssignment_lower_core S T e _ (by linarith) (by linarith) he]
      split_ifs <;> omega
    simp only [hu, AtomState.mk.injEq, true_and]
    constructor
    · have h : ¬ (-T - 1 = -T ∧ e < 0) := by omega
      rw [if_neg h]
      rfl
    · have h : ¬ (-T - 1 = T ∧ 0 < e) := by omega
      rw [if_neg h]
      rfl
  refine ⟨hfull, ?_⟩
  intro j
  by_cases hj : j ≤ ds.length
  · rw [List.take_append_of_le_length hj,
      atomRun_upper_core_confirmed_lower S T hT hS (ds.take j)
        (fun x hx => hds x (List.mem_of_mem_take hx)) c ul lu hc]
    have h1 : ¬ (T ≤ ((ds.take j).length : Int)) := by
      rw [List.length_take, Nat.min_eq_left hj]
      omega
    rw [if_neg h1]
    exact ⟨rfl, rfl⟩
  · have hlen : (ds ++ [e]).length ≤ j := by
      rw [List.length_append, List.length_singleton]
      omega
    rw [List.take_of_length_le hlen, hfull]
    exact ⟨rfl, rfl⟩

/-- Jitter suppression in the arithmetic of `Int`: for `T ≥ 1` (and `S ≥ 0`),
an atom confirmed lower (`c ≤ -T`) that is seen in the upper core for `k`
frames, `1 ≤ k < T`, and then in the lower core ends with counter `-T - 1` and
neither count changes after any of the `k + 1` frames; mirrored, an atom
confirmed upper (`c ≥ T`) seen in the lower core for `k` frames and then in
the upper core ends with counter `T + 1` and no count changes. -/
theorem jitter_suppression (S : ℚ) (T : Int) (ds : List ℚ) (ul lu : Nat)
    (hT : 1 ≤ T) (hS : 0 ≤ S) (hk1 : 1 ≤ ds.length) (hk2 : (ds.length : Int) < T) :
    (∀ (c : Int) (e : ℚ), c ≤ -T → (∀ d ∈ ds, S < d) → e < -S →
      atomRun S T (ds ++ [e]) { assignment := c, upper_lower := ul, lower_upper := lu } =
        { assignment := -T - 1, upper_lower := ul, lower_upper := lu } ∧
      ∀ j : Nat,
        (atomRun S T ((ds ++ [e]).take j)
          { assignment := c, upper_lower := ul, lower_upper := lu }).upper_lower = ul ∧
        (atomRun S T ((ds ++ [e]).take j)
          { assignment := c, upper_lower := ul, lower_upper := lu }).lower_upper = lu) ∧
    (∀ (c : Int) (e : ℚ), T ≤ c → (∀ d ∈ ds, d < -S) → S < e →
      atomRun S T (ds ++ [e]) { assignment := c, upper_lower := ul, lower_upper := lu } =
        { assignment := T + 1, upper_lower := ul, lower_upper := lu } ∧
      ∀ j : Nat,
        (atomRun S T ((ds ++ [e]).take j)
          { assignment := c, upper_lower := ul, lower_upper := lu }).upper_lower = ul ∧
        (atomRun S T ((ds ++ [e]).take j)
          { assignment := c, upper_lower := ul, lower_upper := lu }).lower_upper = lu) := by
  constructor
  · intro c e hc hds he
    exact jitter_from_lower S T hT hS ds hk1 hk2 c e ul lu hc hds he
  · intro c e hc hds he
    have hm := jitter_from_lower S T hT hS (ds.map (fun d => -d))
      (by rw [List.length_map]; exact hk1) (by rw [List.length_map]; exact hk2)
      (-c) (-e) lu ul (by omega)
      (by
        intro x hx
        rcases List.mem_map.mp hx with ⟨y, hy, rfl⟩
        linarith [hds y hy])
      (by linarith)
    have hmap2 : ds.map (fun d => -d) ++ [-e] = (ds ++ [e]).map (fun d => -d) := by
      rw [List.map_append]
      rfl
    constructor
    · rw [atomRun_eq_mirror S T hT hS]
      have h1 := hm.1
      rw [hmap2] at h1
      simp only [AtomState.mirror]
      rw [h1]
      simp only [AtomState.mk.injEq, and_self, and_true]
      omega
    · intro j
      have h2 := hm.2 j
      rw [hmap2, ← List.map_take] at h2
      rw [atomRun_eq_mirror S T hT hS]
      simp only [AtomState.mirror]
      exact ⟨h2.2, h2.1⟩

/-- Instance of `jitter_suppression`: `T = 3`, `S = 3/2`, two frames at `d = 2`
from `c = -3`, then `d = -2`. -/
theorem jitter_suppression_witness :
    atomRun (3 / 2) 3 ([2, 2] ++ [-2])
        { assignment := -3, upper_lower := 0, lower_upper := 0 } =
      { assignment := -3 - 1, upper_lower := 0, lower_upper := 0 } :=
  ((jitter_suppression (3 / 2) 3 [2, 2] 0 0 (by decide) (by norm_num) (by simp)
    (by simp)).1 (-3) (-2) (by decide) (by simp; norm_num) (by norm_num)).1

/-- Unconfirmed-origin snap in the arithmetic of `Int`: for `T ≥ 1` and a
counter with `-T < c < 0`, one frame in the upper core (`d > S`) sets the
counter to `T + 1` and leaves both counts unchanged. -/
theorem unconfirmed_origin_snap (S : ℚ) (T : Int) (d : ℚ) (c : Int) (ul lu : Nat)
    (hT : 1 ≤ T) (hc1 : -T < c) (hc2 : c < 0) (hd : S < d) :
    atomBody S T d { assignment := c, upper_lower := ul, lower_upper := lu } =
      { assignment := T + 1, upper_lower := ul, lower_upper := lu } := by
  have hu : updateAssignment S T d c = T + 1 := by
    rw [updateAssignment_upper_core S T d c hd]
    split_ifs <;> first | rfl | omega
  rw [atomBody_eq]
  simp only [hu, AtomState.mk.injEq, true_and]
  have h1 : ¬ (T + 1 = -T ∧ d < 0) := by omega
  have h2 : ¬ (T + 1 = T ∧ 0 < d) := by omega
  rw [if_neg h1, if_neg h2]
  exact ⟨rfl, rfl⟩

/-- Instance of `unconfirmed_origin_snap`: `T = 3`, `S = 3/2`, `c = -2`, `d = 2`. -/
theorem unconfirmed_origin_snap_witness :
    atomBody (3 / 2) 3 2 { assignment := -2, upper_lower := 0, lower_upper := 0 } =
      { assignment := 3 + 1, upper_lower := 0, lower_upper := 0 } :=
  unconfirmed_origin_snap (3 / 2) 3 2 (-2) 0 0 (by decide) (by decide) (by decide)
    (by norm_num)

/-- One upper-core frame on the initial counter or on the saturated counter
`T + 1` gives `T + 1` and no event. -/
theorem atomBody_upper_core_stable (S : ℚ) (T : Int) (d : ℚ) (c : Int) (ul lu : Nat)
    (hT : 1 ≤ T) (hc : c = 0 ∨ c = T + 1) (hd : S < d) :
    atomBody S T d { assignment := c, upper_lower := ul, lower_upper := lu } =
      { assignment := T + 1, upper_lower := ul, lower_upper := lu } := by
  have hu : updateAssignment S T d c = T + 1 := by
    rw [updateAssignment_upper_core S T d c hd]
    split_ifs <;> omega
  rw [atomBody_eq]
  simp only [hu, AtomState.mk.injEq, true_and]
  have h1 : ¬ (T + 1 = -T ∧ d < 0) := by omega
  have h2 : ¬ (T + 1 = T ∧ 0 < d) := by omega
  rw [if_neg h1, if_neg h2]
  exact ⟨rfl, rfl⟩

theorem atomRun_upper_core_stable (S : ℚ) (T : Int) (hT : 1 ≤ T) (ds : List ℚ)
    (hds : ∀ d ∈ ds, S < d) (hne : ds ≠ []) (c : Int) (ul lu : Nat)
    (hc : c = 0 ∨ c = T + 1) :
    atomRun S T ds { assignment := c, upper_lower := ul, lower_upper := lu } =
      { assignment := T + 1, upper_lower := ul, lower_upper := lu } := by
  induction ds generalizing c with
  | nil => exact absurd rfl hne
  | cons d ds ih =>
    rw [atomRun_cons, atomBody_upper_core_stable S T d c ul lu hT hc
      (hds d (List.mem_cons_self _ _))]
    by_cases h : ds = []
    · subst h
      rfl
    · exact ih (fun e he => hds e (List.mem_cons_of_mem _ he)) h (T + 1) (Or.inr rfl)

/-- Stable residency in the arithmetic of `Int`: for `T ≥ 1`, an atom whose
counter starts at `0` and which has `d > S` in all frames has counter `T + 1`
and unchanged counts after every one of the frames (after the first `k`
frames, for every `k ≥ 1`). -/
theorem stable_residency_no_flip (S : ℚ) (T : Int) (ds : List ℚ) (ul lu : Nat)
    (hT : 1 ≤ T) (hds : ∀ d ∈ ds, S < d) :
    ∀ k : Nat, 1 ≤ k → k ≤ ds.length →
      atomRun S T (ds.take k) (atomInit ul lu) =
        { assignment := T + 1, upper_lower := ul, lower_upper := lu } := by
  intro k hk1 hk2
  have hne : ds.take k ≠ [] := by
    intro h
    have := congrArg List.length h
    rw [List.length_take, Nat.min_eq_left hk2] at this
    simp at this
    omega
  exact atomRun_upper_core_stable S T hT (ds.take k)
    (fun e he => hds e (List.mem_of_mem_take he)) hne 0 ul lu (Or.inl rfl)

/-- Instance of `stable_residency_no_flip`: `T = 3`, `S = 3/2`, three frames at
`d = 2`, state after the second frame. -/
theorem stable_residency_no_flip_witness :
    atomRun (3 / 2) 3 (([2, 2, 2] : List ℚ).take 2) (atomInit 0 0) =
      { assignment := 3 + 1, upper_lower := 0, lower_upper := 0 } :=
  stable_residency_no_flip (3 / 2) 3 [2, 2, 2] 0 0 (by decide) (by simp; norm_num) 2
    (by decide) (by simp)

/-- Outside the upper core the counter never enters `1..T`. -/
theorem updateAssignment_not_upper_core (S : ℚ) (T : Int) (d : ℚ) (c : Int) (hT : 1 ≤ T)
    (hd : ¬ S < d) (hc : c ≤ 0 ∨ T < c) :
    updateAssignment S T d c ≤ 0 ∨ T < updateAssignment S T d c := by
  unfold updateAssignment
  rw [if_neg hd]
  split_ifs <;> omega

/-- Outside the lower core the counter never enters `-T..-1`. -/
theorem updateAssignment_not_lower_core (S : ℚ) (T : Int) (d : ℚ) (c : Int) (hT : 1 ≤ T)
    (hd : ¬ d < -S) (hc : 0 ≤ c ∨ c < -T) :
    0 ≤ updateAssignment S T d c ∨ updateAssignment S T d c < -T := by
  unfold updateAssignment
  rw [if_neg hd]
  split_ifs <;> omega

theorem atomRun_not_upper_core (S : ℚ) (T : Int) (hT : 1 ≤ T) (ds : List ℚ)
    (hds : ∀ d ∈ ds, ¬ S < d) (s : AtomState)
    (hs : s.assignment ≤ 0 ∨ T < s.assignment) :
    (atomRun S T ds s).lower_upper = s.lower_upper ∧
      ((atomRun S T ds s).assignment ≤ 0 ∨ T < (atomRun S T ds s).assignment) := by
  induction ds generalizing s with
  | nil => exact ⟨rfl, hs⟩
  | cons d ds ih =>
    have hd := hds d (List.mem_cons_self _ _)
    have hu := updateAssignment_not_upper_core S T d s.assignment hT hd hs
    have h := ih (fun e he => hds e (List.mem_cons_of_mem _ he)) (atomBody S T d s)
      (by rw [atomBody_assignment]; exact hu)
    rw [atomRun_cons]
    refine ⟨?_, h.2⟩
    rw [h.1, atomBody_lower_upper]
    have hno : ¬ (updateAssignment S T d s.assignment = T ∧ 0 < d) := by omega
    rw [if_neg hno]
    rfl

theorem atomRun_not_lower_core (S : ℚ) (T : Int) (hT : 1 ≤ T) (ds : List ℚ)
    (hds : ∀ d ∈ ds, ¬ d < -S) (s : AtomState)
    (hs : 0 ≤ s.assignment ∨ s.assignment < -T) :
    (atomRun S T ds s).upper_lower = s.upper_lower ∧
      (0 ≤ (atomRun S T ds s).assignment ∨ (atomRun S T ds s).assignment < -T) := by
  induction ds generalizing s with
  | nil => exact ⟨rfl, hs⟩
  | cons d ds ih =>
    have hd := hds d (List.mem_cons_self _ _)
    have hu := updateAssignment_not_lower_core S T d s.assignment hT hd hs
    have h := ih (fun e he => hds e (List.mem_cons_of_mem _ he)) (atomBody S T d s)
      (by rw [atomBody_assignment]; exact hu)
    rw [atomRun_cons]
    refine ⟨?_, h.2⟩
    rw [h.1, atomBody_upper_lower]
    have hno : ¬ (updateAssignment S T d s.assignment = -T ∧ d < 0) := by omega
    rw [if_neg hno]
    rfl

/-- C9: for `T ≥ 1` and any frame sequence processed from the initial counter
`0`: if no frame has `d > S`, the lower->upper count is unchanged after every
frame (no lower->upper event is ever emitted), and if no frame has `d < -S`,
the upper->lower count is unchanged after every frame. -/
theorem spatial_limit_gates (S : ℚ) (T : Int) (ds : List ℚ) (ul lu : Nat) (hT : 1 ≤ T) :
    ((∀ d ∈ ds, ¬ S < d) →
      ∀ k : Nat, (atomRun S T (ds.take k) (atomInit ul lu)).lower_upper = lu) ∧
    ((∀ d ∈ ds, ¬ d < -S) →
      ∀ k : Nat, (atomRun S T (ds.take k) (atomInit ul lu)).upper_lower = ul) := by
  constructor
  · intro hds k
    exact (atomRun_not_upper_core S T hT (ds.take k)
      (fun e he => hds e (List.mem_of_mem_take he)) (atomInit ul lu)
      (Or.inl (le_refl 0))).1
  · intro hds k
    exact (atomRun_not_lower_core S T hT (ds.take k)
      (fun e he => hds e (List.mem_of_mem_take he)) (atomInit ul lu)
      (Or.inl (le_refl 0))).1

/-- Instance of `spatial_limit_gates`: `T = 2`, `S = 3/2`, an atom confirmed lower
that then spends four frames in the upper intermediate zone (`d = 1`). -/
theorem spatial_limit_gates_witness :
    (atomRun (3 / 2) 2 (([-2, 1, 1, 1, 1] : List ℚ).take 5) (atomInit 0 0)).lower_upper
      = 0 :=
  (spatial_limit_gates (3 / 2) 2 [-2, 1, 1, 1, 1] 0 0 (by decide)).1
    (by simp; norm_num) 5

/-- How the counter can come to lie in `1..T` after a frame away from the
midplane: by one increment on the upper side, or by entering the upper core
from a confirmed lower state. -/
theorem updateAssignment_in_progress (S : ℚ) (T : Int) (d : ℚ) (c : Int) (hT : 1 ≤ T)
    (hS : 0 ≤ S) (hd0 : d ≠ 0) (h1 : 0 < updateAssignment S T d c)
    (h2 : updateAssignment S T d c ≤ T) (h3 : updateAssignment S T d c < T ∨ 0 < d) :
    0 < d ∧ ((0 < c ∧ c < T ∧ updateAssignment S T d c = c + 1) ∨
      (updateAssignment S T d c = 1 ∧ S < d)) := by
  rcases lt_or_gt_of_ne hd0 with hneg | hpos
  · exfalso
    by_cases h : d < -S
    · rw [updateAssignment_lower_core S T d c (by linarith) (by linarith) h] at h1 h2 h3
      rcases h3 with h3 | h3
      · split_ifs at h1 h2 h3 <;> omega
      · linarith
    · rw [updateAssignment_lower_intermediate S T d c (by linarith) (by linarith)
        (by linarith) hneg] at h1 h2 h3
      rcases h3 with h3 | h3
      · split_ifs at h1 h2 h3 <;> omega
      · linarith
  · refine ⟨hpos, ?_⟩
    by_cases h : S < d
    · rw [updateAssignment_upper_core S T d c h] at h1 h2 ⊢
      split_ifs at h1 h2 ⊢ <;> first | (left; omega) | (right; exact ⟨rfl, h⟩)
    · rw [updateAssignment_upper_intermediate S T d c (by linarith) hpos] at h1 h2 ⊢
      split_ifs at h1 h2 ⊢ <;> (left; omega)

/-- While the counter is strictly between `0` and `T` after `k` frames, the
last `c` frames were all on the upper side and the first of them was in the
upper core (no frame at the midplane). -/
theorem atomRun_in_progress (S : ℚ) (T : Int) (hT : 1 ≤ T) (hS : 0 ≤ S) (ds : List ℚ)
    (hz : ∀ d ∈ ds, d ≠ 0) (s0 : AtomState)
    (h0 : s0.assignment ≤ 0 ∨ T ≤ s0.assignment) (k : Nat) (hk : k ≤ ds.length) :
    0 < (atomRun S T (ds.take k) s0).assignment →
    (atomRun S T (ds.take k) s0).assignment < T →
      (atomRun S T (ds.take k) s0).assignment ≤ k ∧
      ∀ j : Nat, (k : Int) - (atomRun S T (ds.take k) s0).assignment ≤ j → j < k →
        ∃ e, ds[j]? = some e ∧ 0 < e ∧
          ((j : Int) = k - (atomRun S T (ds.take k) s0).assignment → S < e) := by
  induction k with
  | zero =>
    intro h1 h2
    rw [List.take_zero, atomRun_nil] at h1 h2
    omega
  | succ k ih =>
    have hlt : k < ds.length := hk
    have hget : ds[k]? = some ds[k] := List.getElem?_eq_getElem hlt
    have hmem : ds[k] ∈ ds := List.getElem_mem hlt
    rw [atomRun_take_succ S T ds s0 k ds[k] hget, atomBody_assignment]
    intro h1 h2
    have key := updateAssignment_in_progress S T ds[k] _ hT hS (hz _ hmem) h1 h2.le
      (Or.inl h2)
    rcases key with ⟨hpos, ⟨hc1, hc2, hu⟩ | ⟨hu, hcore⟩⟩
    · have hI := ih (le_of_lt hlt) hc1 hc2
      rw [hu]
      refine ⟨by push_cast; omega, ?_⟩
      intro j hj1 hj2
      by_cases hjk : j = k
      · subst hjk
        exact ⟨ds[j], hget, hpos, fun h => by push_cast at h; omega⟩
      · obtain ⟨e, he1, he2, he3⟩ := hI.2 j (by push_cast at hj1; omega) (by omega)
        exact ⟨e, he1, he2, fun h => he3 (by push_cast at h; omega)⟩
    · rw [hu]
      refine ⟨by push_cast; omega, ?_⟩
      intro j hj1 hj2
      have hjk : j = k := by push_cast at hj1; omega
      subst hjk
      exact ⟨ds[j], hget, hpos, fun _ => hcore⟩

theorem AtomState.mirror_atomInit (ul lu : Nat) :
    (atomInit ul lu).mirror = atomInit lu ul := by
  simp [AtomState.mirror, atomInit]

/-- A lower->upper event after frame `k` (index from `0`): the last `T` frames
were on the upper side and the first of them was in the upper core. -/
theorem lower_upper_event_window (S : ℚ) (T : Int) (hT : 1 ≤ T) (hS : 0 ≤ S)
    (ds : List ℚ) (hz : ∀ d ∈ ds, d ≠ 0) (s0 : AtomState)
    (h0 : s0.assignment ≤ 0 ∨ T ≤ s0.assignment) (k : Nat) (hk : k < ds.length)
    (hev : (atomRun S T (ds.take (k + 1)) s0).lower_upper =
      (atomRun S T (ds.take k) s0).lower_upper + 1) :
    T ≤ (k : Int) + 1 ∧
    ∀ j : Nat, (k : Int) + 1 - T ≤ j → j ≤ k →
      ∃ e, ds[j]? = some e ∧ 0 < e ∧ ((j : Int) = k + 1 - T → S < e) := by
  have hget : ds[k]? = some ds[k] := List.getElem?_eq_getElem hk
  have hmem : ds[k] ∈ ds := List.getElem_mem hk
  rw [atomRun_take_succ S T ds s0 k ds[k] hget, atomBody_lower_upper] at hev
  have hc : updateAssignment S T ds[k] (atomRun S T (ds.take k) s0).assignment = T ∧
      0 < ds[k] := by
    by_contra hno
    rw [if_neg hno] at hev
    omega
  have key := updateAssignment_in_progress S T ds[k] _ hT hS (hz _ hmem)
    (by rw [hc.1]; omega) (by rw [hc.1]) (Or.inr hc.2)
  rw [hc.1] at key
  rcases key with ⟨hpos, ⟨hc1, hc2, hu⟩ | ⟨hu, hcore⟩⟩
  · have hI := atomRun_in_progress S T hT hS ds hz s0 h0 k (le_of_lt hk) hc1 hc2
    refine ⟨by omega, ?_⟩
    intro j hj1 hj2
    by_cases hjk : j = k
    · subst hjk
      exact ⟨ds[j], hget, hpos, fun h => by omega⟩
    · obtain ⟨e, he1, he2, he3⟩ := hI.2 j (by omega) (by omega)
      exact ⟨e, he1, he2, fun h => he3 (by omega)⟩
  · refine ⟨by omega, ?_⟩
    intro j hj1 hj2
    have hjk : j = k := by omega
    subst hjk
    exact ⟨ds[j], hget, hpos, fun _ => hcore⟩

/-- C10 (amended): for `T ≥ 1`, `S ≥ 0` and a frame sequence without a frame
exactly at the midplane, processed from the initial counter `0`: whenever the
lower->upper count grows at a frame, the atom was on the upper side (`d > 0`)
in that frame and in each of the `T - 1` frames immediately before it, and it
was in the upper core (`d > S`) in the first of these `T` frames; the mirrored
statement holds for the upper->lower count, `d < 0` and `d < -S`. -/
theorem event_needs_core_entry (S : ℚ) (T : Int) (ds : List ℚ) (ul lu : Nat) (k : Nat)
    (hT : 1 ≤ T) (hS : 0 ≤ S) (hz : ∀ d ∈ ds, d ≠ 0) (hk : k < ds.length) :
    ((atomRun S T (ds.take (k + 1)) (atomInit ul lu)).lower_upper =
        (atomRun S T (ds.take k) (atomInit ul lu)).lower_upper + 1 →
      T ≤ (k : Int) + 1 ∧
      ∀ j : Nat, (k : Int) + 1 - T ≤ j → j ≤ k →
        ∃ e, ds[j]? = some e ∧ 0 < e ∧ ((j : Int) = k + 1 - T → S < e)) ∧
    ((atomRun S T (ds.take (k + 1)) (atomInit ul lu)).upper_lower =
        (atomRun S T (ds.take k) (atomInit ul lu)).upper_lower + 1 →
      T ≤ (k : Int) + 1 ∧
      ∀ j : Nat, (k : Int) + 1 - T ≤ j → j ≤ k →
        ∃ e, ds[j]? = some e ∧ e < 0 ∧ ((j : Int) = k + 1 - T → e < -S)) := by
  constructor
  · intro hev
    exact lower_upper_event_window S T hT hS ds hz (atomInit ul lu) (Or.inl (le_refl 0))
      k hk hev
  · intro hev
    rw [atomRun_eq_mirror S T hT hS (ds.take (k + 1)),
      atomRun_eq_mirror S T hT hS (ds.take k), AtomState.mirror_atomInit,
      List.map_take, List.map_take] at hev
    have h := lower_upper_event_window S T hT hS (ds.map (fun d => -d))
      (by
        intro x hx
        rcases List.mem_map.mp hx with ⟨y, hy, rfl⟩
        exact neg_ne_zero.mpr (hz y hy))
      (atomInit lu ul) (Or.inl (le_refl 0)) k (by rw [List.length_map]; exact hk) hev
    refine ⟨h.1, ?_⟩
    intro j hj1 hj2
    obtain ⟨e, he1, he2, he3⟩ := h.2 j hj1 hj2
    rw [List.getElem?_map] at he1
    rcases hdj : ds[j]? with _ | x
    · rw [hdj] at he1
      simp at he1
    · rw [hdj] at he1
      simp only [Option.map_some', Option.some.injEq] at he1
      subst he1
      exact ⟨x, rfl, by linarith, fun hh => by linarith [he3 hh]⟩

/-- The frames `-2, 2, 1` with `S = 3/2`, `T = 2`, from the initial counter:
the third frame emits a lower->upper event although the atom is only in the
upper intermediate zone (`d = 1 ≤ S`) in that frame. -/
theorem core_residency_counterexample :
    (atomRun (3 / 2) 2 (([-2, 2, 1] : List ℚ).take 3) (atomInit 0 0)).lower_upper =
      (atomRun (3 / 2) 2 (([-2, 2, 1] : List ℚ).take 2) (atomInit 0 0)).lower_upper + 1 ∧
    ([-2, 2, 1] : List ℚ)[2]? = some 1 ∧ ¬ ((3 / 2 : ℚ) < 1) := by
  refine ⟨?_, rfl, by norm_num⟩
  simp [atomRun, atomBody, updateAssignment, atomInit]
  norm_num

/-- Instance of `event_needs_core_entry`: the frames `-2, 2, 1` with `S = 3/2`, `T = 2`; the
event at the third frame has the window of frames two and three. -/
theorem event_needs_core_entry_witness :
    (2 : Int) ≤ ((2 : Nat) : Int) + 1 ∧
    ∀ j : Nat, ((2 : Nat) : Int) + 1 - 2 ≤ j → j ≤ 2 →
      ∃ e, ([-2, 2, 1] : List ℚ)[j]? = some e ∧ 0 < e ∧
        ((j : Int) = ((2 : Nat) : Int) + 1 - 2 → (3 / 2 : ℚ) < e) :=
  (event_needs_core_entry (3 / 2) 2 [-2, 2, 1] 0 0 2 (by decide) (by norm_num)
    (by simp) (by simp)).1
    (by simp [atomRun, atomBody, updateAssignment, atomInit]; norm_num)

/-! ## The rate module -/

/-- Against the reference built from the same distances no atom is scrambled. -/
theorem countScrambled_reference (ds : List ℚ) (s : Nat) :
    Rate.countScrambled ds (Rate.referenceOfSelection ds) s = s := by
  induction ds generalizing s with
  | nil => rfl
  | cons d ds ih =>
    simp only [Rate.referenceOfSelection, List.map_cons, Rate.countScrambled]
    by_cases hd : d > 0
    · have h1 : ¬ d < 0 := not_lt.mpr hd.le
      simp only [hd, h1, if_true, and_true, and_false, if_false]
      have h2 : ¬ ((1 : Int) = 0) := by decide
      rw [if_neg h2]
      exact ih s
    · simp only [hd, if_false, and_false, if_false]
      have h2 : ¬ ((0 : Int) = 1 ∧ d < 0) := by
        rintro ⟨h, -⟩
        exact absurd h (by decide)
      rw [if_neg h2]
      exact ih s

/-- Closed form of the outer loop of `classify_lipids` on the reference frame. -/
theorem classifyLoop_reference (frame : List (List ℚ)) (ts tl : Nat) :
    (Rate.classifyLoop frame (Rate.create_reference frame) ts tl).1 =
        List.replicate frame.length 0 ∧
    (Rate.classifyLoop frame (Rate.create_reference frame) ts tl).2.1 = ts := by
  induction frame generalizing ts tl with
  | nil => exact ⟨rfl, rfl⟩
  | cons ds dss ih =>
    simp only [Rate.create_reference, List.map_cons, Rate.classifyLoop,
      countScrambled_reference, percentage_zero, List.length_cons, List.replicate_succ,
      add_zero]
    have h := ih ts (tl + ds.length)
    simp only [Rate.create_reference] at h
    exact ⟨by rw [h.1], h.2⟩

theorem mem_referenceRow (n : Nat) (v : ℚ) (hv : v ∈ Rate.referenceRow n) : v = 0 := by
  unfold Rate.referenceRow at hv
  rcases List.mem_append.mp hv with h | h
  · exact (List.mem_replicate.mp h).2
  · split_ifs at h
    · simpa using h
    · simp at h

theorem classify_lipids_reference (frame : List (List ℚ)) :
    Rate.classify_lipids frame (Rate.create_reference frame) =
      Rate.referenceRow frame.length := by
  unfold Rate.classify_lipids Rate.referenceRow
  simp only [(classifyLoop_reference frame 0 0).1, (classifyLoop_reference frame 0 0).2]
  split_ifs
  · rw [percentage_zero]
  · rw [List.append_nil]

/-- C11: counting scrambled atoms against the reference built from the same
distances gives 0 for every lipid type and in total, every value that
`classify_lipids` would report is 0, and on the reference frame (the first
analyzed frame, `frame = 0`) the rate module writes the value 0 for every
lipid type (and for the aggregate). -/
theorem idempotent_reference (frame : List (List ℚ)) :
    (∀ ds ∈ frame, Rate.countScrambled ds (Rate.referenceOfSelection ds) 0 = 0) ∧
    (Rate.classifyLoop frame (Rate.create_reference frame) 0 0).2.1 = 0 ∧
    (∀ v ∈ Rate.classify_lipids frame (Rate.create_reference frame), v = 0) ∧
    (∀ (dt t : ℚ) (fs : List TrajFrame) (reference : List (List Int)),
      truncToInt t % roundf (dt * 1000) = 0 →
      Rate.rateLoop dt ({ time := t, dists := frame } :: fs) 0 reference =
        (t / 1000, Rate.referenceRow frame.length) ::
          Rate.rateLoop dt fs 1 (Rate.create_reference frame)) ∧
    (frame.length ≤ (Rate.referenceRow frame.length).length ∧
      ∀ v ∈ Rate.referenceRow frame.length, v = 0) := by
  refine ⟨fun ds _ => countScrambled_reference ds 0, (classifyLoop_reference frame 0 0).2,
    ?_, ?_, ?_, ?_⟩
  · intro v hv
    rw [classify_lipids_reference] at hv
    exact mem_referenceRow _ v hv
  · intro dt t fs reference hsel
    have h : ¬ (truncToInt t % roundf (dt * 1000) ≠ 0) := not_not.mpr hsel
    simp only [Rate.rateLoop, h, if_false, if_true]
  · unfold Rate.referenceRow
    simp
  · exact fun v hv => mem_referenceRow _ v hv

/-- The inner loop of `classify_lipids` counts the atoms that are strictly on
the other side of the midplane than recorded. -/
theorem countScrambled_eq_countP (ds : List ℚ) (rs : List Int) (s : Nat)
    (hrs : ∀ r ∈ rs, r = 0 ∨ r = 1) :
    Rate.countScrambled ds rs s =
      s + (ds.zip rs).countP (fun p => decide ((p.2 = 0 ∧ p.1 > 0) ∨ (p.2 = 1 ∧ p.1 < 0))) := by
  induction ds generalizing rs s with
  | nil => simp [Rate.countScrambled]
  | cons d ds ih =>
    cases rs with
    | nil => simp [Rate.countScrambled]
    | cons r rs =>
      have hr := hrs r (List.mem_cons_self _ _)
      simp only [Rate.countScrambled, List.zip_cons_cons, List.countP_cons]
      rw [ih rs _ (fun x hx => hrs x (List.mem_cons_of_mem _ hx))]
      rcases hr with hr | hr
      · subst hr
        by_cases hd : d > 0
        · simp [hd]
          omega
        · simp [hd]
      · subst hr
        by_cases hd : d < 0
        · simp [hd]
          omega
        · simp [hd]

/-- Away from the midplane the count of `classify_lipids` is the number of
atoms whose binary side differs from the recorded one. -/
theorem countScrambled_eq_scrambledBySide (ds : List ℚ) (rs : List Int)
    (hrs : ∀ r ∈ rs, r = 0 ∨ r = 1) (hds : ∀ d ∈ ds, d ≠ 0) :
    Rate.countScrambled ds rs 0 = Rate.scrambledBySide ds rs := by
  rw [countScrambled_eq_countP ds rs 0 hrs, Rate.scrambledBySide, Nat.zero_add,
    List.countP_eq_length_filter]
  congr 1
  apply List.filter_congr
  intro p hp
  have h1 := hrs p.2 (List.of_mem_zip hp).2
  have h2 := hds p.1 (List.of_mem_zip hp).1
  unfold Rate.binarySide
  rcases lt_or_gt_of_ne h2 with hneg | hpos
  · have h3 : ¬ p.1 > 0 := not_lt.mpr hneg.le
    rcases h1 with h1 | h1 <;> simp [h1, h3, hneg]
  · have h3 : ¬ p.1 < 0 := not_lt.mpr hpos.le
    rcases h1 with h1 | h1 <;> simp [h1, h3, hpos]

/-- C12 (failing input): one atom recorded in the upper leaflet (`d = 1` on the
reference frame) that is exactly at the midplane (`d = 0`) in a later frame.
Its binary side is now lower, so one atom differs from the reference, but
`classify_lipids` counts no scrambled atom and reports 0. -/
theorem midplane_atom_not_counted :
    Rate.referenceOfSelection [1] = [1] ∧
    Rate.binarySide 0 = 0 ∧
    Rate.scrambledBySide [0] (Rate.referenceOfSelection [1]) = 1 ∧
    Rate.countScrambled [0] (Rate.referenceOfSelection [1]) 0 = 0 ∧
    Rate.classify_lipids [[0]] (Rate.create_reference [[1]]) = [0] := by
  refine ⟨?_, ?_, ?_, ?_, ?_⟩
  · simp [Rate.referenceOfSelection]
  · simp [Rate.binarySide]
  · simp [Rate.scrambledBySide, Rate.referenceOfSelection, Rate.binarySide]
  · simp [Rate.countScrambled, Rate.referenceOfSelection]
  · simp [Rate.classify_lipids, Rate.create_reference, Rate.classifyLoop,
      Rate.countScrambled, Rate.referenceOfSelection, percentage_zero]

/-- Closed form of the outer loop of `classify_lipids`: the per-type values and
the two accumulators. -/
theorem classifyLoop_closed (frame : List (List ℚ)) (reference : List (List Int))
    (ts tl : Nat) (hlen : reference.length = frame.length) :
    (Rate.classifyLoop frame reference ts tl).1 =
        List.zipWith (fun ds rs => Rate.percentage (Rate.countScrambled ds rs 0) ds.length)
          frame reference ∧
    (Rate.classifyLoop frame reference ts tl).2.1 =
        ts + (List.zipWith (fun ds rs => Rate.countScrambled ds rs 0) frame reference).sum ∧
    (Rate.classifyLoop frame reference ts tl).2.2 = tl + (frame.map List.length).sum := by
  induction frame generalizing reference ts tl with
  | nil =>
    cases reference with
    | nil => simp [Rate.classifyLoop]
    | cons r rs => simp at hlen
  | cons ds dss ih =>
    cases reference with
    | nil => simp at hlen
    | cons rs rss =>
      have h := ih rss (ts + Rate.countScrambled ds rs 0) (tl + ds.length)
        (by simpa using hlen)
      simp only [Rate.classifyLoop, List.zipWith_cons_cons, List.sum_cons, List.map_cons]
      refine ⟨by rw [h.1], ?_, ?_⟩
      · rw [h.2.1]
        omega
      · rw [h.2.2]
        omega

/-- With all `n` atoms of the only lipid type scrambled, the value written is
the percentage of `n` out of `n`. -/
theorem classify_lipids_all_scrambled (n : Nat) :
    Rate.classify_lipids [List.replicate n 1] [List.replicate n 0] =
      [Rate.percentage n n] := by
  have hcount : ∀ (k s : Nat),
      Rate.countScrambled (List.replicate k (1 : ℚ)) (List.replicate k (0 : Int)) s = s + k := by
    intro k
    induction k with
    | zero =>
      intro s
      rfl
    | succ k ih =>
      intro s
      have h1 : ¬ ((0 : Int) = 1 ∧ (1 : ℚ) < 0) := by
        rintro ⟨h, -⟩
        exact absurd h (by decide)
      have h3 : True ∧ (1 : ℚ) > 0 := ⟨trivial, by norm_num⟩
      rw [List.replicate_succ, List.replicate_succ, Rate.countScrambled]
      simp only [if_pos h3, if_neg h1]
      rw [ih]
      omega
  have hc := classifyLoop_closed [List.replicate n (1 : ℚ)] [List.replicate n (0 : Int)] 0 0 rfl
  unfold Rate.classify_lipids
  have hlen : ¬ ([List.replicate n (1 : ℚ)].length > 1) := by simp
  rw [if_neg hlen, hc.1]
  simp only [List.zipWith_cons_cons, List.zipWith_nil_right, hcount, Nat.zero_add,
    List.length_replicate]

/-- C13 (counterexample): one lipid type with `2^24 + 1 = 16777217` head atoms,
all recorded in the lower leaflet and all in the upper leaflet now.  Every atom
is scrambled, so `100 * scrambled / n = 100`, but the cast `(float) scrambled`
gives `16777216` and the value written is below 100. -/
theorem float_cast_loses_count :
    Rate.classify_lipids [List.replicate 16777217 1] [List.replicate 16777217 0] =
      [Rate.percentage 16777217 16777217] ∧
    roundToFloat 16777217 = 16777216 ∧
    Rate.percentage 16777217 16777217 < 100 ∧
    (100 * ((16777217 : Nat) : ℚ) / ((16777217 : Nat) : ℚ) = 100) := by
  refine ⟨classify_lipids_all_scrambled 16777217, roundToFloat_16777217, ?_, by norm_num⟩
  have h := percentage_16777217
  have h2 : (100 : ℚ) - 1 / 1048576 < 100 := by norm_num
  exact lt_of_le_of_lt h h2

/-- C13 (amended): for a frame after the reference frame, the value reported
for a lipid type is the value of `100.0 * (float) scrambled_i / n_i` computed
in double precision; for counts up to `2^24` (and fewer than `2^53` atoms) it
is the double nearest to `100 * scrambled_i / n_i`, and that number itself
when it is a natural number.  An aggregate value is reported iff there are at
least two lipid types, and it is the same expression of the sum of the
`scrambled_i` and the sum of the `n_i`.  These are the values the rate module
writes for every analyzed frame after the reference frame (`frame = k + 1`). -/
theorem rate_values (frame : List (List ℚ)) (reference : List (List Int))
    (hlen : reference.length = frame.length) :
    Rate.classify_lipids frame reference =
      List.zipWith (fun ds rs => Rate.percentage (Rate.countScrambled ds rs 0) ds.length)
          frame reference ++
        (if 2 ≤ frame.length then
          [Rate.percentage
            (List.zipWith (fun ds rs => Rate.countScrambled ds rs 0) frame reference).sum
            (frame.map List.length).sum]
        else []) ∧
    (∀ n s : Nat, Rate.percentage s n =
      roundToDouble (roundToDouble (100 * roundToFloat (s : ℚ)) / roundToDouble (n : ℚ))) ∧
    (∀ n s : Nat, s ≤ 16777216 → n < 2 ^ 53 →
      Rate.percentage s n = roundToDouble (100 * (s : ℚ) / (n : ℚ))) ∧
    (∀ n s q : Nat, s ≤ 16777216 → 0 < n → n < 2 ^ 53 → 100 * s = q * n →
      Rate.percentage s n = q) ∧
    (Rate.classify_lipids frame reference).length =
      frame.length + (if 2 ≤ frame.length then 1 else 0) ∧
    (∀ (dt t : ℚ) (fs : List TrajFrame) (k : Nat),
      roundf (dt * 1000) ≠ 0 →
      truncToInt t % roundf (dt * 1000) = 0 →
      Rate.rateLoop dt ({ time := t, dists := frame } :: fs) (k + 1) reference =
        (t / 1000, Rate.classify_lipids frame reference) ::
          Rate.rateLoop dt fs (k + 2) reference) := by
  have hc := classifyLoop_closed frame reference 0 0 hlen
  have hmain : Rate.classify_lipids frame reference =
      List.zipWith (fun ds rs => Rate.percentage (Rate.countScrambled ds rs 0) ds.length)
          frame reference ++
        (if 2 ≤ frame.length then
          [Rate.percentage
            (List.zipWith (fun ds rs => Rate.countScrambled ds rs 0) frame reference).sum
            (frame.map List.length).sum]
        else []) := by
    unfold Rate.classify_lipids
    simp only [hc.1, hc.2.1, hc.2.2, Nat.zero_add]
    by_cases h : 2 ≤ frame.length
    · have h2 : frame.length > 1 := h
      rw [if_pos h2, if_pos h]
    · have h2 : ¬ frame.length > 1 := h
      rw [if_neg h2, if_neg h, List.append_nil]
  refine ⟨hmain, fun n s => rfl, fun n s hs hn => percentage_small s n hs hn,
    fun n s q hs hn0 hn hq => percentage_exact s n q hs hn0 hn hq, ?_, ?_⟩
  · rw [hmain, List.length_append, List.length_zipWith, hlen, Nat.min_self]
    split_ifs <;> rfl
  · intro dt t fs k _ hsel
    have h : ¬ (truncToInt t % roundf (dt * 1000) ≠ 0) := not_not.mpr hsel
    have hk : ¬ (k + 1 = 0) := Nat.succ_ne_zero k
    simp only [Rate.rateLoop, h, hk, if_false]

/-- Instance of `rate_values`: two lipid types with one and three atoms; the
atom of the first type is scrambled, none of the second. -/
theorem rate_values_witness :
    Rate.classify_lipids [[1], [1, 1, 1]] [[0], [1, 1, 1]] =
      List.zipWith (fun ds rs => Rate.percentage (Rate.countScrambled ds rs 0) ds.length)
          [[1], [1, 1, 1]] [[0], [1, 1, 1]] ++
        (if 2 ≤ ([[1], [1, 1, 1]] : List (List ℚ)).length then
          [Rate.percentage
            (List.zipWith (fun ds rs => Rate.countScrambled ds rs 0)
              [[1], [1, 1, 1]] [[0], [1, 1, 1]]).sum
            (([[1], [1, 1, 1]] : List (List ℚ)).map List.length).sum]
        else []) :=
  (rate_values [[1], [1, 1, 1]] [[0], [1, 1, 1]] rfl).1

/-- The aggregate value is not the mean of the per-type values: one scrambled
atom out of one and none out of three give 100, 0 and the aggregate 25. -/
theorem rate_aggregate_example :
    Rate.classify_lipids [[1], [1, 1, 1]] [[0], [1, 1, 1]] = [100, 0, 25] := by
  have h1 : Rate.percentage 1 1 = 100 := by
    have := percentage_exact 1 1 100 (by decide) (by decide) (by norm_num) (by decide)
    exact_mod_cast this
  have h2 : Rate.percentage 1 4 = 25 := by
    have := percentage_exact 1 4 25 (by decide) (by decide) (by norm_num) (by decide)
    exact_mod_cast this
  have c1 : Rate.countScrambled [1] [0] 0 = 1 := by
    simp [Rate.countScrambled]
  have c2 : Rate.countScrambled [1, 1, 1] [1, 1, 1] 0 = 0 := by
    simp [Rate.countScrambled]
    norm_num
  simp [Rate.classify_lipids, Rate.classifyLoop, c1, c2, percentage_zero, h1, h2]

/-! ## The composition module -/

theorem countLeaflets_eq (ds : List ℚ) (upper lower : Nat) :
    Composition.countLeaflets ds upper lower =
      (upper + ds.countP (fun d => decide (0 < d)),
        lower + ds.countP (fun d => decide (d ≤ 0))) := by
  induction ds generalizing upper lower with
  | nil => rfl
  | cons d ds ih =>
    unfold Composition.countLeaflets
    by_cases hd : d > 0
    · have h1 : 0 < d := hd
      have h2 : ¬ d ≤ 0 := not_le.mpr hd
      rw [if_pos hd, ih, List.countP_cons, List.countP_cons]
      simp only [h1, h2, decide_True, decide_False, if_true, Bool.false_eq_true, if_false,
        Prod.mk.injEq]
      omega
    · have h1 : ¬ 0 < d := hd
      have h2 : d ≤ 0 := not_lt.mp hd
      rw [if_neg hd, ih, List.countP_cons, List.countP_cons]
      simp only [h1, h2, decide_True, decide_False, if_true, Bool.false_eq_true, if_false,
        Prod.mk.injEq]
      omega

theorem countP_pos_add_countP_nonpos (ds : List ℚ) :
    ds.countP (fun d => decide (0 < d)) + ds.countP (fun d => decide (d ≤ 0)) = ds.length := by
  induction ds with
  | nil => rfl
  | cons d ds ih =>
    rw [List.countP_cons, List.countP_cons, List.length_cons]
    by_cases hd : 0 < d
    · have h2 : ¬ d ≤ 0 := not_le.mpr hd
      simp only [hd, h2, decide_True, decide_False, if_true, Bool.false_eq_true, if_false]
      omega
    · have h2 : d ≤ 0 := not_lt.mp hd
      simp only [hd, h2, decide_True, decide_False, if_true, Bool.false_eq_true, if_false]
      omega

/-- Closed form of the outer loop of the composition `classify_lipids`. -/
theorem composition_classifyLoop_closed (frame : List (List ℚ)) (tu tl : Nat) :
    Composition.classifyLoop frame tu tl =
      (frame.map (fun ds => ds.countP (fun d => decide (0 < d))),
        frame.map (fun ds => ds.countP (fun d => decide (d ≤ 0))),
        tu + (frame.map (fun ds => ds.countP (fun d => decide (0 < d)))).sum,
        tl + (frame.map (fun ds => ds.countP (fun d => decide (d ≤ 0)))).sum) := by
  induction frame generalizing tu tl with
  | nil => simp [Composition.classifyLoop]
  | cons ds dss ih =>
    simp only [Composition.classifyLoop, ih, countLeaflets_eq, List.map_cons, List.sum_cons,
      Nat.zero_add, Prod.mk.injEq, true_and]
    constructor <;> omega

theorem zipWith_upper_lower (frame : List (List ℚ)) :
    List.zipWith (fun u l => u + l)
        (frame.map (fun ds => ds.countP (fun d => decide (0 < d))))
        (frame.map (fun ds => ds.countP (fun d => decide (d ≤ 0)))) =
      frame.map List.length := by
  induction frame with
  | nil => rfl
  | cons ds dss ih =>
    simp only [List.map_cons, List.zipWith_cons_cons, countP_pos_add_countP_nonpos, ih]

/-- C14: for every frame the composition `classify_lipids` stores for each
lipid type upper = number of head atoms with `d > 0` and lower = number of head
atoms with `d ≤ 0`, so upper + lower is the number of head atoms of the type,
and the aggregate entry holds the sums of the per-type upper and lower
counts. -/
theorem composition_counts (frame : List (List ℚ)) :
    (Composition.classify_lipids frame).upper =
        frame.map (fun ds => ds.countP (fun d => decide (0 < d))) ∧
    (Composition.classify_lipids frame).lower =
        frame.map (fun ds => ds.countP (fun d => decide (d ≤ 0))) ∧
    List.zipWith (fun u l => u + l) (Composition.classify_lipids frame).upper
        (Composition.classify_lipids frame).lower = frame.map List.length ∧
    (Composition.classify_lipids frame).total_upper =
        (Composition.classify_lipids frame).upper.sum ∧
    (Composition.classify_lipids frame).total_lower =
        (Composition.classify_lipids frame).lower.sum := by
  unfold Composition.classify_lipids
  simp only [composition_classifyLoop_closed, Nat.zero_add, zipWith_upper_lower, and_self]

/-! ## The frame loop of the flipflops module -/

/-- Skipped frames do not influence the loop. -/
theorem flipflopsLoop_analyzedFrames (S : ℚ) (T : Int) (frames : List TrajFrame)
    (prev : ℚ) (st : FlipflopState) :
    flipflopsLoop S T frames prev st = flipflopsLoop S T (analyzedFrames frames) prev st := by
  induction frames generalizing prev st with
  | nil => rfl
  | cons f fs ih =>
    unfold analyzedFrames
    by_cases h : truncToInt f.time % 1000 = 0
    · have h2 : ¬ (truncToInt f.time % 1000 ≠ 0) := not_not.mpr h
      rw [List.filter_cons_of_pos (by simpa using h)]
      unfold flipflopsLoop
      rw [if_neg h2, if_neg h2]
      by_cases hg : prev ≥ 0 ∧ roundToFloat (f.time - prev) > 1000
      · rw [if_pos hg, if_pos hg]
      · rw [if_neg hg, if_neg hg]
        have := ih f.time (find_flipflops S T f.dists st)
        unfold analyzedFrames at this
        simp only [this]
    · have h2 : truncToInt f.time % 1000 ≠ 0 := h
      rw [List.filter_cons_of_neg (by simpa using h)]
      rw [flipflopsLoop, if_pos h2]
      have := ih prev st
      unfold analyzedFrames at this
      exact this

/-- Without a gap of more than `1000 + 2^-15` ps the loop runs to the end. -/
theorem flipflopsLoop_no_gap (S : ℚ) (T : Int) (an : List TrajFrame)
    (han : ∀ f ∈ an, truncToInt f.time % 1000 = 0) (prev : ℚ) (st : FlipflopState)
    (hprev : ∀ f, an.head? = some f → ¬ (prev ≥ 0 ∧ roundToFloat (f.time - prev) > 1000))
    (hchain : List.Chain' (fun a b : TrajFrame => b.time - a.time ≤ 1000 + 1 / 32768) an) :
    flipflopsLoop S T an prev st = (0, flipflopTrace S T (an.map TrajFrame.dists) st) := by
  induction an generalizing prev st with
  | nil => rfl
  | cons f fs ih =>
    have h2 : ¬ (truncToInt f.time % 1000 ≠ 0) :=
      not_not.mpr (han f (List.mem_cons_self _ _))
    have hg := hprev f rfl
    have hrec := ih (fun x hx => han x (List.mem_cons_of_mem _ hx)) f.time
      (find_flipflops S T f.dists st)
      (by
        intro x hx
        have hrel : x.time - f.time ≤ 1000 + 1 / 32768 := by
          cases fs with
          | nil => simp at hx
          | cons y ys =>
            simp only [List.head?_cons, Option.some.injEq] at hx
            subst hx
            exact (List.chain'_cons.mp hchain).1
        rintro ⟨-, h⟩
        rw [roundToFloat_gt_1000_iff] at h
        linarith)
      (List.Chain'.tail hchain)
    unfold flipflopsLoop
    rw [if_neg h2, if_neg hg]
    simp only [hrec, List.map_cons, flipflopTrace]

/-- At the first gap of more than `1000 + 2^-15` ps the loop returns 1, with
the states of the frames before the gap. -/
theorem flipflopsLoop_gap (S : ℚ) (T : Int) (pre : List TrajFrame) (p q : TrajFrame)
    (rest : List TrajFrame)
    (han : ∀ f ∈ pre ++ p :: q :: rest, truncToInt f.time % 1000 = 0)
    (prev : ℚ) (st : FlipflopState)
    (hprev : ∀ f, (pre ++ [p]).head? = some f →
      ¬ (prev ≥ 0 ∧ roundToFloat (f.time - prev) > 1000))
    (hchain : List.Chain' (fun a b : TrajFrame => b.time - a.time ≤ 1000 + 1 / 32768)
      (pre ++ [p]))
    (hp : 0 ≤ p.time) (hgap : q.time - p.time > 1000 + 1 / 32768) :
    flipflopsLoop S T (pre ++ p :: q :: rest) prev st =
      (1, flipflopTrace S T ((pre ++ [p]).map TrajFrame.dists) st) := by
  induction pre generalizing prev st with
  | nil =>
    have hp2 : ¬ (truncToInt p.time % 1000 ≠ 0) := not_not.mpr (han p (by simp))
    have hq2 : ¬ (truncToInt q.time % 1000 ≠ 0) := not_not.mpr (han q (by simp))
    have hg := hprev p rfl
    have hg2 : p.time ≥ 0 ∧ roundToFloat (q.time - p.time) > 1000 :=
      ⟨hp, (roundToFloat_gt_1000_iff _).mpr hgap⟩
    simp only [List.nil_append, flipflopsLoop, if_neg hp2, if_neg hq2, if_neg hg, if_pos hg2,
      List.map_cons, List.map_nil, flipflopTrace]
  | cons f fs ih =>
    have h2 : ¬ (truncToInt f.time % 1000 ≠ 0) := not_not.mpr (han f (by simp))
    have hg := hprev f rfl
    have hrec := ih (fun x hx => han x (List.mem_cons_of_mem _ hx)) f.time
      (find_flipflops S T f.dists st)
      (by
        intro x hx
        have hrel : x.time - f.time ≤ 1000 + 1 / 32768 := by
          cases fs with
          | nil =>
            simp only [List.nil_append, List.head?_cons, Option.some.injEq] at hx
            subst hx
            exact (List.chain'_cons.mp hchain).1
          | cons y ys =>
            simp only [List.cons_append, List.head?_cons, Option.some.injEq] at hx
            subst hx
            exact (List.chain'_cons.mp hchain).1
        rintro ⟨-, h⟩
        rw [roundToFloat_gt_1000_iff] at h
        linarith)
      (List.Chain'.tail hchain)
    rw [List.cons_append, flipflopsLoop, if_neg h2, if_neg hg]
    simp only [hrec, List.cons_append, List.map_cons, flipflopTrace]
    rfl

/-- The floor of a rational between an integer and its successor. -/
theorem rat_floor_eq (x : ℚ) (z : Int) (h1 : (z : ℚ) ≤ x) (h2 : x < (z : ℚ) + 1) :
    Rat.floor x = z := by
  have h : ⌊x⌋ = z := Int.floor_eq_iff.mpr ⟨h1, h2⟩
  exact h

/-- C15 (counterexample): two frames at 2^-15 ps and 1000 + 2^-14 ps (both
times are floats, both frames are analyzed, both times are non-negative).  The
second time exceeds the first by `1000 + 2^-15 > 1000` ps, but the float
difference is `1000`, so `calc_lipid_flipflops` does not abort: it returns 0
after applying `find_flipflops` to both frames. -/
theorem rounded_gap_not_detected :
    analyzedFrames [⟨1 / 32768, [[2]]⟩, ⟨1000 + 1 / 16384, [[2]]⟩] =
      [⟨1 / 32768, [[2]]⟩, ⟨1000 + 1 / 16384, [[2]]⟩] ∧
    (0 : ℚ) ≤ 1 / 32768 ∧ (0 : ℚ) ≤ 1000 + 1 / 16384 ∧
    (1000 + 1 / 16384 : ℚ) - 1 / 32768 > 1000 ∧
    roundToFloat ((1000 + 1 / 16384 : ℚ) - 1 / 32768) = 1000 ∧
    calc_lipid_flipflops (3 / 2) 3
        { all_lipid_atoms := [], lipids_dictionary := [("POPC", [⟨"POPC", true⟩])] }
        [⟨1 / 32768, [[2]]⟩, ⟨1000 + 1 / 16384, [[2]]⟩] =
      (0, flipflopTrace (3 / 2) 3 [[[2]], [[2]]]
        (initialFlipflopState
          { all_lipid_atoms := [], lipids_dictionary := [("POPC", [⟨"POPC", true⟩])] })) := by
  have ht1 : truncToInt (1 / 32768) = 0 := by
    unfold truncToInt
    rw [if_pos (by norm_num), rat_floor_eq (1 / 32768) 0 (by norm_num) (by norm_num)]
    rfl
  have ht2 : truncToInt (1000 + 1 / 16384) = 1000 := by
    unfold truncToInt
    rw [if_pos (by norm_num), rat_floor_eq (1000 + 1 / 16384) 1000 (by norm_num) (by norm_num)]
    rfl
  have hr : roundToFloat ((1000 + 1 / 16384 : ℚ) - 1 / 32768) = 1000 := by
    have h1 : ¬ (roundToFloat ((1000 + 1 / 16384 : ℚ) - 1 / 32768) > 1000) := by
      rw [roundToFloat_gt_1000_iff]
      norm_num
    have h2 : (1000 : ℚ) ≤ roundToFloat ((1000 + 1 / 16384 : ℚ) - 1 / 32768) :=
      le_roundToPrecision 24 (-149) _ 1000 16384000 (by decide) (by norm_num)
        (by rw [ulp_float_1000 1000 (by norm_num) (by norm_num)]; norm_num) (by norm_num)
    exact le_antisymm (not_lt.mp h1) h2
  have han : analyzedFrames [⟨1 / 32768, [[2]]⟩, ⟨1000 + 1 / 16384, [[2]]⟩] =
      [⟨1 / 32768, [[2]]⟩, ⟨1000 + 1 / 16384, [[2]]⟩] := by
    unfold analyzedFrames
    rw [List.filter_cons_of_pos
        (by show decide (truncToInt (1 / 32768) % 1000 = 0) = true; rw [ht1]; rfl),
      List.filter_cons_of_pos
        (by show decide (truncToInt (1000 + 1 / 16384) % 1000 = 0) = true; rw [ht2]; rfl)]
    rfl
  refine ⟨han, by norm_num, by norm_num, by norm_num, hr, ?_⟩
  have hne : ¬ ((1 : Nat) < 1) := by decide
  have hg1 : ¬ ((-1 : ℚ) ≥ 0 ∧ roundToFloat (1 / 32768 - (-1)) > 1000) := by
    rintro ⟨h, -⟩
    norm_num at h
  have hg2 : ¬ ((1 / 32768 : ℚ) ≥ 0 ∧
      roundToFloat ((1000 + 1 / 16384 : ℚ) - 1 / 32768) > 1000) := by
    rintro ⟨-, h⟩
    rw [hr] at h
    exact absurd h (lt_irrefl _)
  have e1 : ¬ (truncToInt (1 / 32768) % 1000 ≠ 0) := by
    rw [ht1]
    decide
  have e2 : ¬ (truncToInt (1000 + 1 / 16384) % 1000 ≠ 0) := by
    rw [ht2]
    decide
  simp only [calc_lipid_flipflops, LipidComposition.n_lipid_types, List.length_singleton,
    if_neg hne, flipflopsLoop, if_neg e1, if_neg e2, if_neg hg1, if_neg hg2, flipflopTrace]

/-- C15 (amended): for analyzed frames with non-negative times (and a non-empty
composition), `calc_lipid_flipflops` returns 0 after applying `find_flipflops`
to every analyzed frame when every gap between consecutive analyzed frames is
at most `1000 + 2^-15` ps (in particular when every gap is at most 1000 ps),
and it returns 1 at the first analyzed frame `q` whose time exceeds that of
the previous analyzed frame `p` by more than `1000 + 2^-15` ps, having applied
`find_flipflops` only to the analyzed frames before `q`.  The bound
`1000 + 2^-15` is where the float difference tested by the code starts to
exceed 1000. -/
theorem frame_gap_abort (S : ℚ) (T : Int) (composition : LipidComposition)
    (frames : List TrajFrame) (hn : 1 ≤ composition.n_lipid_types)
    (htimes : ∀ f ∈ analyzedFrames frames, 0 ≤ f.time) :
    (List.Chain' (fun a b : TrajFrame => b.time - a.time ≤ 1000 + 1 / 32768)
        (analyzedFrames frames) →
      calc_lipid_flipflops S T composition frames =
        (0, flipflopTrace S T ((analyzedFrames frames).map TrajFrame.dists)
          (initialFlipflopState composition))) ∧
    (List.Chain' (fun a b : TrajFrame => b.time - a.time ≤ 1000) (analyzedFrames frames) →
      calc_lipid_flipflops S T composition frames =
        (0, flipflopTrace S T ((analyzedFrames frames).map TrajFrame.dists)
          (initialFlipflopState composition))) ∧
    (∀ (pre : List TrajFrame) (p q : TrajFrame) (rest : List TrajFrame),
      analyzedFrames frames = pre ++ p :: q :: rest →
      List.Chain' (fun a b : TrajFrame => b.time - a.time ≤ 1000 + 1 / 32768) (pre ++ [p]) →
      q.time - p.time > 1000 + 1 / 32768 →
      calc_lipid_flipflops S T composition frames =
        (1, flipflopTrace S T ((pre ++ [p]).map TrajFrame.dists)
          (initialFlipflopState composition))) ∧
    (∀ g : ℚ, roundToFloat g > 1000 ↔ g > 1000 + 1 / 32768) := by
  have hne : ¬ (composition.n_lipid_types < 1) := by omega
  have han : ∀ f ∈ analyzedFrames frames, truncToInt f.time % 1000 = 0 := by
    intro f hf
    have := (List.mem_filter.mp hf).2
    simpa using this
  have hsub : ∀ f ∈ analyzedFrames frames, 0 ≤ f.time := htimes
  have hinit : ∀ l : List TrajFrame, ∀ f, l.head? = some f →
      ¬ ((-1 : ℚ) ≥ 0 ∧ roundToFloat (f.time - (-1)) > 1000) := by
    intro l f _
    rintro ⟨h, -⟩
    linarith
  have hfirst : List.Chain' (fun a b : TrajFrame => b.time - a.time ≤ 1000 + 1 / 32768)
        (analyzedFrames frames) →
      calc_lipid_flipflops S T composition frames =
        (0, flipflopTrace S T ((analyzedFrames frames).map TrajFrame.dists)
          (initialFlipflopState composition)) := by
    intro hchain
    unfold calc_lipid_flipflops
    rw [if_neg hne, flipflopsLoop_analyzedFrames]
    exact flipflopsLoop_no_gap S T _ han _ _ (hinit _) hchain
  refine ⟨hfirst, ?_, ?_, roundToFloat_gt_1000_iff⟩
  · intro hchain
    apply hfirst
    refine List.Chain'.imp ?_ hchain
    intro a b hab
    linarith
  · intro pre p q rest hdec hchain hgap
    unfold calc_lipid_flipflops
    rw [if_neg hne, flipflopsLoop_analyzedFrames, hdec]
    have hp : 0 ≤ p.time := hsub p (by rw [hdec]; simp)
    exact flipflopsLoop_gap S T pre p q rest (by rw [← hdec]; exact han) _ _ (hinit _)
      hchain hp hgap

/-- The cast `(int) x` of a natural number below `2^31`. -/
theorem truncToInt_natCast (n : Nat) (hn : n < 2147483648) : truncToInt (n : ℚ) = n := by
  unfold truncToInt castInt32
  rw [if_pos (Nat.cast_nonneg n)]
  have h : Rat.floor (n : ℚ) = (n : Int) := by
    have := rat_floor_intCast (n : Int)
    exact_mod_cast this
  rw [h, if_pos (by omega)]

/-- The divisor `(int) roundf(x)` for a natural number `x` below `2^24`. -/
theorem roundf_natCast (n : Nat) (hn : n < 16777216) : roundf (n : ℚ) = n := by
  have hy : roundToFloat (n : ℚ) = n := roundToFloat_count n (by omega)
  unfold roundf
  simp only
  rw [hy, if_pos (Nat.cast_nonneg n),
    rat_floor_eq _ (n : Int) (by push_cast; linarith) (by push_cast; linarith)]
  unfold castInt32
  rw [if_pos (by omega)]

/-- A composition with one lipid type of one head atom. -/
theorem frame_gap_abort_witness :
    calc_lipid_flipflops (3 / 2) 3
        { all_lipid_atoms := [], lipids_dictionary := [("POPC", [⟨"POPC", true⟩])] }
        [⟨0, [[2]]⟩, ⟨500, [[2]]⟩, ⟨1000, [[2]]⟩, ⟨3000, [[-2]]⟩, ⟨4000, [[-2]]⟩] =
      (1, flipflopTrace (3 / 2) 3
        ((([⟨0, [[2]]⟩] : List TrajFrame) ++ ([⟨1000, [[2]]⟩] : List TrajFrame)).map
          TrajFrame.dists)
        (initialFlipflopState
          { all_lipid_atoms := [], lipids_dictionary := [("POPC", [⟨"POPC", true⟩])] })) :=
  (frame_gap_abort (3 / 2) 3
    { all_lipid_atoms := [], lipids_dictionary := [("POPC", [⟨"POPC", true⟩])] }
    [⟨0, [[2]]⟩, ⟨500, [[2]]⟩, ⟨1000, [[2]]⟩, ⟨3000, [[-2]]⟩, ⟨4000, [[-2]]⟩]
    (by decide)
    (fun f hf => by
      have h := (List.mem_filter.mp hf).1
      simp only [List.mem_cons, List.mem_singleton, List.not_mem_nil, or_false] at h
      rcases h with h | h | h | h | h <;> subst h <;> norm_num)).2.2.1 [⟨0, [[2]]⟩] ⟨1000, [[2]]⟩ ⟨3000, [[-2]]⟩ [⟨4000, [[-2]]⟩]
    (by
      have h0 : truncToInt 0 = 0 := by
        have := truncToInt_natCast 0 (by decide)
        simpa using this
      have h500 : truncToInt 500 = 500 := by
        have := truncToInt_natCast 500 (by decide)
        simpa using this
      have h1000 : truncToInt 1000 = 1000 := by
        have := truncToInt_natCast 1000 (by decide)
        simpa using this
      have h3000 : truncToInt 3000 = 3000 := by
        have := truncToInt_natCast 3000 (by decide)
        simpa using this
      have h4000 : truncToInt 4000 = 4000 := by
        have := truncToInt_natCast 4000 (by decide)
        simpa using this
      unfold analyzedFrames
      rw [List.filter_cons_of_pos
          (by show decide (truncToInt 0 % 1000 = 0) = true; rw [h0]; rfl),
        List.filter_cons_of_neg
          (by show ¬ (decide (truncToInt 500 % 1000 = 0) = true); rw [h500]; decide),
        List.filter_cons_of_pos
          (by show decide (truncToInt 1000 % 1000 = 0) = true; rw [h1000]; rfl),
        List.filter_cons_of_pos
          (by show decide (truncToInt 3000 % 1000 = 0) = true; rw [h3000]; rfl),
        List.filter_cons_of_pos
          (by show decide (truncToInt 4000 % 1000 = 0) = true; rw [h4000]; rfl)]
      rfl)
    (by simp)
    (by norm_num)

/-! ## Argument validation -/

/-- The return value of `get_arguments_flipflops` is 0 or 1. -/
theorem getArgumentsLoop_ret (os : List FlipflopsOption) (a : FlipflopsArgs) (g x : Bool) :
    (getArgumentsLoop os a g x).1 = 0 ∨ (getArgumentsLoop os a g x).1 = 1 := by
  induction os generalizing a g x with
  | nil =>
    unfold getArgumentsLoop
    split_ifs
    · exact Or.inr rfl
    · exact Or.inl rfl
  | cons o os ih =>
    cases o with
    | help => exact Or.inr rfl
    | gro arg => exact ih _ _ _
    | xtc arg => exact ih _ _ _
    | ndx arg => exact ih _ _ _
    | phosphates arg => exact ih _ _ _
    | spatial sc =>
      cases sc with
      | none => exact Or.inr rfl
      | some v =>
        unfold getArgumentsLoop
        split_ifs
        · exact Or.inr rfl
        · exact ih _ _ _
    | temporal sc =>
      cases sc with
      | none => exact Or.inr rfl
      | some t =>
        unfold getArgumentsLoop
        split_ifs
        · exact Or.inr rfl
        · exact ih _ _ _
    | unknown => exact Or.inr rfl

/-- A negative spatial limit anywhere on the command line makes the function
return 1. -/
theorem getArgumentsLoop_spatial_neg (os : List FlipflopsOption) (s : ℚ) (hs : s < 0)
    (hmem : FlipflopsOption.spatial (some s) ∈ os) (a : FlipflopsArgs) (g x : Bool) :
    (getArgumentsLoop os a g x).1 = 1 := by
  induction os generalizing a g x with
  | nil => simp at hmem
  | cons o os ih =>
    rcases List.mem_cons.mp hmem with h | h
    · subst h
      unfold getArgumentsLoop
      rw [if_pos hs]
    · cases o with
      | help => rfl
      | gro arg => exact ih h _ _ _
      | xtc arg => exact ih h _ _ _
      | ndx arg => exact ih h _ _ _
      | phosphates arg => exact ih h _ _ _
      | spatial sc =>
        cases sc with
        | none => rfl
        | some v =>
          unfold getArgumentsLoop
          split_ifs
          · rfl
          · exact ih h _ _ _
      | temporal sc =>
        cases sc with
        | none => rfl
        | some t =>
          unfold getArgumentsLoop
          split_ifs
          · rfl
          · exact ih h _ _ _
      | unknown => rfl

/-- A temporal limit below 1 anywhere on the command line makes the function
return 1. -/
theorem getArgumentsLoop_temporal_low (os : List FlipflopsOption) (t : Int) (ht : t < 1)
    (hmem : FlipflopsOption.temporal (some t) ∈ os) (a : FlipflopsArgs) (g x : Bool) :
    (getArgumentsLoop os a g x).1 = 1 := by
  induction os generalizing a g x with
  | nil => simp at hmem
  | cons o os ih =>
    rcases List.mem_cons.mp hmem with h | h
    · subst h
      unfold getArgumentsLoop
      rw [if_pos ht]
    · cases o with
      | help => rfl
      | gro arg => exact ih h _ _ _
      | xtc arg => exact ih h _ _ _
      | ndx arg => exact ih h _ _ _
      | phosphates arg => exact ih h _ _ _
      | spatial sc =>
        cases sc with
        | none => rfl
        | some v =>
          unfold getArgumentsLoop
          split_ifs
          · rfl
          · exact ih h _ _ _
      | temporal sc =>
        cases sc with
        | none => rfl
        | some t2 =>
          unfold getArgumentsLoop
          split_ifs
          · rfl
          · exact ih h _ _ _
      | unknown => rfl

/-- C16 (amended): every spatial limit `s < 0` supplied with `-s` makes
`get_arguments_flipflops` return non-zero, whatever else is on the command
line; a spatial limit `s ≥ 0` (in particular `s = 0`) passes the check of the
spatial limit and is stored. -/
theorem spatial_limit_validation (s : ℚ) :
    (s < 0 → ∀ (options : List FlipflopsOption) (args : FlipflopsArgs),
      FlipflopsOption.spatial (some s) ∈ options →
      (get_arguments_flipflops options args).1 ≠ 0) ∧
    (0 ≤ s → ∀ (os : List FlipflopsOption) (a : FlipflopsArgs) (g x : Bool),
      getArgumentsLoop (FlipflopsOption.spatial (some s) :: os) a g x =
        getArgumentsLoop os { a with spatial_limit := s } g x) := by
  constructor
  · intro hs options args hmem
    unfold get_arguments_flipflops
    rw [getArgumentsLoop_spatial_neg options s hs hmem]
    decide
  · intro hs os a g x
    have h : ¬ s < 0 := not_lt.mpr hs
    rw [getArgumentsLoop, if_neg h]

/-- The spatial limit `0` with both files given: `get_arguments_flipflops`
returns 0 and stores the limit. -/
theorem spatial_limit_zero_accepted :
    get_arguments_flipflops
        [FlipflopsOption.gro "a.gro", FlipflopsOption.xtc "a.xtc",
          FlipflopsOption.spatial (some 0)] defaultFlipflopsArgs =
      (0, { defaultFlipflopsArgs with
              gro_file := some "a.gro", xtc_file := some "a.xtc", spatial_limit := 0 }) ∧
    (0 : ℚ) ≤ 0 := by
  constructor
  · simp [get_arguments_flipflops, getArgumentsLoop]
  · exact le_refl 0

/-- Instance of `spatial_limit_validation`: `-s -1` after both files. -/
theorem spatial_limit_validation_witness :
    (get_arguments_flipflops
        [FlipflopsOption.gro "a.gro", FlipflopsOption.xtc "a.xtc",
          FlipflopsOption.spatial (some (-1))] defaultFlipflopsArgs).1 ≠ 0 :=
  (spatial_limit_validation (-1)).1 (by norm_num) _ _ (by simp)

/-- C17: every temporal limit `t < 1` supplied with `-t` makes
`get_arguments_flipflops` return non-zero, whatever else is on the command
line; for `t ≥ 1` the check of the temporal limit does not reject: the limit
is stored and parsing goes on with the next option. -/
theorem temporal_limit_validation (t : Int) :
    (t < 1 → ∀ (options : List FlipflopsOption) (args : FlipflopsArgs),
      FlipflopsOption.temporal (some t) ∈ options →
      (get_arguments_flipflops options args).1 ≠ 0) ∧
    (1 ≤ t → ∀ (os : List FlipflopsOption) (a : FlipflopsArgs) (g x : Bool),
      getArgumentsLoop (FlipflopsOption.temporal (some t) :: os) a g x =
        getArgumentsLoop os { a with temporal_limit := t } g x) := by
  constructor
  · intro ht options args hmem
    unfold get_arguments_flipflops
    rw [getArgumentsLoop_temporal_low options t ht hmem]
    decide
  · intro ht os a g x
    have h : ¬ t < 1 := not_lt.mpr ht
    rw [getArgumentsLoop, if_neg h]

/-- Instance of `temporal_limit_validation`: `-t 0` after both files. -/
theorem temporal_limit_validation_witness :
    (get_arguments_flipflops
        [FlipflopsOption.gro "a.gro", FlipflopsOption.xtc "a.xtc",
          FlipflopsOption.temporal (some 0)] defaultFlipflopsArgs).1 ≠ 0 :=
  (temporal_limit_validation 0).1 (by decide) _ _ (by simp)

/-! ## Lipid composition -/

/-- Entries of a dictionary after `dict_set`: old entries or the new one. -/
theorem mem_dict_set (d : List (String × List Atom)) (key : String) (value : List Atom)
    (p : String × List Atom) (hp : p ∈ dict_set d key value) :
    p ∈ d ∨ p = (key, value) := by
  unfold dict_set at hp
  split_ifs at hp
  · rcases List.mem_map.mp hp with ⟨q, hq, rfl⟩
    split_ifs
    · exact Or.inr rfl
    · exact Or.inl hq
  · rcases List.mem_append.mp hp with h | h
    · exact Or.inl h
    · exact Or.inr (by simpa using h)

/-- Invariant of the loop of `get_lipid_composition`: every selection in the
dictionary is non-empty and consists of head atoms of the residue of its key. -/
theorem compositionLoop_invariant (all : List Atom) (names : List String)
    (c : LipidComposition)
    (hc : ∀ p ∈ c.lipids_dictionary, 1 ≤ p.2.length ∧
      ∀ a ∈ p.2, a ∈ all ∧ a.residue_name = p.1 ∧ a.is_head = true) :
    ∀ p ∈ (compositionLoop all names c).lipids_dictionary, 1 ≤ p.2.length ∧
      ∀ a ∈ p.2, a ∈ all ∧ a.residue_name = p.1 ∧ a.is_head = true := by
  induction names generalizing c with
  | nil => exact hc
  | cons name names ih =>
    unfold compositionLoop
    simp only []
    split_ifs with h1 h2
    · exact ih c hc
    · exact ih _ hc
    · apply ih
      intro p hp
      rcases mem_dict_set _ _ _ _ hp with h | h
      · exact hc p h
      · subst h
        refine ⟨Nat.one_le_iff_ne_zero.mpr h2, ?_⟩
        intro a ha
        have ha1 := List.mem_filter.mp ha
        have ha2 := List.mem_filter.mp ha1.1
        exact ⟨ha2.1, by simpa using ha2.2, ha1.2⟩

/-- C18: in the composition returned by `get_lipid_composition` every lipid
type of the dictionary has at least one head-group atom, a lipid name without
a head-identifier atom among its residues is not in the dictionary, and with
an empty composition each of the three analysis entry points returns 1 without
processing a frame (no state, no output row). -/
theorem degenerate_input (all : List Atom) (lipid_names : List String) :
    (∀ p ∈ (get_lipid_composition all lipid_names).lipids_dictionary, 1 ≤ p.2.length) ∧
    (∀ name : String, (∀ a ∈ all, a.residue_name = name → a.is_head = false) →
      ∀ p ∈ (get_lipid_composition all lipid_names).lipids_dictionary, p.1 ≠ name) ∧
    (∀ composition : LipidComposition, composition.n_lipid_types = 0 →
      (∀ (S : ℚ) (T : Int) (frames : List TrajFrame),
        calc_lipid_flipflops S T composition frames = (1, [])) ∧
      (∀ (dt : ℚ) (frames : List TrajFrame),
        Rate.calc_scrambling_rate dt composition frames = (1, [])) ∧
      (∀ (dt : ℚ) (gro_dists : List (List ℚ)) (xtc : Option (List TrajFrame)),
        Composition.calc_lipid_composition dt composition gro_dists xtc = (1, []))) := by
  have hinv := compositionLoop_invariant all lipid_names
    { all_lipid_atoms := [], lipids_dictionary := [] } (by simp)
  refine ⟨fun p hp => (hinv p hp).1, ?_, ?_⟩
  · intro name hname p hp hpn
    obtain ⟨h1, h2⟩ := hinv p hp
    obtain ⟨a, ha⟩ := List.exists_mem_of_length_pos (Nat.lt_of_lt_of_le Nat.zero_lt_one h1)
    obtain ⟨ha1, ha2, ha3⟩ := h2 a ha
    have := hname a ha1 (ha2.trans hpn)
    rw [ha3] at this
    exact absurd this (by decide)
  · intro composition h0
    have hlt : composition.n_lipid_types < 1 := by omega
    refine ⟨?_, ?_, ?_⟩
    · intro S T frames
      unfold calc_lipid_flipflops
      rw [if_pos hlt]
    · intro dt frames
      unfold Rate.calc_scrambling_rate
      rw [if_pos hlt]
    · intro dt gro_dists xtc
      unfold Composition.calc_lipid_composition
      rw [if_pos hlt]

/-- A system with POPC lipids that have a head atom and CHOL residues without
one: only POPC is in the dictionary, and the run goes on (one lipid type). -/
theorem composition_example :
    get_lipid_composition
        [⟨"POPC", true⟩, ⟨"POPC", false⟩, ⟨"CHOL", false⟩] ["POPC", "CHOL", "DOPC"] =
      { all_lipid_atoms := [⟨"POPC", true⟩, ⟨"POPC", false⟩, ⟨"CHOL", false⟩],
        lipids_dictionary := [("POPC", [⟨"POPC", true⟩])] } := by
  decide

/-! ## Zones -/

/-- The counter update is the body of the branch that the distance selects. -/
theorem updateAssignment_eq_branchBody (S : ℚ) (T : Int) (d : ℚ) (c : Int) :
    updateAssignment S T d c =
      match branchTaken S d with
      | some z => branchBody T c z
      | none => c := by
  unfold updateAssignment branchTaken
  by_cases h1 : d > S
  · simp only [h1, if_true, branchBody]
  · by_cases h2 : d > 0
    · simp only [h1, h2, if_true, if_false, branchBody]
    · by_cases h3 : d < -S
      · simp only [h1, h2, h3, if_true, if_false, branchBody]
      · by_cases h4 : d < 0
        · simp only [h1, h2, h3, h4, if_true, if_false, branchBody]
        · simp only [h1, h2, h3, h4, if_false]

/-- C19: for `S > 0` and `d ≠ 0` exactly one of the four zone conditions holds,
the branch of the `if`/`else if` chain of `find_flipflops` that is taken is the
one of that zone, and the counter is updated by the body of that branch. -/
theorem zone_partition (S : ℚ) (d : ℚ) (hS : 0 < S) (hd : d ≠ 0) :
    ((d > S ∧ ¬ (0 < d ∧ d ≤ S) ∧ ¬ d < -S ∧ ¬ (-S ≤ d ∧ d < 0) ∧
        branchTaken S d = some Zone.upperCore) ∨
      (¬ d > S ∧ (0 < d ∧ d ≤ S) ∧ ¬ d < -S ∧ ¬ (-S ≤ d ∧ d < 0) ∧
        branchTaken S d = some Zone.upperIntermediate) ∨
      (¬ d > S ∧ ¬ (0 < d ∧ d ≤ S) ∧ d < -S ∧ ¬ (-S ≤ d ∧ d < 0) ∧
        branchTaken S d = some Zone.lowerCore) ∨
      (¬ d > S ∧ ¬ (0 < d ∧ d ≤ S) ∧ ¬ d < -S ∧ (-S ≤ d ∧ d < 0) ∧
        branchTaken S d = some Zone.lowerIntermediate)) ∧
    ∃ z, branchTaken S d = some z ∧
      ∀ (T c : Int), updateAssignment S T d c = branchBody T c z := by
  have hbody : ∀ z, branchTaken S d = some z →
      ∀ (T c : Int), updateAssignment S T d c = branchBody T c z := by
    intro z hz T c
    rw [updateAssignment_eq_branchBody, hz]
  rcases lt_or_gt_of_ne hd with hneg | hpos
  · by_cases h : d < -S
    · have hb : branchTaken S d = some Zone.lowerCore := by
        unfold branchTaken
        rw [if_neg (by linarith), if_neg (by linarith), if_pos h]
      refine ⟨Or.inr (Or.inr (Or.inl ⟨by linarith, ?_, h, ?_, hb⟩)), _, hb, hbody _ hb⟩
      · rintro ⟨h1, -⟩
        linarith
      · rintro ⟨h1, -⟩
        linarith
    · have hb : branchTaken S d = some Zone.lowerIntermediate := by
        unfold branchTaken
        rw [if_neg (by linarith), if_neg (by linarith), if_neg h, if_pos hneg]
      refine ⟨Or.inr (Or.inr (Or.inr ⟨by linarith, ?_, h, ⟨not_lt.mp h, hneg⟩, hb⟩)), _, hb,
        hbody _ hb⟩
      rintro ⟨h1, -⟩
      linarith
  · by_cases h : d > S
    · have hb : branchTaken S d = some Zone.upperCore := by
        unfold branchTaken
        rw [if_pos h]
      refine ⟨Or.inl ⟨h, ?_, by linarith, ?_, hb⟩, _, hb, hbody _ hb⟩
      · rintro ⟨-, h1⟩
        linarith
      · rintro ⟨-, h1⟩
        linarith
    · have hb : branchTaken S d = some Zone.upperIntermediate := by
        unfold branchTaken
        rw [if_neg h, if_pos hpos]
      refine ⟨Or.inr (Or.inl ⟨h, ⟨hpos, not_lt.mp h⟩, by linarith, ?_, hb⟩), _, hb,
        hbody _ hb⟩
      rintro ⟨-, h1⟩
      linarith

/-- Instance of `zone_partition`: `S = 3/2`, `d = 1` lies in the upper
intermediate zone. -/
theorem zone_partition_witness :
    ∃ z, branchTaken (3 / 2) 1 = some z ∧
      ∀ (T c : Int), updateAssignment (3 / 2) T 1 c = branchBody T c z :=
  (zone_partition (3 / 2) 1 (by norm_num) (by norm_num)).2

/-! ## Event counts of a frame -/

/-- No atom emits events in both directions in one frame. -/
theorem not_emits_both (S : ℚ) (T : Int) (d : ℚ) (c : Int) :
    ¬ (emitsLowerUpper S T d c = true ∧ emitsUpperLower S T d c = true) := by
  rintro ⟨h1, h2⟩
  have a := ((emitsLowerUpper_iff S T d c).mp h1).2
  have b := ((emitsUpperLower_iff S T d c).mp h2).2
  linarith

/-- The events of one lipid type in one frame are at most as many as its atoms. -/
theorem countP_emits_le (S : ℚ) (T : Int) (l : List (ℚ × Int)) :
    l.countP (fun p => emitsUpperLower S T p.1 p.2) +
      l.countP (fun p => emitsLowerUpper S T p.1 p.2) ≤ l.length := by
  induction l with
  | nil => simp
  | cons p l ih =>
    rw [List.countP_cons, List.countP_cons, List.length_cons]
    have h := not_emits_both S T p.1 p.2
    by_cases h1 : emitsLowerUpper S T p.1 p.2 = true
    · have h2 : ¬ (emitsUpperLower S T p.1 p.2 = true) := fun hh => h ⟨h1, hh⟩
      simp only [h1, h2, if_true, if_false, Bool.false_eq_true]
      omega
    · by_cases h2 : emitsUpperLower S T p.1 p.2 = true
      · simp only [h1, h2, if_true, if_false, Bool.false_eq_true]
        omega
      · simp only [h1, h2, if_false, Bool.false_eq_true]
        omega

/-- Entry `i` of the result of the outer loop is the result of the inner loop
on the entries `i` of the inputs. -/
theorem typesLoop_getElem (S : ℚ) (T : Int) (frame : List (List ℚ))
    (cls : List (List Int)) (uls lus : List Nat) (i : Nat)
    (ds : List ℚ) (as : List Int) (ul lu : Nat)
    (h1 : frame[i]? = some ds) (h2 : cls[i]? = some as) (h3 : uls[i]? = some ul)
    (h4 : lus[i]? = some lu) :
    (typesLoop S T frame cls uls lus).1[i]? = some (selectionLoop S T ds as ul lu).1 ∧
    (typesLoop S T frame cls uls lus).2.1[i]? = some (selectionLoop S T ds as ul lu).2.1 ∧
    (typesLoop S T frame cls uls lus).2.2[i]? = some (selectionLoop S T ds as ul lu).2.2 := by
  induction i generalizing frame cls uls lus with
  | zero =>
    cases frame with
    | nil => simp at h1
    | cons d0 frame =>
      cases cls with
      | nil => simp at h2
      | cons a0 cls =>
        cases uls with
        | nil => simp at h3
        | cons u0 uls =>
          cases lus with
          | nil => simp at h4
          | cons l0 lus =>
            simp only [List.getElem?_cons_zero, Option.some.injEq] at h1 h2 h3 h4
            subst h1 h2 h3 h4
            simp [typesLoop]
  | succ i ih =>
    cases frame with
    | nil => simp at h1
    | cons d0 frame =>
      cases cls with
      | nil => simp at h2
      | cons a0 cls =>
        cases uls with
        | nil => simp at h3
        | cons u0 uls =>
          cases lus with
          | nil => simp at h4
          | cons l0 lus =>
            simp only [List.getElem?_cons_succ] at h1 h2 h3 h4
            simp only [typesLoop, List.getElem?_cons_succ]
            exact ih frame cls uls lus h1 h2 h3 h4

/-- C20: for every frame processed by `find_flipflops` and every lipid type
`i`, the lower->upper count and the upper->lower count after the frame are at
least their values before it, and together they grow by at most the number of
head atoms of the type. -/
theorem event_counts_monotone (S : ℚ) (T : Int) (frame : List (List ℚ))
    (st : FlipflopState) (i : Nat) (ds : List ℚ) (as : List Int) (ul lu : Nat)
    (h1 : frame[i]? = some ds) (h2 : st.classified[i]? = some as)
    (h3 : st.flipflops_upper_lower[i]? = some ul)
    (h4 : st.flipflops_lower_upper[i]? = some lu) :
    ∃ ul1 lu1 : Nat,
      (find_flipflops S T frame st).flipflops_upper_lower[i]? = some ul1 ∧
      (find_flipflops S T frame st).flipflops_lower_upper[i]? = some lu1 ∧
      ul ≤ ul1 ∧ lu ≤ lu1 ∧ (ul1 - ul) + (lu1 - lu) ≤ ds.length := by
  have h := typesLoop_getElem S T frame st.classified st.flipflops_upper_lower
    st.flipflops_lower_upper i ds as ul lu h1 h2 h3 h4
  refine ⟨(selectionLoop S T ds as ul lu).2.1, (selectionLoop S T ds as ul lu).2.2,
    h.2.1, h.2.2, ?_, ?_, ?_⟩
  · rw [selectionLoop_upper_lower]
    omega
  · rw [selectionLoop_lower_upper]
    omega
  · rw [selectionLoop_upper_lower, selectionLoop_lower_upper]
    have hle := countP_emits_le S T (ds.zip as)
    have hz : (ds.zip as).length ≤ ds.length := by
      rw [List.length_zip]
      exact Nat.min_le_left _ _
    omega

/-- Instance of `event_counts_monotone`: one lipid type with two atoms, `T = 1`,
both confirmed lower and now in the upper core. -/
theorem event_counts_monotone_witness :
    ∃ ul1 lu1 : Nat,
      (find_flipflops (3 / 2) 1 [[2, 2]]
        { classified := [[-2, -2]], flipflops_upper_lower := [0],
          flipflops_lower_upper := [5] }).flipflops_upper_lower[0]? = some ul1 ∧
      (find_flipflops (3 / 2) 1 [[2, 2]]
        { classified := [[-2, -2]], flipflops_upper_lower := [0],
          flipflops_lower_upper := [5] }).flipflops_lower_upper[0]? = some lu1 ∧
      0 ≤ ul1 ∧ 5 ≤ lu1 ∧ (ul1 - 0) + (lu1 - 5) ≤ ([2, 2] : List ℚ).length :=
  event_counts_monotone (3 / 2) 1 [[2, 2]]
    { classified := [[-2, -2]], flipflops_upper_lower := [0], flipflops_lower_upper := [5] }
    0 [2, 2] [-2, -2] 0 5 rfl rfl rfl rfl

/-! ## Further properties of the update rule -/

/-- C21: for `S ≥ 0` (and any `T`, in particular `T ≥ 1`) a frame in which the
atom has `d = 0` exactly leaves its counter unchanged and changes neither
count: no event in either direction. -/
theorem midplane_frame (S : ℚ) (T : Int) (s : AtomState) (hS : 0 ≤ S) :
    updateAssignment S T 0 s.assignment = s.assignment ∧
    atomBody S T 0 s = s ∧
    emitsLowerUpper S T 0 s.assignment = false ∧
    emitsUpperLower S T 0 s.assignment = false := by
  have hu : updateAssignment S T 0 s.assignment = s.assignment :=
    updateAssignment_fallthrough S T 0 s.assignment hS le_rfl (by linarith) le_rfl
  have h1 : ¬ (updateAssignment S T 0 s.assignment = T ∧ (0 : ℚ) < 0) := by
    rintro ⟨-, h⟩
    exact lt_irrefl 0 h
  have h2 : ¬ (updateAssignment S T 0 s.assignment = -T ∧ (0 : ℚ) < 0) := by
    rintro ⟨-, h⟩
    exact lt_irrefl 0 h
  refine ⟨hu, ?_, ?_, ?_⟩
  · rw [atomBody_eq, if_neg h1, if_neg h2, hu]
    cases s
    rfl
  · rw [Bool.eq_false_iff]
    exact fun h => h1 ((emitsLowerUpper_iff S T 0 s.assignment).mp h)
  · rw [Bool.eq_false_iff]
    exact fun h => h2 ((emitsUpperLower_iff S T 0 s.assignment).mp h)

/-- Instance of `midplane_frame`: `T = 3`, `S = 3/2`, counter `2`. -/
theorem midplane_frame_witness :
    atomBody (3 / 2) 3 0 { assignment := 2, upper_lower := 4, lower_upper := 7 } =
      { assignment := 2, upper_lower := 4, lower_upper := 7 } :=
  (midplane_frame (3 / 2) 3 { assignment := 2, upper_lower := 4, lower_upper := 7 }
    (by norm_num)).2.1

/-- The update keeps the counter between `-(T + 1)` and `T + 1`. -/
theorem updateAssignment_bounded (S : ℚ) (T : Int) (d : ℚ) (c : Int) (hT : 1 ≤ T)
    (h : -(T + 1) ≤ c ∧ c ≤ T + 1) :
    -(T + 1) ≤ updateAssignment S T d c ∧ updateAssignment S T d c ≤ T + 1 := by
  unfold updateAssignment
  split_ifs <;> omega

theorem atomRun_bounded (S : ℚ) (T : Int) (hT : 1 ≤ T) (ds : List ℚ) (s : AtomState)
    (h : -(T + 1) ≤ s.assignment ∧ s.assignment ≤ T + 1) :
    -(T + 1) ≤ (atomRun S T ds s).assignment ∧ (atomRun S T ds s).assignment ≤ T + 1 := by
  induction ds generalizing s with
  | nil => exact h
  | cons d ds ih =>
    rw [atomRun_cons]
    apply ih
    rw [atomBody_assignment]
    exact updateAssignment_bounded S T d _ hT h

/-- C22: for `T ≥ 1` (any `S`, in particular `S ≥ 0`) and every finite sequence
of frames processed from the initial counter `0`, the counter satisfies
`-(T + 1) ≤ c ≤ T + 1` after every frame. -/
theorem counter_saturation (S : ℚ) (T : Int) (ds : List ℚ) (ul lu : Nat) (hT : 1 ≤ T) :
    ∀ k : Nat,
      -(T + 1) ≤ (atomRun S T (ds.take k) (atomInit ul lu)).assignment ∧
      (atomRun S T (ds.take k) (atomInit ul lu)).assignment ≤ T + 1 := by
  intro k
  apply atomRun_bounded S T hT
  show -(T + 1) ≤ (0 : Int) ∧ (0 : Int) ≤ T + 1
  omega

/-- Instance of `counter_saturation`: `T = 2`, `S = 3/2`, frames `2, 2, -2, -2, -2`. -/
theorem counter_saturation_witness :
    -((2 : Int) + 1) ≤
        (atomRun (3 / 2) 2 (([2, 2, -2, -2, -2] : List ℚ).take 5) (atomInit 0 0)).assignment ∧
      (atomRun (3 / 2) 2 (([2, 2, -2, -2, -2] : List ℚ).take 5) (atomInit 0 0)).assignment
        ≤ 2 + 1 :=
  counter_saturation (3 / 2) 2 [2, 2, -2, -2, -2] 0 0 (by decide) 5

/-- Sign of the counter in the arithmetic of `Int`: for `T ≥ 1` and every prior
counter value, after a frame in the upper core (`d > S`) the counter is
strictly positive, and (for a valid spatial limit `S ≥ 0`) after a frame in
the lower core (`d < -S`) it is strictly negative. -/
theorem sign_credits_leaflet (S : ℚ) (T : Int) (d : ℚ) (c : Int) (hT : 1 ≤ T) :
    (S < d → 0 < updateAssignment S T d c) ∧
    (0 ≤ S → d < -S → updateAssignment S T d c < 0) := by
  constructor
  · intro hd
    rw [updateAssignment_upper_core S T d c hd]
    split_ifs <;> omega
  · intro hS hd
    rw [updateAssignment_lower_core S T d c (by linarith) (by linarith) hd]
    split_ifs <;> omega

/-- Instance of `sign_credits_leaflet`: `T = 3`, `S = 3/2`, `d = 2`, `c = -5`. -/
theorem sign_credits_leaflet_witness : 0 < updateAssignment (3 / 2) 3 2 (-5) :=
  (sign_credits_leaflet (3 / 2) 3 2 (-5) (by decide)).1 (by norm_num)

/-- A lower->upper event needs a counter that moved one step to `T`. -/
theorem lower_upper_event_step (S : ℚ) (T : Int) (d : ℚ) (c : Int) (hT : 1 ≤ T)
    (hu : updateAssignment S T d c = T) (hd : 0 < d) :
    (0 < c ∧ c = T - 1) ∨ (T = 1 ∧ c ≤ -T ∧ S < d) := by
  by_cases h : S < d
  · rw [updateAssignment_upper_core S T d c h] at hu
    split_ifs at hu <;> first | (left; omega) | (right; exact ⟨by omega, by omega, h⟩)
  · rw [updateAssignment_upper_intermediate S T d c (not_lt.mp h) hd] at hu
    split_ifs at hu <;> (left; omega)

/-- An upper->lower event needs a counter that moved one step to `-T`. -/
theorem upper_lower_event_step (S : ℚ) (T : Int) (d : ℚ) (c : Int) (hT : 1 ≤ T)
    (hu : updateAssignment S T d c = -T) (hd : d < 0) :
    (c < 0 ∧ c = -T + 1) ∨ (T = 1 ∧ T ≤ c) := by
  unfold updateAssignment at hu
  have h0 : ¬ d > 0 := not_lt.mpr hd.le
  rw [if_neg h0] at hu
  split_ifs at hu <;> first | (left; omega) | (right; omega)

/-- C24: for `T ≥ 1`, no event is emitted in a frame that leaves the counter
unchanged or gives it the value `T + 1` or `-(T + 1)`; a lower->upper event is
emitted only when the counter moved one step to exactly `T` (from `T - 1`, or
set to `1` from a confirmed lower state when `T = 1`), and an upper->lower
event only when it moved one step to exactly `-T` (from `-T + 1`, or set to
`-1` from a confirmed upper state when `T = 1`). -/
theorem only_incremental_progress_emits (S : ℚ) (T : Int) (d : ℚ) (c : Int)
    (hT : 1 ≤ T) :
    (updateAssignment S T d c = c →
      emitsLowerUpper S T d c = false ∧ emitsUpperLower S T d c = false) ∧
    (updateAssignment S T d c = T + 1 ∨ updateAssignment S T d c = -(T + 1) →
      emitsLowerUpper S T d c = false ∧ emitsUpperLower S T d c = false) ∧
    (emitsLowerUpper S T d c = true →
      updateAssignment S T d c = T ∧
        ((c = T - 1 ∧ 0 < c) ∨ (T = 1 ∧ updateAssignment S T d c = 1 ∧ c ≤ -T))) ∧
    (emitsUpperLower S T d c = true →
      updateAssignment S T d c = -T ∧
        ((c = -T + 1 ∧ c < 0) ∨ (T = 1 ∧ updateAssignment S T d c = -1 ∧ T ≤ c))) := by
  have hlu : emitsLowerUpper S T d c = true →
      updateAssignment S T d c = T ∧
        ((c = T - 1 ∧ 0 < c) ∨ (T = 1 ∧ updateAssignment S T d c = 1 ∧ c ≤ -T)) := by
    intro h
    obtain ⟨hu, hd⟩ := (emitsLowerUpper_iff S T d c).mp h
    refine ⟨hu, ?_⟩
    rcases lower_upper_event_step S T d c hT hu hd with ⟨h1, h2⟩ | ⟨h1, h2, -⟩
    · exact Or.inl ⟨h2, h1⟩
    · exact Or.inr ⟨h1, by omega, h2⟩
  have hul : emitsUpperLower S T d c = true →
      updateAssignment S T d c = -T ∧
        ((c = -T + 1 ∧ c < 0) ∨ (T = 1 ∧ updateAssignment S T d c = -1 ∧ T ≤ c)) := by
    intro h
    obtain ⟨hu, hd⟩ := (emitsUpperLower_iff S T d c).mp h
    refine ⟨hu, ?_⟩
    rcases upper_lower_event_step S T d c hT hu hd with ⟨h1, h2⟩ | ⟨h1, h2⟩
    · exact Or.inl ⟨h2, h1⟩
    · exact Or.inr ⟨h1, by omega, h2⟩
  refine ⟨?_, ?_, hlu, hul⟩
  · intro hc
    constructor
    · rw [Bool.eq_false_iff]
      intro h
      have := hlu h
      omega
    · rw [Bool.eq_false_iff]
      intro h
      have := hul h
      omega
  · intro hc
    constructor
    · rw [Bool.eq_false_iff]
      intro h
      have := hlu h
      omega
    · rw [Bool.eq_false_iff]
      intro h
      have := hul h
      omega

/-- Instance of `only_incremental_progress_emits`: `T = 3`, `S = 3/2`, `d = 1`,
`c = 2`: the counter moves from `2` to `3` and a lower->upper event is emitted. -/
theorem only_incremental_progress_emits_witness :
    updateAssignment (3 / 2) 3 1 2 = 3 ∧
      (((2 : Int) = 3 - 1 ∧ (0 : Int) < 2) ∨
        ((3 : Int) = 1 ∧ updateAssignment (3 / 2) 3 1 2 = 1 ∧ (2 : Int) ≤ -3)) :=
  (only_incremental_progress_emits (3 / 2) 3 1 2 (by decide)).2.2.1
    (by
      rw [emitsLowerUpper_iff]
      simp [updateAssignment])

/-- Away from the midplane the updated counter is never `0`, and a non-zero
counter never becomes `0`. -/
theorem updateAssignment_ne_zero (S : ℚ) (T : Int) (d : ℚ) (c : Int) (hT : 1 ≤ T)
    (h : d ≠ 0 ∨ c ≠ 0) : updateAssignment S T d c ≠ 0 := by
  unfold updateAssignment
  split_ifs <;>
    first
    | omega
    | (rcases h with h | h
       · exact absurd (le_antisymm (not_lt.mp ‹¬ d > 0›) (not_lt.mp ‹¬ d < 0›)) h
       · exact h)

theorem atomRun_ne_zero (S : ℚ) (T : Int) (hT : 1 ≤ T) (ds : List ℚ) (s : AtomState)
    (h : s.assignment ≠ 0) : (atomRun S T ds s).assignment ≠ 0 := by
  induction ds generalizing s with
  | nil => exact h
  | cons d ds ih =>
    rw [atomRun_cons]
    apply ih
    rw [atomBody_assignment]
    exact updateAssignment_ne_zero S T d _ hT (Or.inr h)

/-- C30: for `T ≥ 1`, once a frame with `d ≠ 0` has been processed (frame `k`,
index from `0`), the counter of the atom is non-zero after that frame and
after every later frame, whatever the starting counter and whatever distances
follow. -/
theorem undetermined_only_initial (S : ℚ) (T : Int) (ds : List ℚ) (s : AtomState)
    (k : Nat) (d : ℚ) (hT : 1 ≤ T) (hk : ds[k]? = some d) (hd : d ≠ 0) :
    ∀ n : Nat, k + 1 ≤ n → (atomRun S T (ds.take n) s).assignment ≠ 0 := by
  intro n hn
  have hsplit : ds.take n = ds.take (k + 1) ++ (ds.drop (k + 1)).take (n - (k + 1)) := by
    have : n = (k + 1) + (n - (k + 1)) := by omega
    conv_lhs => rw [this]
    rw [List.take_add]
  rw [hsplit, atomRun_append]
  apply atomRun_ne_zero S T hT
  rw [atomRun_take_succ S T ds s k d hk, atomBody_assignment]
  exact updateAssignment_ne_zero S T d _ hT (Or.inl hd)

/-- Instance of `undetermined_only_initial`: `T = 3`, `S = 3/2`, frames
`0, 1, 0, -1`; the counter after all four frames. -/
theorem undetermined_only_initial_witness :
    (atomRun (3 / 2) 3 (([0, 1, 0, -1] : List ℚ).take 4) (atomInit 0 0)).assignment ≠ 0 :=
  undetermined_only_initial (3 / 2) 3 [0, 1, 0, -1] (atomInit 0 0) 1 1 (by decide) rfl
    (by norm_num) 4 (by decide)

/-! ## The frame loop of the rate module -/

/-- Skipped frames do not influence the loop of `calc_scrambling_rate`. -/
theorem rateLoop_analyzedFrames (dt : ℚ) (frames : List TrajFrame) (k : Nat)
    (reference : List (List Int)) :
    Rate.rateLoop dt frames k reference =
      Rate.rateLoop dt (Rate.analyzedFrames dt frames) k reference := by
  induction frames generalizing k reference with
  | nil => rfl
  | cons f fs ih =>
    unfold Rate.analyzedFrames
    by_cases h : truncToInt f.time % roundf (dt * 1000) = 0
    · have h2 : ¬ (truncToInt f.time % roundf (dt * 1000) ≠ 0) := not_not.mpr h
      rw [List.filter_cons_of_pos (by simpa using h)]
      unfold Rate.rateLoop
      rw [if_neg h2, if_neg h2]
      have e1 := ih (k + 1) (Rate.create_reference f.dists)
      have e2 := ih (k + 1) reference
      unfold Rate.analyzedFrames at e1 e2
      rw [e1, e2]
    · have h2 : truncToInt f.time % roundf (dt * 1000) ≠ 0 := h
      rw [List.filter_cons_of_neg (by simpa using h), Rate.rateLoop, if_pos h2]
      have e := ih k reference
      unfold Rate.analyzedFrames at e
      exact e

/-- After the reference frame every analyzed frame is classified against the
same reference. -/
theorem rateLoop_later (dt : ℚ) (an : List TrajFrame)
    (han : ∀ f ∈ an, truncToInt f.time % roundf (dt * 1000) = 0) (k : Nat)
    (reference : List (List Int)) :
    Rate.rateLoop dt an (k + 1) reference =
      an.map (fun f => (f.time / 1000, Rate.classify_lipids f.dists reference)) := by
  induction an generalizing k with
  | nil => rfl
  | cons f fs ih =>
    have h2 : ¬ (truncToInt f.time % roundf (dt * 1000) ≠ 0) :=
      not_not.mpr (han f (List.mem_cons_self _ _))
    have hk : ¬ (k + 1 = 0) := Nat.succ_ne_zero k
    rw [Rate.rateLoop, if_neg h2, if_neg hk, List.map_cons,
      ih (fun x hx => han x (List.mem_cons_of_mem _ hx)) (k + 1)]

/-- Closed form of the output of the rate loop. -/
theorem rateLoop_closed (dt : ℚ) (frames : List TrajFrame) (reference0 : List (List Int))
    (f0 : TrajFrame) (rest : List TrajFrame)
    (h : Rate.analyzedFrames dt frames = f0 :: rest) :
    Rate.rateLoop dt frames 0 reference0 =
      (f0.time / 1000, Rate.referenceRow f0.dists.length) ::
        rest.map (fun f => (f.time / 1000,
          Rate.classify_lipids f.dists (Rate.create_reference f0.dists))) := by
  have han : ∀ f ∈ f0 :: rest, truncToInt f.time % roundf (dt * 1000) = 0 := by
    intro f hf
    rw [← h] at hf
    have := (List.mem_filter.mp hf).2
    simpa using this
  have h2 : ¬ (truncToInt f0.time % roundf (dt * 1000) ≠ 0) :=
    not_not.mpr (han f0 (List.mem_cons_self _ _))
  rw [rateLoop_analyzedFrames, h, Rate.rateLoop, if_neg h2, if_pos rfl,
    rateLoop_later dt rest (fun x hx => han x (List.mem_cons_of_mem _ hx)) 0]

/-- C25: in the loop of `calc_scrambling_rate` the reference is created once,
from the first analyzed frame `f0`, and every later analyzed frame `f` is
reported as `classify_lipids f.dists (create_reference f0.dists)`, a function
of the reference and of that frame's distances only; hence the row of the
`k`-th analyzed frame is the same for any two trajectories that share the first
and the `k`-th analyzed frame, whatever lies in between. -/
theorem reference_fixed (dt : ℚ) (frames : List TrajFrame) (reference0 : List (List Int)) :
    (Rate.analyzedFrames dt frames = [] → Rate.rateLoop dt frames 0 reference0 = []) ∧
    (∀ (f0 : TrajFrame) (rest : List TrajFrame),
      Rate.analyzedFrames dt frames = f0 :: rest →
      Rate.rateLoop dt frames 0 reference0 =
        (f0.time / 1000, Rate.referenceRow f0.dists.length) ::
          rest.map (fun f => (f.time / 1000,
            Rate.classify_lipids f.dists (Rate.create_reference f0.dists)))) ∧
    (∀ (frames2 : List TrajFrame) (reference2 : List (List Int)) (k : Nat)
      (f0 f : TrajFrame),
      (Rate.analyzedFrames dt frames)[0]? = some f0 →
      (Rate.analyzedFrames dt frames2)[0]? = some f0 →
      (Rate.analyzedFrames dt frames)[k]? = some f →
      (Rate.analyzedFrames dt frames2)[k]? = some f →
      (Rate.rateLoop dt frames 0 reference0)[k]? =
        (Rate.rateLoop dt frames2 0 reference2)[k]?) := by
  refine ⟨?_, fun f0 rest h => rateLoop_closed dt frames reference0 f0 rest h, ?_⟩
  · intro h
    rw [rateLoop_analyzedFrames, h]
    rfl
  · intro frames2 reference2 k f0 f h1 h2 h3 h4
    cases ha : Rate.analyzedFrames dt frames with
    | nil => rw [ha] at h1; simp at h1
    | cons a resta =>
      cases hb : Rate.analyzedFrames dt frames2 with
      | nil => rw [hb] at h2; simp at h2
      | cons b restb =>
        rw [ha] at h1 h3
        rw [hb] at h2 h4
        simp only [List.getElem?_cons_zero, Option.some.injEq] at h1 h2
        rw [h1] at ha
        rw [h2] at hb
        rw [rateLoop_closed dt frames reference0 f0 resta ha,
          rateLoop_closed dt frames2 reference2 f0 restb hb]
        cases k with
        | zero => simp only [List.getElem?_cons_zero]
        | succ k =>
          simp only [List.getElem?_cons_succ] at h3 h4 ⊢
          rw [List.getElem?_map, List.getElem?_map, h3, h4]

/-- A run of the rate module with one lipid type of two atoms, `dt = 1` ns:
the frame at 500 ps is skipped, the first analyzed frame gives the reference,
and the later rows are computed against it. -/
theorem rate_run_example :
    Rate.rateLoop 1
        [⟨0, [[1, -1]]⟩, ⟨500, [[-1, -1]]⟩, ⟨1000, [[-1, -1]]⟩, ⟨2000, [[1, -1]]⟩] 0 [] =
      [(0, [0]), (1, [50]), (2, [0])] := by
  have hr : roundf 1000 = 1000 := by
    have := roundf_natCast 1000 (by decide)
    simpa using this
  have h0 : truncToInt 0 = 0 := by
    have := truncToInt_natCast 0 (by decide)
    simpa using this
  have h500 : truncToInt 500 = 500 := by
    have := truncToInt_natCast 500 (by decide)
    simpa using this
  have h1000 : truncToInt 1000 = 1000 := by
    have := truncToInt_natCast 1000 (by decide)
    simpa using this
  have h2000 : truncToInt 2000 = 2000 := by
    have := truncToInt_natCast 2000 (by decide)
    simpa using this
  have hp : Rate.percentage 1 2 = 50 := by
    have := percentage_exact 1 2 50 (by decide) (by decide) (by norm_num) (by decide)
    exact_mod_cast this
  simp [Rate.rateLoop, hr, h0, h500, h1000, h2000, Rate.referenceRow,
    Rate.create_reference, Rate.referenceOfSelection, Rate.classify_lipids,
    Rate.classifyLoop, Rate.countScrambled, hp, percentage_zero]
  norm_num
  exact ⟨hp, percentage_zero 2⟩

/-! ## Per-atom independence -/

/-- Entry `j` of the counters after the inner loop is the update of entry `j`. -/
theorem selectionLoop_getElem (S : ℚ) (T : Int) (ds : List ℚ) (as : List Int)
    (ul lu : Nat) (j : Nat) (d : ℚ) (c : Int) (h1 : ds[j]? = some d)
    (h2 : as[j]? = some c) :
    (selectionLoop S T ds as ul lu).1[j]? = some (updateAssignment S T d c) := by
  induction j generalizing ds as ul lu with
  | zero =>
    cases ds with
    | nil => simp at h1
    | cons d0 ds =>
      cases as with
      | nil => simp at h2
      | cons a0 as =>
        simp only [List.getElem?_cons_zero, Option.some.injEq] at h1 h2
        subst h1 h2
        simp only [selectionLoop, List.getElem?_cons_zero, atomBody_assignment]
  | succ j ih =>
    cases ds with
    | nil => simp at h1
    | cons d0 ds =>
      cases as with
      | nil => simp at h2
      | cons a0 as =>
        simp only [List.getElem?_cons_succ] at h1 h2
        simp only [selectionLoop, List.getElem?_cons_succ]
        exact ih ds as _ _ h1 h2

/-- C26: in one call of `find_flipflops` the new counter of atom `j` of lipid
type `i` is `updateAssignment S T d c` of its own distance and previous counter,
and the two counts of type `i` grow by the number of atoms of type `i` whose own
`(d, c)` emits in that direction; nothing else of the frame or of the state
enters, so two calls that agree on the atom (on the lipid type) agree on its
new counter (on the growth of the counts of the type). -/
theorem per_atom_independence (S : ℚ) (T : Int) (frame : List (List ℚ))
    (st : FlipflopState) (i j : Nat) (ds : List ℚ) (as : List Int) (ul lu : Nat)
    (d : ℚ) (c : Int)
    (h1 : frame[i]? = some ds) (h2 : st.classified[i]? = some as)
    (h3 : st.flipflops_upper_lower[i]? = some ul)
    (h4 : st.flipflops_lower_upper[i]? = some lu)
    (h5 : ds[j]? = some d) (h6 : as[j]? = some c) :
    (∃ as1 : List Int, (find_flipflops S T frame st).classified[i]? = some as1 ∧
      as1[j]? = some (updateAssignment S T d c)) ∧
    (find_flipflops S T frame st).flipflops_lower_upper[i]? =
      some (lu + (ds.zip as).countP (fun p => emitsLowerUpper S T p.1 p.2)) ∧
    (find_flipflops S T frame st).flipflops_upper_lower[i]? =
      some (ul + (ds.zip as).countP (fun p => emitsUpperLower S T p.1 p.2)) ∧
    (∀ (frame2 : List (List ℚ)) (st2 : FlipflopState) (ds2 : List ℚ) (as2 : List Int)
      (ul2 lu2 : Nat),
      frame2[i]? = some ds2 → st2.classified[i]? = some as2 →
      st2.flipflops_upper_lower[i]? = some ul2 →
      st2.flipflops_lower_upper[i]? = some lu2 →
      ds2[j]? = some d → as2[j]? = some c →
      ∃ as1 as3 : List Int,
        (find_flipflops S T frame st).classified[i]? = some as1 ∧
        (find_flipflops S T frame2 st2).classified[i]? = some as3 ∧
        as1[j]? = as3[j]? ∧ as1[j]? = some (updateAssignment S T d c)) := by
  have h := typesLoop_getElem S T frame st.classified st.flipflops_upper_lower
    st.flipflops_lower_upper i ds as ul lu h1 h2 h3 h4
  have hj := selectionLoop_getElem S T ds as ul lu j d c h5 h6
  refine ⟨⟨_, h.1, hj⟩, ?_, ?_, ?_⟩
  · rw [← selectionLoop_lower_upper]
    exact h.2.2
  · rw [← selectionLoop_upper_lower]
    exact h.2.1
  · intro frame2 st2 ds2 as2 ul2 lu2 g1 g2 g3 g4 g5 g6
    have h' := typesLoop_getElem S T frame2 st2.classified st2.flipflops_upper_lower
      st2.flipflops_lower_upper i ds2 as2 ul2 lu2 g1 g2 g3 g4
    have hj' := selectionLoop_getElem S T ds2 as2 ul2 lu2 j d c g5 g6
    exact ⟨_, _, h.1, h'.1, hj.trans hj'.symm, hj⟩

/-- Instance of `per_atom_independence`: two lipid types; the second atom of the
second type. -/
theorem per_atom_independence_witness :
    ∃ as1 : List Int,
      (find_flipflops (3 / 2) 3 [[2], [1, -2]]
        { classified := [[0], [4, 4]], flipflops_upper_lower := [0, 0],
          flipflops_lower_upper := [0, 0] }).classified[1]? = some as1 ∧
      as1[1]? = some (updateAssignment (3 / 2) 3 (-2) 4) :=
  (per_atom_independence (3 / 2) 3 [[2], [1, -2]]
    { classified := [[0], [4, 4]], flipflops_upper_lower := [0, 0],
      flipflops_lower_upper := [0, 0] } 1 1 [1, -2] [4, 4] 0 0 (-2) 4
    rfl rfl rfl rfl rfl rfl).1

/-! ## The frame-selection divisor -/

/-- From `dt = 0.0005` ns on (and up to `dt = 1000000` ns, far below the range
of `int`) the divisor `(int) roundf(dt * 1000)` is at least 1. -/
theorem roundf_pos (dt : ℚ) (h : 1 / 2000 ≤ dt) (h2 : dt ≤ 1000000) :
    1 ≤ roundf (dt * 1000) := by
  have hlo : (1 / 2 : ℚ) ≤ roundToFloat (dt * 1000) := by
    have hu : ulp 24 (-149) (1 / 2) = (2 : ℚ) ^ (-24 : Int) := by
      unfold ulp
      rw [abs_of_pos (by norm_num), log2_eq (1 / 2) (-1) (by norm_num) (by norm_num)]
      norm_num
    exact le_roundToPrecision 24 (-149) _ (1 / 2) 8388608 (by decide) (by norm_num)
      (by rw [hu]; norm_num) (by linarith)
  have hhi : roundToFloat (dt * 1000) ≤ 1000000000 := by
    have hu : ulp 24 (-149) 1000000000 = (2 : ℚ) ^ (6 : Int) := by
      unfold ulp
      rw [abs_of_pos (by norm_num), log2_eq 1000000000 29 (by norm_num) (by norm_num)]
      norm_num
    exact roundToPrecision_le 24 (-149) _ 1000000000 15625000 (by norm_num)
      (by rw [hu]; norm_num) (by linarith)
  unfold roundf
  simp only
  have h0 : (0 : ℚ) ≤ roundToFloat (dt * 1000) := by linarith
  rw [if_pos h0]
  have hf1 : (1 : Int) ≤ Rat.floor (roundToFloat (dt * 1000) + 1 / 2) := by
    rw [Rat.le_floor]
    push_cast
    linarith
  have hf2 : Rat.floor (roundToFloat (dt * 1000) + 1 / 2) ≤ 1000000000 := by
    have hf : ((Rat.floor (roundToFloat (dt * 1000) + 1 / 2) : Int) : ℚ) ≤
        roundToFloat (dt * 1000) + 1 / 2 := Int.floor_le _
    have h3 : ((Rat.floor (roundToFloat (dt * 1000) + 1 / 2) : Int) : ℚ) <
        ((1000000001 : Int) : ℚ) := by
      push_cast
      linarith
    have h4 : Rat.floor (roundToFloat (dt * 1000) + 1 / 2) < 1000000001 := by
      exact_mod_cast h3
    omega
  unfold castInt32
  rw [if_pos (by omega)]
  exact hf1

/-- C29 (failing input): the time interval `dt = 0.0001` ns passes the check
`*dt <= 0` of the argument parsers (parsing goes on), but the divisor
`roundf(dt * 1000)` of the frame-selection test is `0`. -/
theorem divisor_zero_for_small_dt :
    timeStepOption (some (1 / 10000)) 10 = (0, 1 / 10000) ∧
    (0 : ℚ) < 1 / 10000 ∧
    roundf ((1 / 10000 : ℚ) * 1000) = 0 := by
  refine ⟨?_, by norm_num, ?_⟩
  · simp [timeStepOption]
  · have h1 : ((1 / 10000 : ℚ) * 1000) = 1 / 10 := by norm_num
    rw [h1]
    have hlo : (0 : ℚ) ≤ roundToFloat (1 / 10) := roundToPrecision_nonneg 24 (-149) _ (by norm_num)
    have hhi : roundToFloat (1 / 10) ≤ 1 / 4 := by
      have hu : ulp 24 (-149) (1 / 4) = (2 : ℚ) ^ (-25 : Int) := by
        unfold ulp
        rw [abs_of_pos (by norm_num), log2_eq (1 / 4) (-2) (by norm_num) (by norm_num)]
        norm_num
      exact roundToPrecision_le 24 (-149) _ (1 / 4) 8388608 (by norm_num)
        (by rw [hu]; norm_num) (by norm_num)
    unfold roundf
    simp only
    rw [if_pos hlo, rat_floor_eq _ 0 (by push_cast; linarith) (by push_cast; linarith)]
    rfl

/-! ## Spacing of events -/

/-- Splitting a run at frame `m`. -/
theorem atomRun_take_add (S : ℚ) (T : Int) (ds : List ℚ) (s : AtomState) (m n : Nat) :
    atomRun S T (ds.take (m + n)) s =
      atomRun S T ((ds.drop m).take n) (atomRun S T (ds.take m) s) := by
  rw [List.take_add, atomRun_append]

/-- The counts never decrease along a run. -/
theorem atomRun_counts_mono (S : ℚ) (T : Int) (ds : List ℚ) (s : AtomState) :
    s.lower_upper ≤ (atomRun S T ds s).lower_upper ∧
      s.upper_lower ≤ (atomRun S T ds s).upper_lower := by
  induction ds generalizing s with
  | nil => exact ⟨le_refl _, le_refl _⟩
  | cons d ds ih =>
    rw [atomRun_cons]
    have h := ih (atomBody S T d s)
    rw [atomBody_lower_upper, atomBody_upper_lower] at h
    constructor
    · exact le_trans (Nat.le_add_right _ _) h.1
    · exact le_trans (Nat.le_add_right _ _) h.2

/-- An event at frame `k` (index from `0`) leaves the counter at `T` or `-T`. -/
theorem event_counter (S : ℚ) (T : Int) (ds : List ℚ) (s : AtomState) (k : Nat)
    (hk : k < ds.length)
    (hev : (atomRun S T (ds.take (k + 1)) s).lower_upper =
        (atomRun S T (ds.take k) s).lower_upper + 1 ∨
      (atomRun S T (ds.take (k + 1)) s).upper_lower =
        (atomRun S T (ds.take k) s).upper_lower + 1) :
    (atomRun S T (ds.take (k + 1)) s).assignment = T ∨
      (atomRun S T (ds.take (k + 1)) s).assignment = -T := by
  have hget : ds[k]? = some ds[k] := List.getElem?_eq_getElem hk
  rw [atomRun_take_succ S T ds s k ds[k] hget, atomBody_lower_upper, atomBody_upper_lower,
    atomBody_assignment] at *
  rcases hev with h | h
  · left
    by_contra hno
    have : ¬ (updateAssignment S T ds[k] (atomRun S T (ds.take k) s).assignment = T ∧
        0 < ds[k]) := fun hh => hno hh.1
    rw [if_neg this] at h
    omega
  · right
    by_contra hno
    have : ¬ (updateAssignment S T ds[k] (atomRun S T (ds.take k) s).assignment = -T ∧
        ds[k] < 0) := fun hh => hno hh.1
    rw [if_neg this] at h
    omega

/-- The invariant that holds `j` frames after an event: either `T` frames have
passed, or the atom is confirmed on one side, or the opposite streak is at
most `j` long. -/
theorem spacing_step (S : ℚ) (T : Int) (d : ℚ) (c : Int) (j : Int) (hj : 0 ≤ j)
    (h : T ≤ j ∨ (T ≤ c ∨ (-j ≤ c ∧ c < 0 ∧ -T < c)) ∨
      (c ≤ -T ∨ (0 < c ∧ c ≤ j ∧ c < T))) :
    T ≤ j + 1 ∨
      (T ≤ updateAssignment S T d c ∨
        (-(j + 1) ≤ updateAssignment S T d c ∧ updateAssignment S T d c < 0 ∧
          -T < updateAssignment S T d c)) ∨
      (updateAssignment S T d c ≤ -T ∨
        (0 < updateAssignment S T d c ∧ updateAssignment S T d c ≤ j + 1 ∧
          updateAssignment S T d c < T)) := by
  unfold updateAssignment
  split_ifs <;> omega

/-- An event in the frame after such a state needs `T ≤ j + 1`. -/
theorem spacing_event (S : ℚ) (T : Int) (d : ℚ) (c : Int) (j : Int) (hT : 1 ≤ T)
    (hj : 0 ≤ j)
    (h : T ≤ j ∨ (T ≤ c ∨ (-j ≤ c ∧ c < 0 ∧ -T < c)) ∨
      (c ≤ -T ∨ (0 < c ∧ c ≤ j ∧ c < T)))
    (hev : (updateAssignment S T d c = T ∧ 0 < d) ∨
      (updateAssignment S T d c = -T ∧ d < 0)) :
    T ≤ j + 1 := by
  rcases hev with ⟨hu, hd⟩ | ⟨hu, hd⟩
  · rcases lower_upper_event_step S T d c hT hu hd with h1 | h1 <;> omega
  · rcases upper_lower_event_step S T d c hT hu hd with h1 | h1 <;> omega

/-- The invariant along a run that starts `j` frames after an event. -/
theorem spacing_run (S : ℚ) (T : Int) (ds : List ℚ) (s : AtomState) (j : Nat)
    (h : T ≤ (j : Int) ∨ (T ≤ s.assignment ∨
        (-(j : Int) ≤ s.assignment ∧ s.assignment < 0 ∧ -T < s.assignment)) ∨
      (s.assignment ≤ -T ∨ (0 < s.assignment ∧ s.assignment ≤ j ∧ s.assignment < T))) :
    T ≤ ((j + ds.length : Nat) : Int) ∨
      (T ≤ (atomRun S T ds s).assignment ∨
        (-((j + ds.length : Nat) : Int) ≤ (atomRun S T ds s).assignment ∧
          (atomRun S T ds s).assignment < 0 ∧ -T < (atomRun S T ds s).assignment)) ∨
      ((atomRun S T ds s).assignment ≤ -T ∨
        (0 < (atomRun S T ds s).assignment ∧
          (atomRun S T ds s).assignment ≤ ((j + ds.length : Nat) : Int) ∧
          (atomRun S T ds s).assignment < T)) := by
  induction ds generalizing s j with
  | nil => simpa using h
  | cons d ds ih =>
    have hs := spacing_step S T d s.assignment j (Int.natCast_nonneg j) h
    have hrec := ih (atomBody S T d s) (j + 1)
      (by rw [atomBody_assignment]; push_cast; exact hs)
    rw [atomRun_cons]
    have e : j + 1 + ds.length = j + (d :: ds).length := by
      rw [List.length_cons]
      omega
    rw [e] at hrec
    exact hrec

/-- C28: for `T ≥ 1` and every frame sequence processed from the initial
counter `0`, any two events emitted for the same atom (at frames `k1 < k2`, in
either direction) are at least `T` analyzed frames apart. -/
theorem minimum_event_spacing (S : ℚ) (T : Int) (ds : List ℚ) (ul lu : Nat)
    (k1 k2 : Nat) (hT : 1 ≤ T) (h12 : k1 < k2) (hk2 : k2 < ds.length)
    (hev1 : (atomRun S T (ds.take (k1 + 1)) (atomInit ul lu)).lower_upper =
        (atomRun S T (ds.take k1) (atomInit ul lu)).lower_upper + 1 ∨
      (atomRun S T (ds.take (k1 + 1)) (atomInit ul lu)).upper_lower =
        (atomRun S T (ds.take k1) (atomInit ul lu)).upper_lower + 1)
    (hev2 : (atomRun S T (ds.take (k2 + 1)) (atomInit ul lu)).lower_upper =
        (atomRun S T (ds.take k2) (atomInit ul lu)).lower_upper + 1 ∨
      (atomRun S T (ds.take (k2 + 1)) (atomInit ul lu)).upper_lower =
        (atomRun S T (ds.take k2) (atomInit ul lu)).upper_lower + 1) :
    T ≤ (k2 : Int) - k1 := by
  have hc := event_counter S T ds (atomInit ul lu) k1 (by omega) hev1
  have hsplit : k2 = (k1 + 1) + (k2 - (k1 + 1)) := by omega
  have hrun := spacing_run S T ((ds.drop (k1 + 1)).take (k2 - (k1 + 1)))
    (atomRun S T (ds.take (k1 + 1)) (atomInit ul lu)) 0
    (by rcases hc with h | h
        · exact Or.inr (Or.inl (Or.inl (le_of_eq h.symm)))
        · exact Or.inr (Or.inr (Or.inl (le_of_eq h))))
  rw [← atomRun_take_add, ← hsplit] at hrun
  have hlen : ((ds.drop (k1 + 1)).take (k2 - (k1 + 1))).length = k2 - (k1 + 1) := by
    rw [List.length_take, List.length_drop]
    omega
  rw [hlen, Nat.zero_add] at hrun
  have hget : ds[k2]? = some ds[k2] := List.getElem?_eq_getElem hk2
  rw [atomRun_take_succ S T ds (atomInit ul lu) k2 ds[k2] hget, atomBody_lower_upper,
    atomBody_upper_lower] at hev2
  have hcond : (updateAssignment S T ds[k2]
        (atomRun S T (ds.take k2) (atomInit ul lu)).assignment = T ∧ 0 < ds[k2]) ∨
      (updateAssignment S T ds[k2]
        (atomRun S T (ds.take k2) (atomInit ul lu)).assignment = -T ∧ ds[k2] < 0) := by
    rcases hev2 with h | h
    · left
      by_contra hno
      rw [if_neg hno] at h
      omega
    · right
      by_contra hno
      rw [if_neg hno] at h
      omega
  have hfin := spacing_event S T ds[k2] _ ((k2 - (k1 + 1) : Nat) : Int) hT
    (Int.natCast_nonneg _) hrun hcond
  omega

/-- Instance of `minimum_event_spacing`: `T = 2`, `S = 3/2`, frames
`2, -2, -2, 2, 2`: an upper->lower event at the third frame and a lower->upper
event at the fifth. -/
theorem minimum_event_spacing_witness :
    (atomRun (3 / 2) 2 (([2, -2, -2, 2, 2] : List ℚ).take (2 + 1)) (atomInit 0 0)).upper_lower =
        (atomRun (3 / 2) 2 (([2, -2, -2, 2, 2] : List ℚ).take 2) (atomInit 0 0)).upper_lower
          + 1 ∧
    (atomRun (3 / 2) 2 (([2, -2, -2, 2, 2] : List ℚ).take (4 + 1)) (atomInit 0 0)).lower_upper =
        (atomRun (3 / 2) 2 (([2, -2, -2, 2, 2] : List ℚ).take 4) (atomInit 0 0)).lower_upper
          + 1 ∧
    (2 : Int) ≤ ((4 : Nat) : Int) - (2 : Nat) :=
  have h1 : (atomRun (3 / 2) 2 (([2, -2, -2, 2, 2] : List ℚ).take (2 + 1))
      (atomInit 0 0)).upper_lower =
        (atomRun (3 / 2) 2 (([2, -2, -2, 2, 2] : List ℚ).take 2) (atomInit 0 0)).upper_lower
          + 1 := by
    simp [atomRun, atomBody, updateAssignment, atomInit]
    norm_num
  have h2 : (atomRun (3 / 2) 2 (([2, -2, -2, 2, 2] : List ℚ).take (4 + 1))
      (atomInit 0 0)).lower_upper =
        (atomRun (3 / 2) 2 (([2, -2, -2, 2, 2] : List ℚ).take 4) (atomInit 0 0)).lower_upper
          + 1 := by
    simp [atomRun, atomBody, updateAssignment, atomInit]
    norm_num
  ⟨h1, h2, minimum_event_spacing (3 / 2) 2 [2, -2, -2, 2, 2] 0 0 2 4 (by decide) (by decide)
    (by simp) (Or.inr h1) (Or.inl h2)⟩

/-! ## Alternation of events -/

/-- The possible updates in a frame on the upper side. -/
theorem updateAssignment_cases_pos (S : ℚ) (T : Int) (d : ℚ) (c : Int) (hT : 1 ≤ T)
    (hd : 0 < d) :
    (T < c ∧ updateAssignment S T d c = c) ∨
    (0 < c ∧ c ≤ T ∧ updateAssignment S T d c = c + 1) ∨
    (c ≤ -T ∧ (updateAssignment S T d c = 1 ∨ updateAssignment S T d c = c)) ∨
    (-T < c ∧ c ≤ 0 ∧ updateAssignment S T d c = T + 1) := by
  by_cases h : S < d
  · rw [updateAssignment_upper_core S T d c h]
    split_ifs <;> omega
  · rw [updateAssignment_upper_intermediate S T d c (not_lt.mp h) hd]
    split_ifs <;> omega

/-- The possible updates in a frame on the lower side. -/
theorem updateAssignment_cases_neg (S : ℚ) (T : Int) (d : ℚ) (c : Int) (hT : 1 ≤ T)
    (hS : 0 ≤ S) (hd : d < 0) :
    (T ≤ c ∧ (updateAssignment S T d c = -1 ∨ updateAssignment S T d c = c)) ∨
    (0 < c ∧ c < T ∧ updateAssignment S T d c = -T - 1) ∨
    (c < -T ∧ updateAssignment S T d c = c) ∨
    (-T ≤ c ∧ c < 0 ∧ updateAssignment S T d c = c - 1) ∨
    (c = 0 ∧ updateAssignment S T d c = -T - 1) := by
  by_cases h : d < -S
  · rw [updateAssignment_lower_core S T d c (by linarith) (by linarith) h]
    split_ifs <;> omega
  · rw [updateAssignment_lower_intermediate S T d c (by linarith) (by linarith)
      (not_lt.mp h) hd]
    split_ifs <;> omega

/-- One frame from a state credited to the upper leaflet (confirmed upper, or
on the way to the lower leaflet): either the state stays credited to the upper
leaflet and nothing is emitted, or it becomes credited to the lower leaflet and
exactly one upper->lower event is emitted. -/
theorem side_step_upper (S : ℚ) (T : Int) (hT : 1 ≤ T) (hS : 0 ≤ S) (d : ℚ)
    (s : AtomState)
    (hU : T ≤ s.assignment ∨ (-T < s.assignment ∧ s.assignment < 0)) :
    ((T ≤ (atomBody S T d s).assignment ∨
        (-T < (atomBody S T d s).assignment ∧ (atomBody S T d s).assignment < 0)) ∧
      (atomBody S T d s).lower_upper = s.lower_upper ∧
      (atomBody S T d s).upper_lower = s.upper_lower) ∨
    (((atomBody S T d s).assignment ≤ -T ∨
        (0 < (atomBody S T d s).assignment ∧ (atomBody S T d s).assignment < T)) ∧
      (atomBody S T d s).lower_upper = s.lower_upper ∧
      (atomBody S T d s).upper_lower = s.upper_lower + 1) := by
  rw [atomBody_assignment, atomBody_lower_upper, atomBody_upper_lower]
  rcases lt_trichotomy d 0 with hd | hd | hd
  · have hc := updateAssignment_cases_neg S T d s.assignment hT hS hd
    have hlu : ¬ (updateAssignment S T d s.assignment = T ∧ 0 < d) := by
      rintro ⟨-, h⟩
      linarith
    rw [if_neg hlu]
    by_cases hul : updateAssignment S T d s.assignment = -T ∧ d < 0
    · rw [if_pos hul]
      have := hul.1
      omega
    · rw [if_neg hul]
      have : updateAssignment S T d s.assignment ≠ -T := fun h => hul ⟨h, hd⟩
      omega
  · subst hd
    have hu : updateAssignment S T 0 s.assignment = s.assignment :=
      updateAssignment_fallthrough S T 0 s.assignment hS le_rfl (by linarith) le_rfl
    have hlu : ¬ (updateAssignment S T 0 s.assignment = T ∧ (0 : ℚ) < 0) := by
      rintro ⟨-, h⟩
      exact lt_irrefl 0 h
    have hul : ¬ (updateAssignment S T 0 s.assignment = -T ∧ (0 : ℚ) < 0) := by
      rintro ⟨-, h⟩
      exact lt_irrefl 0 h
    rw [if_neg hlu, if_neg hul, hu]
    omega
  · have hc := updateAssignment_cases_pos S T d s.assignment hT hd
    have hul : ¬ (updateAssignment S T d s.assignment = -T ∧ d < 0) := by
      rintro ⟨-, h⟩
      linarith
    rw [if_neg hul]
    by_cases hlu : updateAssignment S T d s.assignment = T ∧ 0 < d
    · have := hlu.1
      omega
    · rw [if_neg hlu]
      omega

/-- One frame from a state credited to the lower leaflet: mirror image of
`side_step_upper`. -/
theorem side_step_lower (S : ℚ) (T : Int) (hT : 1 ≤ T) (hS : 0 ≤ S) (d : ℚ)
    (s : AtomState)
    (hL : s.assignment ≤ -T ∨ (0 < s.assignment ∧ s.assignment < T)) :
    (((atomBody S T d s).assignment ≤ -T ∨
        (0 < (atomBody S T d s).assignment ∧ (atomBody S T d s).assignment < T)) ∧
      (atomBody S T d s).lower_upper = s.lower_upper ∧
      (atomBody S T d s).upper_lower = s.upper_lower) ∨
    ((T ≤ (atomBody S T d s).assignment ∨
        (-T < (atomBody S T d s).assignment ∧ (atomBody S T d s).assignment < 0)) ∧
      (atomBody S T d s).lower_upper = s.lower_upper + 1 ∧
      (atomBody S T d s).upper_lower = s.upper_lower) := by
  have h := side_step_upper S T hT hS (-d) s.mirror
    (by simp only [AtomState.mirror]; omega)
  rw [atomBody_mirror S T hT hS] at h
  simp only [AtomState.mirror] at h
  omega

/-- One frame from the initial counter emits nothing. -/
theorem side_step_zero (S : ℚ) (T : Int) (hT : 1 ≤ T) (d : ℚ) (s : AtomState)
    (h0 : s.assignment = 0) :
    (atomBody S T d s).lower_upper = s.lower_upper ∧
      (atomBody S T d s).upper_lower = s.upper_lower := by
  rw [atomBody_lower_upper, atomBody_upper_lower]
  have hu : updateAssignment S T d s.assignment = 0 ∨
      updateAssignment S T d s.assignment = T + 1 ∨
      updateAssignment S T d s.assignment = -T - 1 := by
    unfold updateAssignment
    split_ifs <;> omega
  have hlu : ¬ (updateAssignment S T d s.assignment = T ∧ 0 < d) := by
    rintro ⟨h, -⟩
    omega
  have hul : ¬ (updateAssignment S T d s.assignment = -T ∧ d < 0) := by
    rintro ⟨h, -⟩
    omega
  rw [if_neg hlu, if_neg hul]
  exact ⟨rfl, rfl⟩

/-- A run that starts credited to one leaflet and ends credited to the other
has emitted an event toward the other leaflet. -/
theorem run_sides (S : ℚ) (T : Int) (hT : 1 ≤ T) (hS : 0 ≤ S) (ds : List ℚ)
    (s : AtomState) :
    ((T ≤ s.assignment ∨ (-T < s.assignment ∧ s.assignment < 0)) →
      ((atomRun S T ds s).assignment ≤ -T ∨
        (0 < (atomRun S T ds s).assignment ∧ (atomRun S T ds s).assignment < T)) →
      s.upper_lower + 1 ≤ (atomRun S T ds s).upper_lower) ∧
    ((s.assignment ≤ -T ∨ (0 < s.assignment ∧ s.assignment < T)) →
      (T ≤ (atomRun S T ds s).assignment ∨
        (-T < (atomRun S T ds s).assignment ∧ (atomRun S T ds s).assignment < 0)) →
      s.lower_upper + 1 ≤ (atomRun S T ds s).lower_upper) := by
  induction ds generalizing s with
  | nil =>
    rw [atomRun_nil]
    constructor <;> intro h1 h2 <;> omega
  | cons d ds ih =>
    rw [atomRun_cons]
    have hmono := atomRun_counts_mono S T ds (atomBody S T d s)
    have hrec := ih (atomBody S T d s)
    constructor
    · intro hU hfin
      rcases side_step_upper S T hT hS d s hU with ⟨h1, h2, h3⟩ | ⟨h1, h2, h3⟩
      · have := hrec.1 h1 hfin
        omega
      · omega
    · intro hL hfin
      rcases side_step_lower S T hT hS d s hL with ⟨h1, h2, h3⟩ | ⟨h1, h2, h3⟩
      · have := hrec.2 h1 hfin
        omega
      · omega

/-- Balance of the two counts along a run: relative to the counts `ul`, `lu`
at the start, the numbers of events in the two directions differ by at most
one, with the sign fixed by the leaflet currently credited. -/
theorem run_balance (S : ℚ) (T : Int) (hT : 1 ≤ T) (hS : 0 ≤ S) (ul lu : Nat)
    (ds : List ℚ) (s : AtomState)
    (h : (s.assignment = 0 → s.lower_upper = lu ∧ s.upper_lower = ul) ∧
      ((T ≤ s.assignment ∨ (-T < s.assignment ∧ s.assignment < 0)) →
        s.lower_upper + ul = s.upper_lower + lu ∨
          s.lower_upper + ul = s.upper_lower + lu + 1) ∧
      ((s.assignment ≤ -T ∨ (0 < s.assignment ∧ s.assignment < T)) →
        s.lower_upper + ul = s.upper_lower + lu ∨
          s.upper_lower + lu = s.lower_upper + ul + 1)) :
    ((atomRun S T ds s).assignment = 0 →
      (atomRun S T ds s).lower_upper = lu ∧ (atomRun S T ds s).upper_lower = ul) ∧
    ((T ≤ (atomRun S T ds s).assignment ∨
        (-T < (atomRun S T ds s).assignment ∧ (atomRun S T ds s).assignment < 0)) →
      (atomRun S T ds s).lower_upper + ul = (atomRun S T ds s).upper_lower + lu ∨
        (atomRun S T ds s).lower_upper + ul = (atomRun S T ds s).upper_lower + lu + 1) ∧
    (((atomRun S T ds s).assignment ≤ -T ∨
        (0 < (atomRun S T ds s).assignment ∧ (atomRun S T ds s).assignment < T)) →
      (atomRun S T ds s).lower_upper + ul = (atomRun S T ds s).upper_lower + lu ∨
        (atomRun S T ds s).upper_lower + lu = (atomRun S T ds s).lower_upper + ul + 1) := by
  induction ds generalizing s with
  | nil => exact h
  | cons d ds ih =>
    rw [atomRun_cons]
    apply ih
    have hcases : s.assignment = 0 ∨
        (T ≤ s.assignment ∨ (-T < s.assignment ∧ s.assignment < 0)) ∨
        (s.assignment ≤ -T ∨ (0 < s.assignment ∧ s.assignment < T)) := by omega
    rcases hcases with h0 | hU | hL
    · have hz := side_step_zero S T hT d s h0
      have hs := h.1 h0
      refine ⟨fun _ => by omega, fun _ => by omega, fun _ => by omega⟩
    · have hb := h.2.1 hU
      rcases side_step_upper S T hT hS d s hU with ⟨h1, h2, h3⟩ | ⟨h1, h2, h3⟩
      · refine ⟨fun _ => by omega, fun _ => by omega, fun _ => by omega⟩
      · refine ⟨fun _ => by omega, fun _ => by omega, fun _ => by omega⟩
    · have hb := h.2.2 hL
      rcases side_step_lower S T hT hS d s hL with ⟨h1, h2, h3⟩ | ⟨h1, h2, h3⟩
      · refine ⟨fun _ => by omega, fun _ => by omega, fun _ => by omega⟩
      · refine ⟨fun _ => by omega, fun _ => by omega, fun _ => by omega⟩

/-- If the upper->lower count grows between frame `m` and frame `n`, an
upper->lower event is emitted at some frame in between. -/
theorem exists_upper_lower_event (S : ℚ) (T : Int) (ds : List ℚ) (s : AtomState)
    (m n : Nat) (hmn : m ≤ n) (hn : n ≤ ds.length)
    (hlt : (atomRun S T (ds.take m) s).upper_lower <
      (atomRun S T (ds.take n) s).upper_lower) :
    ∃ k, m ≤ k ∧ k < n ∧
      (atomRun S T (ds.take (k + 1)) s).upper_lower =
        (atomRun S T (ds.take k) s).upper_lower + 1 := by
  induction n with
  | zero =>
    have : m = 0 := by omega
    subst this
    exact absurd hlt (lt_irrefl _)
  | succ n ih =>
    by_cases hm : m = n + 1
    · subst hm
      exact absurd hlt (lt_irrefl _)
    · have hlen : n < ds.length := hn
      have hget : ds[n]? = some ds[n] := List.getElem?_eq_getElem hlen
      have hstep := atomBody_upper_lower S T ds[n] (atomRun S T (ds.take n) s)
      rw [← atomRun_take_succ S T ds s n ds[n] hget] at hstep
      by_cases hev : (atomRun S T (ds.take (n + 1)) s).upper_lower =
          (atomRun S T (ds.take n) s).upper_lower + 1
      · exact ⟨n, by omega, by omega, hev⟩
      · have heq : (atomRun S T (ds.take (n + 1)) s).upper_lower =
            (atomRun S T (ds.take n) s).upper_lower := by
          rw [hstep] at hev ⊢
          split_ifs at hev ⊢ <;> omega
        rw [heq] at hlt
        obtain ⟨k, hk1, hk2, hk3⟩ := ih (by omega) (by omega) hlt
        exact ⟨k, hk1, by omega, hk3⟩

/-- Between two lower->upper events of an atom there is an upper->lower event. -/
theorem between_lower_upper_events (S : ℚ) (T : Int) (hT : 1 ≤ T) (hS : 0 ≤ S)
    (ds : List ℚ) (s : AtomState) (k1 k2 : Nat) (h12 : k1 < k2) (hk2 : k2 < ds.length)
    (hev1 : (atomRun S T (ds.take (k1 + 1)) s).lower_upper =
      (atomRun S T (ds.take k1) s).lower_upper + 1)
    (hev2 : (atomRun S T (ds.take (k2 + 1)) s).lower_upper =
      (atomRun S T (ds.take k2) s).lower_upper + 1) :
    ∃ k, k1 < k ∧ k < k2 ∧
      (atomRun S T (ds.take (k + 1)) s).upper_lower =
        (atomRun S T (ds.take k) s).upper_lower + 1 := by
  have hk1 : k1 < ds.length := by omega
  have hget1 : ds[k1]? = some ds[k1] := List.getElem?_eq_getElem hk1
  have hget2 : ds[k2]? = some ds[k2] := List.getElem?_eq_getElem hk2
  -- after the first event the counter is `T`
  have hc1 : (atomRun S T (ds.take (k1 + 1)) s).assignment = T := by
    rw [atomRun_take_succ S T ds s k1 ds[k1] hget1, atomBody_lower_upper] at hev1
    rw [atomRun_take_succ S T ds s k1 ds[k1] hget1, atomBody_assignment]
    by_contra hno
    have : ¬ (updateAssignment S T ds[k1] (atomRun S T (ds.take k1) s).assignment = T ∧
        0 < ds[k1]) := fun hh => hno hh.1
    rw [if_neg this] at hev1
    omega
  -- before the second event the counter is credited to the lower leaflet
  have hc2 : (atomRun S T (ds.take k2) s).assignment ≤ -T ∨
      (0 < (atomRun S T (ds.take k2) s).assignment ∧
        (atomRun S T (ds.take k2) s).assignment < T) := by
    rw [atomRun_take_succ S T ds s k2 ds[k2] hget2, atomBody_lower_upper] at hev2
    have hcond : updateAssignment S T ds[k2] (atomRun S T (ds.take k2) s).assignment = T ∧
        0 < ds[k2] := by
      by_contra hno
      rw [if_neg hno] at hev2
      omega
    rcases lower_upper_event_step S T ds[k2] _ hT hcond.1 hcond.2 with h | h <;> omega
  have hsplit : k2 = (k1 + 1) + (k2 - (k1 + 1)) := by omega
  have hrun := (run_sides S T hT hS ((ds.drop (k1 + 1)).take (k2 - (k1 + 1)))
    (atomRun S T (ds.take (k1 + 1)) s)).1 (Or.inl (le_of_eq hc1.symm))
  rw [← atomRun_take_add, ← hsplit] at hrun
  have hgrow := hrun hc2
  obtain ⟨k, hk1, hk2, hk3⟩ := exists_upper_lower_event S T ds s (k1 + 1) k2 (by omega)
    (by omega) (by omega)
  exact ⟨k, by omega, hk2, hk3⟩

/-- The counts of a run are the swapped counts of the mirrored run. -/
theorem atomRun_take_mirror_counts (S : ℚ) (T : Int) (hT : 1 ≤ T) (hS : 0 ≤ S)
    (ds : List ℚ) (ul lu : Nat) (n : Nat) :
    (atomRun S T (ds.take n) (atomInit ul lu)).upper_lower =
        (atomRun S T ((ds.map (fun d => -d)).take n) (atomInit lu ul)).lower_upper ∧
    (atomRun S T (ds.take n) (atomInit ul lu)).lower_upper =
        (atomRun S T ((ds.map (fun d => -d)).take n) (atomInit lu ul)).upper_lower := by
  rw [atomRun_eq_mirror S T hT hS (ds.take n), AtomState.mirror_atomInit, List.map_take]
  exact ⟨rfl, rfl⟩

/-- C27: for `T ≥ 1`, `S ≥ 0` and every frame sequence processed from the
initial counter `0`, the events of an atom alternate in direction: between two
lower->upper events (frames `k1 < k2`) there is an upper->lower event, between
two upper->lower events there is a lower->upper event, and after every frame
the numbers of lower->upper and upper->lower events differ by at most one. -/
theorem events_alternate (S : ℚ) (T : Int) (ds : List ℚ) (ul lu : Nat) (hT : 1 ≤ T)
    (hS : 0 ≤ S) :
    (∀ k1 k2 : Nat, k1 < k2 → k2 < ds.length →
      (atomRun S T (ds.take (k1 + 1)) (atomInit ul lu)).lower_upper =
        (atomRun S T (ds.take k1) (atomInit ul lu)).lower_upper + 1 →
      (atomRun S T (ds.take (k2 + 1)) (atomInit ul lu)).lower_upper =
        (atomRun S T (ds.take k2) (atomInit ul lu)).lower_upper + 1 →
      ∃ k, k1 < k ∧ k < k2 ∧
        (atomRun S T (ds.take (k + 1)) (atomInit ul lu)).upper_lower =
          (atomRun S T (ds.take k) (atomInit ul lu)).upper_lower + 1) ∧
    (∀ k1 k2 : Nat, k1 < k2 → k2 < ds.length →
      (atomRun S T (ds.take (k1 + 1)) (atomInit ul lu)).upper_lower =
        (atomRun S T (ds.take k1) (atomInit ul lu)).upper_lower + 1 →
      (atomRun S T (ds.take (k2 + 1)) (atomInit ul lu)).upper_lower =
        (atomRun S T (ds.take k2) (atomInit ul lu)).upper_lower + 1 →
      ∃ k, k1 < k ∧ k < k2 ∧
        (atomRun S T (ds.take (k + 1)) (atomInit ul lu)).lower_upper =
          (atomRun S T (ds.take k) (atomInit ul lu)).lower_upper + 1) ∧
    (∀ n : Nat,
      lu ≤ (atomRun S T (ds.take n) (atomInit ul lu)).lower_upper ∧
      ul ≤ (atomRun S T (ds.take n) (atomInit ul lu)).upper_lower ∧
      (atomRun S T (ds.take n) (atomInit ul lu)).lower_upper - lu ≤
        (atomRun S T (ds.take n) (atomInit ul lu)).upper_lower - ul + 1 ∧
      (atomRun S T (ds.take n) (atomInit ul lu)).upper_lower - ul ≤
        (atomRun S T (ds.take n) (atomInit ul lu)).lower_upper - lu + 1) := by
  refine ⟨?_, ?_, ?_⟩
  · intro k1 k2 h12 hk2 hev1 hev2
    exact between_lower_upper_events S T hT hS ds (atomInit ul lu) k1 k2 h12 hk2 hev1 hev2
  · intro k1 k2 h12 hk2 hev1 hev2
    have m := atomRun_take_mirror_counts S T hT hS ds ul lu
    rw [(m (k1 + 1)).1, (m k1).1] at hev1
    rw [(m (k2 + 1)).1, (m k2).1] at hev2
    obtain ⟨k, hk1, hk2', hk3⟩ := between_lower_upper_events S T hT hS
      (ds.map (fun d => -d)) (atomInit lu ul) k1 k2 h12
      (by rw [List.length_map]; exact hk2) hev1 hev2
    refine ⟨k, hk1, hk2', ?_⟩
    rw [(m (k + 1)).2, (m k).2]
    exact hk3
  · intro n
    have hmono := atomRun_counts_mono S T (ds.take n) (atomInit ul lu)
    have hbal := run_balance S T hT hS ul lu (ds.take n) (atomInit ul lu)
      ⟨fun _ => ⟨rfl, rfl⟩, fun _ => Or.inl (Nat.add_comm lu ul),
        fun _ => Or.inl (Nat.add_comm lu ul)⟩
    have hl : (atomInit ul lu).lower_upper = lu := rfl
    have hu : (atomInit ul lu).upper_lower = ul := rfl
    rw [hl, hu] at hmono
    have hcases : (atomRun S T (ds.take n) (atomInit ul lu)).assignment = 0 ∨
        (T ≤ (atomRun S T (ds.take n) (atomInit ul lu)).assignment ∨
          (-T < (atomRun S T (ds.take n) (atomInit ul lu)).assignment ∧
            (atomRun S T (ds.take n) (atomInit ul lu)).assignment < 0)) ∨
        ((atomRun S T (ds.take n) (atomInit ul lu)).assignment ≤ -T ∨
          (0 < (atomRun S T (ds.take n) (atomInit ul lu)).assignment ∧
            (atomRun S T (ds.take n) (atomInit ul lu)).assignment < T)) := by omega
    rcases hcases with h0 | hU | hL
    · have := hbal.1 h0
      omega
    · have := hbal.2.1 hU
      omega
    · have := hbal.2.2 hL
      omega

/-- Instance of `events_alternate`: `T = 1`, `S = 3/2`, frames `-2, 2, -2, 2`
give the events lower->upper, upper->lower, lower->upper at the second, third
and fourth frame. -/
theorem events_alternate_witness :
    ∃ k, 1 < k ∧ k < 3 ∧
      (atomRun (3 / 2) 1 (([-2, 2, -2, 2] : List ℚ).take (k + 1)) (atomInit 0 0)).upper_lower =
        (atomRun (3 / 2) 1 (([-2, 2, -2, 2] : List ℚ).take k) (atomInit 0 0)).upper_lower
          + 1 :=
  (events_alternate (3 / 2) 1 [-2, 2, -2, 2] 0 0 (by decide) (by norm_num)).1 1 3
    (by decide) (by simp)
    (by simp [atomRun, atomBody, updateAssignment, atomInit]; norm_num)
    (by simp [atomRun, atomBody, updateAssignment, atomInit]; norm_num)

/-! ## The counter in the arithmetic of `int` -/

theorem wrapInt32_of_inIntRange (x : Int) (h : inIntRange x) : wrapInt32 x = x := by
  unfold inIntRange at h
  unfold wrapInt32
  omega

theorem wrapInt32_inIntRange (x : Int) : inIntRange (wrapInt32 x) := by
  unfold inIntRange wrapInt32
  omega

/-- Whenever `time_frames + 1` is representable, the update in `int`
arithmetic is the update in exact arithmetic. -/
theorem updateAssignment32_eq (S : ℚ) (T : Int) (d : ℚ) (c : Int)
    (hT : 1 ≤ T) (hT1 : inIntRange (T + 1)) (hc : inIntRange c) :
    updateAssignment32 S T d c = updateAssignment S T d c := by
  unfold inIntRange at hT1 hc
  have w1 : wrapInt32 (-T) = -T := wrapInt32_of_inIntRange _ (by unfold inIntRange; omega)
  have w2 : wrapInt32 (T + 1) = T + 1 := wrapInt32_of_inIntRange _ (by unfold inIntRange; omega)
  have w3 : wrapInt32 (-T - 1) = -T - 1 :=
    wrapInt32_of_inIntRange _ (by unfold inIntRange; omega)
  unfold updateAssignment32 updateAssignment
  rw [w1, w2, w3]
  by_cases h1 : d > S
  · rw [if_pos h1, if_pos h1]
    split_ifs <;> first | rfl | (apply wrapInt32_of_inIntRange; unfold inIntRange; omega)
  · rw [if_neg h1, if_neg h1]
    by_cases h2 : d > 0
    · rw [if_pos h2, if_pos h2]
      split_ifs <;> first | rfl | (apply wrapInt32_of_inIntRange; unfold inIntRange; omega)
    · rw [if_neg h2, if_neg h2]
      by_cases h3 : d < -S
      · rw [if_pos h3, if_pos h3]
        split_ifs <;> first | rfl | (apply wrapInt32_of_inIntRange; unfold inIntRange; omega)
      · rw [if_neg h3, if_neg h3]
        by_cases h4 : d < 0
        · rw [if_pos h4, if_pos h4]
          split_ifs <;> first | rfl | (apply wrapInt32_of_inIntRange; unfold inIntRange; omega)
        · rw [if_neg h4, if_neg h4]

theorem atomBody32_eq (S : ℚ) (T : Int) (d : ℚ) (s : AtomState)
    (hT : 1 ≤ T) (hT1 : inIntRange (T + 1)) (hc : inIntRange s.assignment) :
    atomBody32 S T d s = atomBody S T d s := by
  have w1 : wrapInt32 (-T) = -T := by
    unfold inIntRange at hT1
    exact wrapInt32_of_inIntRange _ (by unfold inIntRange; omega)
  unfold atomBody32 atomBody
  rw [updateAssignment32_eq S T d s.assignment hT hT1 hc, w1]

theorem atomRun32_eq (S : ℚ) (T : Int) (ds : List ℚ) (s : AtomState)
    (hT : 1 ≤ T) (hT1 : inIntRange (T + 1)) (hc : inIntRange s.assignment) :
    atomRun32 S T ds s = atomRun S T ds s := by
  induction ds generalizing s with
  | nil => rfl
  | cons d ds ih =>
    rw [atomRun32, atomRun, atomBody32_eq S T d s hT hT1 hc]
    apply ih
    rw [atomBody_assignment]
    exact updateAssignment_int_range S T d s.assignment hT hT1 hc

/-- Upper-side rule in `int` arithmetic: whenever `time_frames + 1` is
representable (`T ≤ 2147483646`), the update on the upper side (`d > 0`)
leaves `c` unchanged if `c > T`, gives `c + 1` if `0 < c ≤ T`, gives `1`
(upper core) or `c` (upper intermediate) if `c ≤ -T`, and gives `T + 1` if
`-T < c < 0` or `c = 0`. -/
theorem upper_side_update32 (S : ℚ) (T : Int) (d : ℚ) (c : Int) (hT : 1 ≤ T)
    (hT1 : inIntRange (T + 1)) (hc : inIntRange c) (hd : 0 < d) :
    (T < c → updateAssignment32 S T d c = c) ∧
    (0 < c ∧ c ≤ T → updateAssignment32 S T d c = c + 1) ∧
    (c ≤ -T → (S < d → updateAssignment32 S T d c = 1) ∧
      (d ≤ S → updateAssignment32 S T d c = c)) ∧
    (-T < c ∧ c < 0 → updateAssignment32 S T d c = T + 1) ∧
    (c = 0 → updateAssignment32 S T d c = T + 1) := by
  rw [updateAssignment32_eq S T d c hT hT1 hc]
  exact upper_side_update S T d c hT hd

/-- C1 (failing input): `-t 2147483647` passes the check of the temporal limit
(`temporal_limit < 1` is false), and with `time_frames = 2147483647` the first
observation of an atom (`c = 0`) on the upper side (`d = 2 > 0`) stores the
wrapped value of `time_frames + 1`, which is `-2147483648` and not `T + 1`. -/
theorem first_observation_overflow :
    (get_arguments_flipflops
        [FlipflopsOption.gro "a.gro", FlipflopsOption.xtc "a.xtc",
          FlipflopsOption.temporal (some 2147483647)] defaultFlipflopsArgs).1 = 0 ∧
    (get_arguments_flipflops
        [FlipflopsOption.gro "a.gro", FlipflopsOption.xtc "a.xtc",
          FlipflopsOption.temporal (some 2147483647)] defaultFlipflopsArgs).2.temporal_limit =
      2147483647 ∧
    (1 : Int) ≤ 2147483647 ∧ (0 : ℚ) < 2 ∧
    updateAssignment32 (3 / 2) 2147483647 2 0 = -2147483648 ∧
    updateAssignment32 (3 / 2) 2147483647 2 0 ≠ 2147483647 + 1 := by
  refine ⟨?_, ?_, by decide, by norm_num, ?_, ?_⟩
  · simp [get_arguments_flipflops, getArgumentsLoop]
  · simp [get_arguments_flipflops, getArgumentsLoop]
  · simp [updateAssignment32, wrapInt32]
  · simp [updateAssignment32, wrapInt32]

theorem emitsLowerUpper32_eq (S : ℚ) (T : Int) (d : ℚ) (c : Int)
    (hT : 1 ≤ T) (hT1 : inIntRange (T + 1)) (hc : inIntRange c) :
    emitsLowerUpper32 S T d c = emitsLowerUpper S T d c := by
  unfold emitsLowerUpper32 emitsLowerUpper
  rw [atomBody32_eq S T d _ hT hT1 hc]

theorem emitsUpperLower32_eq (S : ℚ) (T : Int) (d : ℚ) (c : Int)
    (hT : 1 ≤ T) (hT1 : inIntRange (T + 1)) (hc : inIntRange c) :
    emitsUpperLower32 S T d c = emitsUpperLower S T d c := by
  unfold emitsUpperLower32 emitsUpperLower
  rw [atomBody32_eq S T d _ hT hT1 hc]

/-- Mirror symmetry in `int` arithmetic: whenever `time_frames + 1` is
representable and both `c` and `-c` are values of an `int`, negating distance
and counter negates the updated counter and swaps the two kinds of event. -/
theorem update_mirror32 (S : ℚ) (T : Int) (d : ℚ) (c : Int) (hT : 1 ≤ T)
    (hT1 : inIntRange (T + 1)) (hS : 0 ≤ S) (hc : inIntRange c) (hnc : inIntRange (-c)) :
    updateAssignment32 S T (-d) (-c) = -updateAssignment32 S T d c ∧
    (emitsUpperLower32 S T (-d) (-c) = true ↔ emitsLowerUpper32 S T d c = true) ∧
    (emitsLowerUpper32 S T (-d) (-c) = true ↔ emitsUpperLower32 S T d c = true) := by
  rw [updateAssignment32_eq S T (-d) (-c) hT hT1 hnc, updateAssignment32_eq S T d c hT hT1 hc,
    emitsUpperLower32_eq S T (-d) (-c) hT hT1 hnc, emitsLowerUpper32_eq S T d c hT hT1 hc,
    emitsLowerUpper32_eq S T (-d) (-c) hT hT1 hnc, emitsUpperLower32_eq S T d c hT hT1 hc]
  exact update_mirror S T d c hT hS

/-- C2 (failing input): with `time_frames = 2147483647`, `S = 1.5`, `d = 2` and
`c = 0` the update gives `-2147483648` for `(d, c)` (the wrapped value of
`time_frames + 1`) and also `-2147483648` for `(-d, -c)` (the value of
`-time_frames - 1`), so the result for the mirrored input is not the negated
result. -/
theorem mirror_overflow :
    (1 : Int) ≤ 2147483647 ∧ (0 : ℚ) ≤ 3 / 2 ∧
    updateAssignment32 (3 / 2) 2147483647 2 0 = -2147483648 ∧
    updateAssignment32 (3 / 2) 2147483647 (-2) (-0) = -2147483648 ∧
    updateAssignment32 (3 / 2) 2147483647 (-2) (-0) ≠
      -updateAssignment32 (3 / 2) 2147483647 2 0 := by
  refine ⟨by decide, by norm_num, ?_, ?_, ?_⟩
  · simp [updateAssignment32, wrapInt32]
  · simp [updateAssignment32, wrapInt32]
  · simp [updateAssignment32, wrapInt32]

/-- Jitter suppression in `int` arithmetic, whenever `time_frames + 1` is
representable: an atom confirmed lower (`c ≤ -T`) seen in the upper core for
`k` frames, `1 ≤ k < T`, and then in the lower core ends with counter `-T - 1`
and neither count changes after any of the `k + 1` frames; mirrored, an atom
confirmed upper (`c ≥ T`) ends with counter `T + 1`. -/
theorem jitter_suppression32 (S : ℚ) (T : Int) (ds : List ℚ) (ul lu : Nat)
    (hT : 1 ≤ T) (hT1 : inIntRange (T + 1)) (hS : 0 ≤ S) (hk1 : 1 ≤ ds.length)
    (hk2 : (ds.length : Int) < T) :
    (∀ (c : Int) (e : ℚ), inIntRange c → c ≤ -T → (∀ d ∈ ds, S < d) → e < -S →
      atomRun32 S T (ds ++ [e]) { assignment := c, upper_lower := ul, lower_upper := lu } =
        { assignment := -T - 1, upper_lower := ul, lower_upper := lu } ∧
      ∀ j : Nat,
        (atomRun32 S T ((ds ++ [e]).take j)
          { assignment := c, upper_lower := ul, lower_upper := lu }).upper_lower = ul ∧
        (atomRun32 S T ((ds ++ [e]).take j)
          { assignment := c, upper_lower := ul, lower_upper := lu }).lower_upper = lu) ∧
    (∀ (c : Int) (e : ℚ), inIntRange c → T ≤ c → (∀ d ∈ ds, d < -S) → S < e →
      atomRun32 S T (ds ++ [e]) { assignment := c, upper_lower := ul, lower_upper := lu } =
        { assignment := T + 1, upper_lower := ul, lower_upper := lu } ∧
      ∀ j : Nat,
        (atomRun32 S T ((ds ++ [e]).take j)
          { assignment := c, upper_lower := ul, lower_upper := lu }).upper_lower = ul ∧
        (atomRun32 S T ((ds ++ [e]).take j)
          { assignment := c, upper_lower := ul, lower_upper := lu }).lower_upper = lu) := by
  have h := jitter_suppression S T ds ul lu hT hS hk1 hk2
  constructor
  · intro c e hc hcT hds he
    rw [atomRun32_eq S T _ _ hT hT1 hc]
    refine ⟨(h.1 c e hcT hds he).1, fun j => ?_⟩
    rw [atomRun32_eq S T _ _ hT hT1 hc]
    exact (h.1 c e hcT hds he).2 j
  · intro c e hc hcT hds he
    rw [atomRun32_eq S T _ _ hT hT1 hc]
    refine ⟨(h.2 c e hcT hds he).1, fun j => ?_⟩
    rw [atomRun32_eq S T _ _ hT hT1 hc]
    exact (h.2 c e hcT hds he).2 j

/-- Unconfirmed-origin snap in `int` arithmetic, whenever `time_frames + 1` is
representable: for `-T < c < 0` one frame in the upper core sets the counter
to `T + 1` and leaves both counts unchanged. -/
theorem unconfirmed_origin_snap32 (S : ℚ) (T : Int) (d : ℚ) (c : Int) (ul lu : Nat)
    (hT : 1 ≤ T) (hT1 : inIntRange (T + 1)) (hc1 : -T < c) (hc2 : c < 0) (hd : S < d) :
    atomBody32 S T d { assignment := c, upper_lower := ul, lower_upper := lu } =
      { assignment := T + 1, upper_lower := ul, lower_upper := lu } := by
  have hc : inIntRange c := by
    unfold inIntRange at *
    omega
  rw [atomBody32_eq S T d _ hT hT1 hc]
  exact unconfirmed_origin_snap S T d c ul lu hT hc1 hc2 hd

/-- Stable residency in `int` arithmetic, whenever `time_frames + 1` is
representable: from counter `0`, with `d > S` in all frames, the counter is
`T + 1` and both counts are unchanged after every frame. -/
theorem stable_residency_no_flip32 (S : ℚ) (T : Int) (ds : List ℚ) (ul lu : Nat)
    (hT : 1 ≤ T) (hT1 : inIntRange (T + 1)) (hds : ∀ d ∈ ds, S < d) :
    ∀ k : Nat, 1 ≤ k → k ≤ ds.length →
      atomRun32 S T (ds.take k) (atomInit ul lu) =
        { assignment := T + 1, upper_lower := ul, lower_upper := lu } := by
  intro k hk1 hk2
  have hc : inIntRange (atomInit ul lu).assignment := by
    simp [inIntRange, atomInit]
  rw [atomRun32_eq S T _ _ hT hT1 hc]
  exact stable_residency_no_flip S T ds ul lu hT hds k hk1 hk2

/-- C8 (failing input): with `-t 2147483647` and `S = 1.5`, an atom that
starts at counter `0` and has `d = 2 > S` in both of two frames has the counter
`-2147483648` after the first frame and `1` after the second, not `T + 1`. -/
theorem stable_residency_overflow :
    (1 : Int) ≤ 2147483647 ∧ (∀ d ∈ ([2, 2] : List ℚ), (3 / 2 : ℚ) < d) ∧
    atomRun32 (3 / 2) 2147483647 (([2, 2] : List ℚ).take 1) (atomInit 0 0) =
      { assignment := -2147483648, upper_lower := 0, lower_upper := 0 } ∧
    atomRun32 (3 / 2) 2147483647 (([2, 2] : List ℚ).take 2) (atomInit 0 0) =
      { assignment := 1, upper_lower := 0, lower_upper := 0 } ∧
    (atomRun32 (3 / 2) 2147483647 (([2, 2] : List ℚ).take 2) (atomInit 0 0)).assignment ≠
      2147483647 + 1 := by
  refine ⟨by decide, ?_, ?_, ?_, ?_⟩
  · simp
    norm_num
  · simp [atomRun32, atomBody32, updateAssignment32, wrapInt32, atomInit]
  · simp [atomRun32, atomBody32, updateAssignment32, wrapInt32, atomInit]
    norm_num
  · simp [atomRun32, atomBody32, updateAssignment32, wrapInt32, atomInit]
    norm_num

/-- Sign of the counter in `int` arithmetic, whenever `time_frames + 1` is
representable: positive after a frame in the upper core, negative (for
`S ≥ 0`) after a frame in the lower core. -/
theorem sign_credits_leaflet32 (S : ℚ) (T : Int) (d : ℚ) (c : Int) (hT : 1 ≤ T)
    (hT1 : inIntRange (T + 1)) (hc : inIntRange c) :
    (S < d → 0 < updateAssignment32 S T d c) ∧
    (0 ≤ S → d < -S → updateAssignment32 S T d c < 0) := by
  rw [updateAssignment32_eq S T d c hT hT1 hc]
  exact sign_credits_leaflet S T d c hT

/-- C23 (failing input): with `time_frames = 2147483647` and `S = 1.5`, after a
frame in the upper core (`d = 2 > S`) the counter of an atom that had `c = 0`
is `-2147483648`, which is negative. -/
theorem upper_core_sign_overflow :
    (1 : Int) ≤ 2147483647 ∧ (3 / 2 : ℚ) < 2 ∧
    updateAssignment32 (3 / 2) 2147483647 2 0 < 0 ∧
    ¬ (0 < updateAssignment32 (3 / 2) 2147483647 2 0) := by
  refine ⟨by decide, by norm_num, ?_, ?_⟩
  · simp [updateAssignment32, wrapInt32]
  · simp [updateAssignment32, wrapInt32]

end Scramblyzer
